import Mathlib

/-!
go-url-shortener: identifier generator, rate limiter, analytics, service, handlers

A shallow embedding of the packages of the URL shortener
(`pkg/shortener/generator.go`, `pkg/ratelimiter/rate_limiter.go`,
`pkg/analytics/analytics.go`, `pkg/errors/api_error.go`,
`pkg/validator/url_validator.go`, `internal/redis/redis.go`,
`internal/service/service.go`, `internal/handler/shorten.go`) together with
theorems about them.

Conventions of the embedding
* A Go `string` is its sequence of bytes; a byte is written as the `Char`
  with the same code, so the `toList` of an ASCII literal is its byte sequence.
* Go functions returning `(value, error)` return a pair whose second component
  is `none` for a nil error; a run-time panic is a separate outcome.
* Every effect is explicit: the entropy source, the clock and the key-value
  store are arguments, mutable receivers are passed in and returned.
-/

set_option autoImplicit false

/-- A Go string, as the sequence of its bytes. -/
abbrev GoString := List Char

namespace Shortener

/-- Error values the generator can return: its own sentinel, or whatever
`rand.Int` reported (identified by a code). -/
inductive GenError where
  | ErrUniqueIDGenerationFailed
  | readerError (code : Nat)
  deriving DecidableEq, Repr

/-- Outcome of a Go call of type `(string, error)`: a normal return of the pair,
or a run-time panic. -/
inductive GoResult where
  | ret (val : GoString) (err : Option GenError)
  | panic
  deriving DecidableEq, Repr

/-- The function `rand.Int` over `rand.Reader` as a black box: the result of its
`i`-th call when that call is made with the bound `max`, either an error code
or the drawn integer. Nothing is assumed of the integer here; the contract of
`rand.Int`, a value in `[0, max)`, is the predicate `RandReader.InRange`. -/
abbrev RandReader := Nat → Nat → Except Nat Nat

/-- Outcome of one `rand.Int(rand.Reader, max)` call. -/
inductive RandResult where
  | value (v : Nat)
  | error (code : Nat)
  | panic
  deriving DecidableEq, Repr

/-- The call `rand.Int(rand.Reader, max)`, the `pos`-th use of the source:
`crypto/rand` panics when `max <= 0`, otherwise the source answers the call
made with this bound. -/
def randInt (rd : RandReader) (pos : Nat) (max : Nat) : RandResult × Nat :=
  if max = 0 then (.panic, pos)
  else
    match rd pos max with
    | .error e => (.error e, pos + 1)
    | .ok v => (.value v, pos + 1)

/-- Constant `defaultAlphabet` of generator.go. -/
def defaultAlphabet : GoString :=
  "0123456789abcdefghijklmnopqrstuvwxyzABCDEFGHIJKLMNOPQRSTUVWXYZ".toList

/-- Constant `defaultLength` of generator.go. -/
def defaultLength : Int := 8

/-- The struct `IDGenerator`. -/
structure IDGenerator where
  alphabet : GoString
  length : Int
  deriving DecidableEq, Repr

/-- Constructor `NewIDGenerator`. -/
def NewIDGenerator (length : Int) : IDGenerator :=
  { alphabet := defaultAlphabet, length := length }

/-- The package variable `DefaultGenerator`, as set by `init`. -/
def DefaultGenerator : IDGenerator := NewIDGenerator defaultLength

/-- Method `CustomAlphabet`. -/
def IDGenerator.CustomAlphabet (g : IDGenerator) (alphabet : GoString) : IDGenerator :=
  { g with alphabet := alphabet }

/-- The `for i := 0; i < g.length; i++` loop of `Generate` with `n` iterations
left, `shortID` holding the bytes written so far. Each iteration draws an index
and reads `g.alphabet[index]`, which panics when the index is out of range. -/
def IDGenerator.generateLoop (g : IDGenerator) (rd : RandReader) :
    Nat → Nat → GoString → GoResult × Nat
  | 0, pos, shortID => (.ret shortID none, pos)
  | n + 1, pos, shortID =>
    match randInt rd pos g.alphabet.length with
    | (.panic, pos1) => (.panic, pos1)
    | (.error e, pos1) => (.ret [] (some (.readerError e)), pos1)
    | (.value v, pos1) =>
      match g.alphabet[v]? with
      | none => (.panic, pos1)
      | some b => g.generateLoop rd n pos1 (shortID ++ [b])

/-- Method `Generate`, reading the entropy source from position `pos` on;
returns the outcome and the new position. `make([]byte, g.length)` panics on a
negative length. -/
def IDGenerator.Generate (g : IDGenerator) (rd : RandReader) (pos : Nat) : GoResult × Nat :=
  if g.length < 0 then (.panic, pos)
  else g.generateLoop rd g.length.toNat pos []

/-- What a run of `GenerateUnique` has done so far: the position in the entropy
source, how many times `Generate` was called, and the identifiers handed to the
existence checker, in call order. -/
structure GenTrace where
  pos : Nat
  generateCalls : Nat
  checked : List GoString
  deriving DecidableEq, Repr

/-- The `for attempt := 0; attempt < maxAttempts; attempt++` loop of
`GenerateUnique` with `n` attempts left. -/
def IDGenerator.generateUniqueLoop (g : IDGenerator) (rd : RandReader)
    (existenceChecker : GoString → Bool) : Nat → GenTrace → GoResult × GenTrace
  | 0, tr => (.ret [] (some .ErrUniqueIDGenerationFailed), tr)
  | n + 1, tr =>
    match g.Generate rd tr.pos with
    | (.panic, pos1) =>
      (.panic, { tr with pos := pos1, generateCalls := tr.generateCalls + 1 })
    | (.ret _ (some e), pos1) =>
      (.ret [] (some e), { tr with pos := pos1, generateCalls := tr.generateCalls + 1 })
    | (.ret shortID none, pos1) =>
      if !existenceChecker shortID then
        (.ret shortID none,
          { pos := pos1, generateCalls := tr.generateCalls + 1,
            checked := tr.checked ++ [shortID] })
      else
        g.generateUniqueLoop rd existenceChecker n
          { pos := pos1, generateCalls := tr.generateCalls + 1,
            checked := tr.checked ++ [shortID] }

/-- The local constant `maxAttempts` of `GenerateUnique`. -/
def maxAttempts : Nat := 10

/-- Method `GenerateUnique`. -/
def IDGenerator.GenerateUnique (g : IDGenerator) (rd : RandReader)
    (existenceChecker : GoString → Bool) (tr : GenTrace) : GoResult × GenTrace :=
  g.generateUniqueLoop rd existenceChecker maxAttempts tr

/-- The first `k` successive calls of `Generate` from position `pos`, when each
of them returns an identifier with a nil error: the identifiers in order and
the position reached. -/
def IDGenerator.generateMany (g : IDGenerator) (rd : RandReader) :
    Nat → Nat → Option (List GoString × Nat)
  | 0, pos => some ([], pos)
  | k + 1, pos =>
    match g.Generate rd pos with
    | (.ret shortID none, pos1) =>
      match g.generateMany rd k pos1 with
      | some (ids, pos2) => some (shortID :: ids, pos2)
      | none => none
    | _ => none

/-- The contract of `rand.Int(rand.Reader, max)` for the bound `max`: a value
returned by a call made with that bound lies in `[0, max)`. Calls made with
another bound are not constrained by it. -/
def RandReader.InRange (rd : RandReader) (max : Nat) : Prop :=
  ∀ i v, rd i max = .ok v → v < max

/-- The entropy source never returns an error, whatever the bound. -/
def RandReader.NeverErrors (rd : RandReader) : Prop :=
  ∀ i max, ∃ v, rd i max = .ok v

end Shortener

namespace Ratelimiter

/-- Modelled from the spec: the type `rate.Limiter` of golang.org/x/time/rate, an
external dependency that is not part of the sources. It is the token bucket of
the spec: a bucket of capacity `burst` that starts full, refills continuously at
`limit` tokens per second up to `burst`, and admits a request iff at least one
token is available, consuming exactly one. Token counts are exact rationals and
instants are clock readings in nanoseconds. -/
structure Limiter where
  limit : ℚ
  burst : Int
  tokens : ℚ
  last : Int
  deriving DecidableEq

/-- Modelled from the spec: `rate.NewLimiter(r, b)`, created at instant `now`:
"a token bucket starts at full capacity (burst B)". -/
def NewLimiter (r : ℚ) (b : Int) (now : Int) : Limiter :=
  { limit := r, burst := b, tokens := (b : ℚ), last := now }

/-- Modelled from the spec: the lazy refill of a bucket to instant `now`,
"tokens refill continuously at rate R tokens/second up to cap B", computed from
the time elapsed since the last refill. -/
def Limiter.refill (l : Limiter) (now : Int) : ℚ :=
  min (l.burst : ℚ) (l.tokens + l.limit * (((now - l.last : Int) : ℚ) / 1000000000))

/-- Modelled from the spec: `(*rate.Limiter).Allow` evaluated at instant `now`:
refill, then "a request is admitted iff at least one token is available at
evaluation time" and "each admitted request consumes exactly one token". -/
def Limiter.Allow (l : Limiter) (now : Int) : Bool × Limiter :=
  let tokens := l.refill now
  if 1 ≤ tokens then (true, { l with tokens := tokens - 1, last := now })
  else (false, { l with tokens := tokens, last := now })

/-- The struct `visitorState`. -/
structure visitorState where
  limiter : Limiter
  lastActive : Int
  deriving DecidableEq

/-- The struct `RateLimiter` (the mutex is not part of the sequential state).
The Go map `visitors` is a partial function on client keys. -/
structure RateLimiter where
  visitors : GoString → Option visitorState
  limit : ℚ
  burst : Int

/-- Constructor `NewRateLimiter`. -/
def NewRateLimiter (requestsPerSecond : ℚ) (burst : Int) : RateLimiter :=
  { visitors := fun _ => none, limit := requestsPerSecond, burst := burst }

/-- The first half of `Allow`: the visitor found under `ip`, created with a new
limiter at instant `now` when the key is absent. -/
def RateLimiter.visitor (r : RateLimiter) (ip : GoString) (now : Int) : visitorState :=
  match r.visitors ip with
  | some v => v
  | none => { limiter := NewLimiter r.limit r.burst now, lastActive := now }

/-- Method `Allow`, with every `time.Now()` of the call reading the instant
`now`: create the visitor when the key is absent, stamp `lastActive`, then ask
the visitor's limiter. Returns the verdict and the updated limiter. -/
def RateLimiter.Allow (r : RateLimiter) (ip : GoString) (now : Int) : Bool × RateLimiter :=
  let visitor : visitorState := r.visitor ip now
  let res := visitor.limiter.Allow now
  (res.1,
    { r with
      visitors := fun k =>
        if k = ip then some { limiter := res.2, lastActive := now } else r.visitors k })

/-- The body that `Clean(duration)` runs on each tick of its ticker, at instant
`now`: delete every visitor with `time.Since(visitor.lastActive) > duration`. -/
def RateLimiter.cleanTick (r : RateLimiter) (now : Int) (duration : Int) : RateLimiter :=
  { r with
    visitors := fun ip =>
      match r.visitors ip with
      | some visitor => if now - visitor.lastActive > duration then none else some visitor
      | none => none }

/-- The part of `http.Request` that the middleware reads: the header map
(canonical key to values) and the remote address. -/
structure Request where
  Header : GoString → List GoString
  RemoteAddr : GoString

/-- The call `req.Header.Get(key)`: the first value of the key, or the empty string. -/
def Request.headerGet (req : Request) (key : GoString) : GoString :=
  match req.Header key with
  | [] => []
  | v :: _ => v

/-- Function `getIP`. -/
def getIP (req : Request) : GoString :=
  let ip := req.headerGet "X-Forwarded-For".toList
  if ip = [] then req.RemoteAddr else ip

/-- A call made on an `http.ResponseWriter`. -/
inductive WriterCall where
  | SetHeader (key value : GoString)
  | WriteHeader (statusCode : Nat)
  | Write (body : GoString)
  deriving DecidableEq, Repr

/-- An `http.ResponseWriter`, as the sequence of calls made on it so far. -/
abbrev ResponseWriter := List WriterCall

/-- Constant `http.StatusTooManyRequests`. -/
def StatusTooManyRequests : Nat := 429

/-- The call `http.Error(w, error, code)` of net/http: plain-text headers, the
status line, then the message followed by a newline. -/
def httpError (w : ResponseWriter) (error : GoString) (code : Nat) : ResponseWriter :=
  w ++ [.SetHeader "Content-Type".toList "text/plain; charset=utf-8".toList,
        .SetHeader "X-Content-Type-Options".toList "nosniff".toList,
        .WriteHeader code,
        .Write (error ++ "\n".toList)]

/-- An `http.Handler` whose effects are on the response writer and on a world
of type `σ`. -/
abbrev Handler (σ : Type) := ResponseWriter → Request → σ → ResponseWriter × σ

/-- Method `Middleware`: the handler it returns, acting on the limiter and on
the world of `next`; `now` is the instant at which `Allow` runs. -/
def RateLimiter.Middleware {σ : Type} (next : Handler σ) (now : Int) :
    Handler (RateLimiter × σ) :=
  fun w req st =>
    let ip := getIP req
    let res := st.1.Allow ip now
    if !res.1 then
      (httpError w "Rate limit exceeded".toList StatusTooManyRequests, (res.2, st.2))
    else
      let out := next w req st.2
      (out.1, (res.2, out.2))

/-- Method `ChiMiddleware`: same body as `Middleware`, over `http.Handler`. -/
def RateLimiter.ChiMiddleware {σ : Type} (next : Handler σ) (now : Int) :
    Handler (RateLimiter × σ) :=
  fun w req st =>
    let ip := getIP req
    let res := st.1.Allow ip now
    if !res.1 then
      (httpError w "Rate limit exceeded".toList StatusTooManyRequests, (res.2, st.2))
    else
      let out := next w req st.2
      (out.1, (res.2, out.2))

/-- A wrapped handler that also keeps the list of requests it was invoked
with, so that invocations can be counted. -/
def recording {σ : Type} (next : Handler σ) : Handler (σ × List Request) :=
  fun w req st =>
    let out := next w req st.1
    (out.1, (out.2, st.2 ++ [req]))

/-- The limiter after a list of `Allow` calls, each with its key and instant,
together with the verdicts in call order. -/
def RateLimiter.allowMany (r : RateLimiter) : List (GoString × Int) → List Bool × RateLimiter
  | [] => ([], r)
  | (ip, now) :: rest =>
    let res := r.Allow ip now
    let out := RateLimiter.allowMany res.2 rest
    (res.1 :: out.1, out.2)

/-- An operation on the limiter: an `Allow` call for a key, or one tick of the
eviction sweep with its idle threshold, each at an instant. -/
inductive Event where
  | allow (ip : GoString) (now : Int)
  | sweep (now : Int) (duration : Int)
  deriving DecidableEq, Repr

/-- The instant of an operation. -/
def Event.time : Event → Int
  | .allow _ now => now
  | .sweep now _ => now

/-- The limiter after one operation. -/
def RateLimiter.step (r : RateLimiter) : Event → RateLimiter
  | .allow ip now => (r.Allow ip now).2
  | .sweep now duration => r.cleanTick now duration

/-- The limiter after a sequence of operations. -/
def RateLimiter.run (r : RateLimiter) : List Event → RateLimiter
  | [] => r
  | e :: es => RateLimiter.run (r.step e) es

/-- The state invariant of a limiter built with rate `R` and burst `B`, at an
instant `t` not before any operation so far: every bucket carries the rate and
capacity of the limiter, holds between 0 and `B` tokens, and was last refilled
no later than `t`. -/
def RateLimiter.WellFormed (R : ℚ) (B : Int) (t : Int) (r : RateLimiter) : Prop :=
  r.limit = R ∧ r.burst = B ∧
    ∀ ip v, r.visitors ip = some v →
      v.limiter.limit = R ∧ v.limiter.burst = B ∧
        0 ≤ v.limiter.tokens ∧ v.limiter.tokens ≤ (B : ℚ) ∧ v.limiter.last ≤ t

end Ratelimiter

namespace Analytics

/-- An instant with the one-second resolution of `time.RFC3339`, counted in
seconds from Go's zero `time.Time`; `0` is the zero time (`IsZero`). -/
abbrev Time := Int

/-- Largest `int64`. -/
def maxInt64 : Int := 9223372036854775807

/-- Smallest `int64`. -/
def minInt64 : Int := -9223372036854775808

/-- Contents of a Redis string value, by what it parses as: `int n` is the
decimal rendering of `n` (what `INCR` writes and `strconv.ParseInt` reads back),
`time t` is the `time.RFC3339` rendering of the instant `t`, and `raw s` is any
string that is neither. -/
inductive RedisString where
  | int (n : Int)
  | time (t : Time)
  | raw (s : GoString)
  deriving DecidableEq, Repr

/-- A value held under a Redis key: a string or a set of strings. -/
inductive RedisValue where
  | str (s : RedisString)
  | set (members : Finset GoString)
  deriving DecidableEq

/-- The Redis keyspace. -/
abbrev Redis := GoString → Option RedisValue

/-- Errors of the Redis client: `redis.Nil` (key absent), the server's
wrong-type, not-an-integer and overflow replies, and a transport failure. -/
inductive RedisError where
  | Nil
  | WrongType
  | NotInteger
  | Overflow
  | Transport
  deriving DecidableEq, Repr

/-- The Redis commands the analytics store queues. -/
inductive Cmd where
  | Incr (key : GoString)
  | SetNX (key : GoString) (value : RedisString)
  | Set (key : GoString) (value : RedisString)
  | SAdd (key : GoString) (member : GoString)
  | Get (key : GoString)
  | SCard (key : GoString)
  deriving DecidableEq, Repr

/-- The reply to a command once executed. -/
inductive Reply where
  | int (n : Int)
  | bool (b : Bool)
  | str (s : RedisString)
  | status
  | error (e : RedisError)
  deriving DecidableEq, Repr

/-- The keyspace with `key` bound to `v`. -/
def Redis.put (db : Redis) (key : GoString) (v : RedisValue) : Redis :=
  fun k => if k = key then some v else db k

/-- The Redis server executing one command (keys without expiry). -/
def Cmd.run (db : Redis) : Cmd → Reply × Redis
  | .Incr key =>
    match db key with
    | none => (.int 1, db.put key (.str (.int 1)))
    | some (.str (.int n)) =>
      if n + 1 > maxInt64 then (.error .Overflow, db)
      else (.int (n + 1), db.put key (.str (.int (n + 1))))
    | some (.str _) => (.error .NotInteger, db)
    | some (.set _) => (.error .WrongType, db)
  | .SetNX key value =>
    match db key with
    | none => (.bool true, db.put key (.str value))
    | some _ => (.bool false, db)
  | .Set key value => (.status, db.put key (.str value))
  | .SAdd key member =>
    match db key with
    | none => (.int 1, db.put key (.set {member}))
    | some (.set s) =>
      if member ∈ s then (.int 0, db) else (.int 1, db.put key (.set (insert member s)))
    | some (.str _) => (.error .WrongType, db)
  | .Get key =>
    match db key with
    | none => (.error .Nil, db)
    | some (.str s) => (.str s, db)
    | some (.set _) => (.error .WrongType, db)
  | .SCard key =>
    match db key with
    | none => (.int 0, db)
    | some (.set s) => (.int s.card, db)
    | some (.str _) => (.error .WrongType, db)

/-- The server executing the queued commands in order: the replies and the
final keyspace. -/
def runAll (db : Redis) : List Cmd → List Reply × Redis
  | [] => ([], db)
  | c :: cs =>
    let r := c.run db
    let rest := runAll r.2 cs
    (r.1 :: rest.1, rest.2)

/-- The first error among the replies (`cmdsFirstErr` of go-redis). -/
def firstErr : List Reply → Option RedisError
  | [] => none
  | .error e :: _ => some e
  | _ :: rs => firstErr rs

/-- A go-redis `Pipeline`: the commands queued so far. -/
abbrev Pipeline := List Cmd

/-- The result cell of a go-redis integer command (`*redis.IntCmd`). -/
structure IntCmd where
  val : Int
  err : Option RedisError
  deriving DecidableEq, Repr

/-- Queueing a command on a pipeline (`Pipeline.Process`): it is appended and
nothing is sent. -/
def Pipeline.queue (pipe : Pipeline) (c : Cmd) : Pipeline := pipe ++ [c]

/-- The call `pipe.SAdd(ctx, key, member)`: the command is queued, and the
`*IntCmd` handed back is the freshly made command, whose value and error are
still the zero values because nothing has been executed. -/
def Pipeline.SAdd (pipe : Pipeline) (key member : GoString) : Pipeline × IntCmd :=
  (pipe.queue (.SAdd key member), { val := 0, err := none })

/-- The method `IntCmd.Result`. -/
def IntCmd.Result (c : IntCmd) : Int × Option RedisError := (c.val, c.err)

/-- The call `pipe.Exec(ctx)` over a connection that either completes the round
trip (`link = true`) or fails: on failure nothing reaches the server and every
command carries the transport error; otherwise the server runs the commands and
`Exec` returns their replies with the first error among them. -/
def Pipeline.Exec (pipe : Pipeline) (db : Redis) (link : Bool) :
    List Reply × Option RedisError × Redis :=
  match pipe with
  | [] => ([], none, db)
  | _ =>
    if link then
      let out := runAll db pipe
      (out.1, firstErr out.1, out.2)
    else (pipe.map (fun _ => Reply.error .Transport), some .Transport, db)

/-- The analytics key `fmt.Sprintf("analytics:%s:<field>", shortID)`. -/
def analyticsKey (shortID : GoString) (field : GoString) : GoString :=
  "analytics:".toList ++ shortID ++ ":".toList ++ field

/-- Key of the total-clicks counter. -/
def totalClicksKey (shortID : GoString) : GoString := analyticsKey shortID "total_clicks".toList

/-- Key of the explicit unique-visits counter. -/
def uniqueVisitsKey (shortID : GoString) : GoString := analyticsKey shortID "unique_visits".toList

/-- Key of the last-access timestamp. -/
def lastAccessedKey (shortID : GoString) : GoString := analyticsKey shortID "last_accessed".toList

/-- Key of the first-access timestamp. -/
def firstAccessedKey (shortID : GoString) : GoString := analyticsKey shortID "first_accessed".toList

/-- Key of the unique-visitor set. -/
def uniqueIPKey (shortID : GoString) : GoString := analyticsKey shortID "unique_ips".toList

/-- Method `RecordURLAccess`; `now1` and `now2` are the two readings of
`time.Now()`, `link` tells whether the round trip of `Exec` completes. Returns
the error and the keyspace afterwards. -/
def RecordURLAccess (db : Redis) (link : Bool) (shortID ipAddress : GoString)
    (now1 now2 : Time) : Option RedisError × Redis :=
  let pipe : Pipeline := []
  let pipe := pipe.queue (.Incr (totalClicksKey shortID))
  let pipe := pipe.queue (.SetNX (firstAccessedKey shortID) (.time now1))
  let pipe := pipe.queue (.Set (lastAccessedKey shortID) (.time now2))
  let added := pipe.SAdd (uniqueIPKey shortID) ipAddress
  let pipe := added.1
  let res := added.2.Result
  match res.2 with
  | some err => (some err, db)
  | none =>
    let pipe := if res.1 > 0 then pipe.queue (.Incr (uniqueVisitsKey shortID)) else pipe
    let out := pipe.Exec db link
    (out.2.1, out.2.2)

/-- The struct `URLAnalytics`. -/
structure URLAnalytics where
  TotalClicks : Int
  FirstAccessed : Time
  LastAccessed : Time
  UniqueVisits : Int
  deriving DecidableEq, Repr

/-- The method `StringCmd.Int64` on an executed `Get`: the command's error, or
`strconv.ParseInt(val, 10, 64)`. -/
def Reply.Int64 : Reply → Except RedisError Int
  | .error e => .error e
  | .str (.int n) => if minInt64 ≤ n ∧ n ≤ maxInt64 then .ok n else .error .NotInteger
  | _ => .error .NotInteger

/-- The method `IntCmd.Result` on an executed `SCard`. -/
def Reply.intResult : Reply → Except RedisError Int
  | .error e => .error e
  | .int n => .ok n
  | _ => .error .NotInteger

/-- The method `StringCmd.Result` on an executed `Get`. -/
def Reply.strResult : Reply → Except RedisError RedisString
  | .error e => .error e
  | .str s => .ok s
  | _ => .error .NotInteger

/-- The value of `time.Parse(time.RFC3339, s)`: the instant, or the zero time
when the string does not parse. -/
def parseRFC3339 : RedisString → Time
  | .time t => t
  | _ => 0

/-- Method `GetURLAnalytics`: the summary (nil on failure) and the error. -/
def GetURLAnalytics (db : Redis) (link : Bool) (shortID : GoString) :
    Option URLAnalytics × Option RedisError :=
  let pipe : Pipeline := []
  let pipe := pipe.queue (.Get (totalClicksKey shortID))
  let pipe := pipe.queue (.Get (uniqueVisitsKey shortID))
  let pipe := pipe.queue (.Get (lastAccessedKey shortID))
  let pipe := pipe.queue (.Get (firstAccessedKey shortID))
  let pipe := pipe.queue (.SCard (uniqueIPKey shortID))
  let out := pipe.Exec db link
  let err := out.2.1
  if err ≠ none ∧ err ≠ some .Nil then (none, err)
  else
    let totalClicksCmd := out.1.getD 0 (.error .Transport)
    let uniqueVisitsCmd := out.1.getD 1 (.error .Transport)
    let lastAccessedCmd := out.1.getD 2 (.error .Transport)
    let firstAccessedCmd := out.1.getD 3 (.error .Transport)
    let uniqueIPsCmd := out.1.getD 4 (.error .Transport)
    let analytics : URLAnalytics :=
      { TotalClicks := 0, FirstAccessed := 0, LastAccessed := 0, UniqueVisits := 0 }
    let analytics :=
      match totalClicksCmd.Int64 with
      | .ok totalClicks => { analytics with TotalClicks := totalClicks }
      | .error _ => analytics
    let analytics :=
      match uniqueIPsCmd.intResult with
      | .ok uniqueIPCount => { analytics with UniqueVisits := uniqueIPCount }
      | .error _ => analytics
    let analytics :=
      match uniqueVisitsCmd.Int64 with
      | .ok uniqueVisits => { analytics with UniqueVisits := uniqueVisits }
      | .error _ => analytics
    let analytics :=
      match lastAccessedCmd.strResult with
      | .ok lastAccessed => { analytics with LastAccessed := parseRFC3339 lastAccessed }
      | .error _ => analytics
    let analytics :=
      match firstAccessedCmd.strResult with
      | .ok firstAccessed => { analytics with FirstAccessed := parseRFC3339 firstAccessed }
      | .error _ => analytics
    (some analytics, none)

/-- One access to record: the client key, the two clock readings and whether
the round trip completes. -/
structure Access where
  ipAddress : GoString
  now1 : Time
  now2 : Time
  link : Bool
  deriving DecidableEq, Repr

/-- A sequence of `RecordURLAccess` calls for one identifier: the errors
returned, in call order, and the keyspace afterwards. -/
def recordAll (shortID : GoString) : Redis → List Access → List (Option RedisError) × Redis
  | db, [] => ([], db)
  | db, a :: rest =>
    let r := RecordURLAccess db a.link shortID a.ipAddress a.now1 a.now2
    let out := recordAll shortID r.2 rest
    (r.1 :: out.1, out.2)

/-- The empty keyspace. -/
def emptyRedis : Redis := fun _ => none

/-- No analytics field of the identifier is stored. -/
def Fresh (shortID : GoString) (db : Redis) : Prop :=
  db (totalClicksKey shortID) = none ∧ db (uniqueVisitsKey shortID) = none ∧
    db (lastAccessedKey shortID) = none ∧ db (firstAccessedKey shortID) = none ∧
    db (uniqueIPKey shortID) = none

/-- The analytics fields of the identifier after `n >= 1` recorded accesses by
the client keys `S`, with no explicit unique-visits counter stored: the click
counter holds `n`, the visitor set is `S`, both timestamps are set. -/
def Recorded (shortID : GoString) (n : Nat) (S : Finset GoString) (db : Redis) : Prop :=
  db (totalClicksKey shortID) = some (.str (.int n)) ∧ (n : Int) ≤ maxInt64 ∧
    db (uniqueVisitsKey shortID) = none ∧
    (∃ t, db (lastAccessedKey shortID) = some (.str (.time t))) ∧
    (∃ t, db (firstAccessedKey shortID) = some (.str (.time t))) ∧
    db (uniqueIPKey shortID) = some (.set S)

/-- The key a command addresses. -/
def Cmd.key : Cmd → GoString
  | .Incr key => key
  | .SetNX key _ => key
  | .Set key _ => key
  | .SAdd key _ => key
  | .Get key => key
  | .SCard key => key

/-- Every analytics field of the identifier that is stored has the Redis type
that `RecordURLAccess` gives it: the two counters and the two timestamps are
strings, the visitor collection is a set. -/
def WellTyped (shortID : GoString) (db : Redis) : Prop :=
  (∀ S, db (totalClicksKey shortID) ≠ some (.set S)) ∧
    (∀ S, db (uniqueVisitsKey shortID) ≠ some (.set S)) ∧
    (∀ S, db (lastAccessedKey shortID) ≠ some (.set S)) ∧
    (∀ S, db (firstAccessedKey shortID) ≠ some (.set S)) ∧
    (∀ s, db (uniqueIPKey shortID) ≠ some (.str s))

/-- The batch of five reads that `GetURLAnalytics` queues. -/
def analyticsReads (shortID : GoString) : Pipeline :=
  [.Get (totalClicksKey shortID), .Get (uniqueVisitsKey shortID),
    .Get (lastAccessedKey shortID), .Get (firstAccessedKey shortID),
    .SCard (uniqueIPKey shortID)]

/-- The counter stored under a key, when the key holds a string that parses as
an `int64`. -/
def storedCounter (db : Redis) (key : GoString) : Option Int :=
  match db key with
  | some (.str (.int n)) => if minInt64 ≤ n ∧ n ≤ maxInt64 then some n else none
  | _ => none

/-- The instant stored under a key, when the key holds a string that parses as
an RFC3339 time; the zero time otherwise. -/
def storedTime (db : Redis) (key : GoString) : Time :=
  match db key with
  | some (.str (.time t)) => t
  | _ => 0

/-- The cardinality of the set stored under a key; 0 when the key is absent
(the empty set) or does not hold a set. -/
def storedCard (db : Redis) (key : GoString) : Int :=
  match db key with
  | some (.set S) => S.card
  | _ => 0

/-- The value `GetURLAnalytics` takes from an executed counter read. -/
def clicksOf (r : Reply) : Int :=
  match r.Int64 with
  | .ok n => n
  | .error _ => 0

/-- The value `GetURLAnalytics` takes from an executed timestamp read. -/
def timeOf (r : Reply) : Time :=
  match r.strResult with
  | .ok t => parseRFC3339 t
  | .error _ => 0

/-- The unique-visits value `GetURLAnalytics` takes from the executed read of
the explicit counter and the executed `SCard`. -/
def visitsOf (counter card : Reply) : Int :=
  match counter.Int64 with
  | .ok n => n
  | .error _ =>
    match card.intResult with
    | .ok c => c
    | .error _ => 0

end Analytics

namespace Errors

open Ratelimiter

/-- The struct `APIError`; HTTP status codes are non-negative. -/
structure APIError where
  Code : Nat
  Message : GoString
  Detail : GoString
  deriving DecidableEq, Repr

/-- Function `New`, the variadic `detail` given as a list. -/
def New (code : Nat) (message : GoString) (detail : List GoString) : APIError :=
  match detail with
  | [] => { Code := code, Message := message, Detail := [] }
  | d :: _ => { Code := code, Message := message, Detail := d }

/-- Constant `http.StatusBadRequest`. -/
def StatusBadRequest : Nat := 400

/-- Constant `http.StatusForbidden`. -/
def StatusForbidden : Nat := 403

/-- Constant `http.StatusNotFound`. -/
def StatusNotFound : Nat := 404

/-- Constant `http.StatusInternalServerError`. -/
def StatusInternalServerError : Nat := 500

/-- Constant `http.StatusOK`. -/
def StatusOK : Nat := 200

/-- Constant `http.StatusFound`. -/
def StatusFound : Nat := 302

/-- Predefined error `ErrBadRequest`. -/
def ErrBadRequest : APIError :=
  { Code := StatusBadRequest, Message := "Invalid request".toList, Detail := [] }

/-- Predefined error `ErrForbidden`. -/
def ErrForbidden : APIError :=
  { Code := StatusForbidden, Message := "Operation not allowed".toList, Detail := [] }

/-- Predefined error `ErrInternal`. -/
def ErrInternal : APIError :=
  { Code := StatusInternalServerError, Message := "Server error".toList, Detail := [] }

/-- A value of a JSON document as the handlers produce them. -/
inductive JsonValue where
  | num (n : Int)
  | str (s : GoString)
  deriving DecidableEq, Repr

/-- A JSON object: its members in the order the encoder writes them. -/
abbrev JsonObject := List (GoString × JsonValue)

/-- The JSON object of an `APIError` under its struct tags: `code`, `message`
and, unless it is empty (`omitempty`), `detail`. -/
def APIError.json (e : APIError) : JsonObject :=
  [("code".toList, .num e.Code), ("message".toList, .str e.Message)] ++
    (if e.Detail = [] then [] else [("detail".toList, .str e.Detail)])

/-- The Go standard library as the handlers use it, taken as given: the bytes
that `json.NewEncoder(w).Encode` writes for a document, and the `Location`
value and body that `http.Redirect` writes for a target. -/
structure StdLib where
  jsonEncode : JsonObject → GoString
  redirectLocation : GoString → GoString
  redirectBody : GoString → GoString

/-- Method `WriteResponse`: content type, status line, then the error encoded
as JSON. -/
def APIError.WriteResponse (std : StdLib) (e : APIError) (w : ResponseWriter) :
    ResponseWriter :=
  w ++ [.SetHeader "Content-Type".toList "application/json".toList,
        .WriteHeader e.Code,
        .Write (std.jsonEncode e.json)]

/-- A Go `error` value as the service and the handlers see it: an `*APIError`,
an error of the identifier generator, or any other error with its text. -/
inductive GoError where
  | api (e : APIError)
  | generator (e : Shortener.GenError)
  | text (msg : GoString)
  deriving DecidableEq, Repr

end Errors

namespace Validator

open Errors

/-- What `Validate` reads from the result of `url.Parse`: the scheme and the
value of `Hostname()`. -/
structure ParsedURL where
  Scheme : GoString
  Hostname : GoString
  deriving DecidableEq, Repr

/-- The libraries that `Validate` calls, taken as given: `url.Parse` (`none`
for an error), `govalidator.IsURL` and `strings.ToLower`. -/
structure URLLib where
  Parse : GoString → Option ParsedURL
  IsURL : GoString → Bool
  ToLower : GoString → GoString

/-- The struct `URLValidator`. -/
structure URLValidator where
  blockedDomains : List GoString
  maxURLLength : Int
  deriving DecidableEq, Repr

/-- Constructor `NewURLValidator`. -/
def NewURLValidator : URLValidator :=
  { blockedDomains := [], maxURLLength := 2048 }

/-- Method `isDomainBlocked`. -/
def URLValidator.isDomainBlocked (lib : URLLib) (v : URLValidator) (domain : GoString) : Bool :=
  v.blockedDomains.any (fun blockedDomain =>
    decide (lib.ToLower domain = lib.ToLower blockedDomain))

/-- Method `Validate`: `none` is the nil `*APIError`. -/
def URLValidator.Validate (lib : URLLib) (v : URLValidator) (rawURL : GoString) :
    Option APIError :=
  if rawURL = [] then
    some (New 400 "URL cannot be empty".toList ["Please provide a valid URL".toList])
  else if (rawURL.length : Int) > v.maxURLLength then
    some (New 413 "URL is too long".toList
      ["The entered URL exceeds the maximum allowed length".toList])
  else
    match lib.Parse rawURL with
    | none =>
      some (New 400 "Invalid URL format".toList ["Please enter a correct URL format".toList])
    | some parsedURL =>
      if parsedURL.Scheme ≠ "http".toList ∧ parsedURL.Scheme ≠ "https".toList then
        some (New 400 "Only http and https schemes are supported".toList
          ["Please enter a URL starting with http or https".toList])
      else if !lib.IsURL rawURL then
        some (New 400 "Invalid URL".toList
          ["The entered URL is not a valid web address".toList])
      else if v.isDomainBlocked lib parsedURL.Hostname then
        some (New 403 "This domain is blocked".toList
          ["The specified domain is not allowed".toList])
      else none

/-- Method `AddBlockedDomain`. -/
def URLValidator.AddBlockedDomain (v : URLValidator) (domain : GoString) : URLValidator :=
  { v with blockedDomains := v.blockedDomains ++ [domain] }

/-- The values of `url.Parse` and `govalidator.IsURL` on the URLs of the
examples (`https://example.com` parses with scheme `https` and host
`example.com` and is a URL; `not-a-url` parses with an empty scheme and is not
a URL), every other input counting as unparsable; `ToLower` on ASCII letters. -/
def exampleLib : URLLib :=
  { Parse := fun rawURL =>
      if rawURL = "https://example.com".toList then
        some { Scheme := "https".toList, Hostname := "example.com".toList }
      else if rawURL = "not-a-url".toList then some { Scheme := [], Hostname := [] }
      else none,
    IsURL := fun rawURL => decide (rawURL = "https://example.com".toList),
    ToLower := fun t => t.map Char.toLower }

end Validator

namespace Service

open Errors Validator Shortener

/-- The fields of `config.Config` that the service reads; durations are in
nanoseconds. -/
structure Config where
  BaseURL : GoString
  DefaultURLTTL : Int
  deriving DecidableEq, Repr

/-- The interface `redis.URLStore` over a store state `σ`: saving returns the
error and the new state, looking up returns the value and the error. -/
structure URLStore (σ : Type) where
  SaveShortenedURLWithTTL : σ → GoString → GoString → Int → Option GoError × σ
  GetOriginalURL : σ → GoString → GoString × Option GoError

/-- The struct `urlShortenOptions`. -/
structure urlShortenOptions where
  ttl : Int
  deriving DecidableEq, Repr

/-- The type `URLShortenOption`. -/
abbrev URLShortenOption := urlShortenOptions → urlShortenOptions

/-- Function `WithTTL`. -/
def WithTTL (duration : Int) : URLShortenOption :=
  fun opts => { opts with ttl := duration }

/-- The struct `URLShorteningServiceImpl`. -/
structure URLShorteningServiceImpl (σ : Type) where
  cfg : Config
  Store : URLStore σ
  validator : URLValidator

/-- Constructor `NewURLShorteningService`. -/
def NewURLShorteningService {σ : Type} (cfg : Config) (store : URLStore σ) :
    URLShorteningServiceImpl σ :=
  { cfg := cfg, Store := store, validator := NewURLValidator }

/-- Outcome of a service call of type `(string, error)`: a normal return of the
pair, or a run-time panic. -/
inductive ServiceResult where
  | ret (val : GoString) (err : Option GoError)
  | panic
  deriving DecidableEq, Repr

/-- What a `ShortenURL` call has done: its result, the store afterwards, the
trace of `GenerateUnique` (every identifier checked is one store lookup), and
the arguments of the one `SaveShortenedURLWithTTL` call, if it was made. -/
structure ShortenOutcome (σ : Type) where
  result : ServiceResult
  store : σ
  trace : GenTrace
  saved : Option (GoString × GoString × Int)

/-- The options of a `ShortenURL` call after the `for _, opt := range options`
loop, starting from the configured default. -/
def resolveOptions (cfg : Config) (options : List URLShortenOption) : urlShortenOptions :=
  options.foldl (fun opts opt => opt opts) { ttl := cfg.DefaultURLTTL }

/-- Method `ShortenURL`, on the store state `st`, reading the entropy source
from position `pos`. -/
def URLShorteningServiceImpl.ShortenURL {σ : Type} (lib : URLLib)
    (s : URLShorteningServiceImpl σ) (st : σ) (rd : RandReader) (pos : Nat)
    (originalURL : GoString) (options : List URLShortenOption) : ShortenOutcome σ :=
  match s.validator.Validate lib originalURL with
  | some apiErr =>
    { result := .ret [] (some (.api apiErr)), store := st,
      trace := { pos := pos, generateCalls := 0, checked := [] }, saved := none }
  | none =>
    let opts := resolveOptions s.cfg options
    let gen := DefaultGenerator.GenerateUnique rd
      (fun id => (s.Store.GetOriginalURL st id).2.isNone)
      { pos := pos, generateCalls := 0, checked := [] }
    match gen.1 with
    | .panic => { result := .panic, store := st, trace := gen.2, saved := none }
    | .ret _ (some err) =>
      { result := .ret [] (some (.generator err)), store := st, trace := gen.2,
        saved := none }
    | .ret shortID none =>
      let save := s.Store.SaveShortenedURLWithTTL st shortID originalURL opts.ttl
      match save.1 with
      | some err =>
        { result := .ret [] (some err), store := save.2, trace := gen.2,
          saved := some (shortID, originalURL, opts.ttl) }
      | none =>
        { result := .ret (s.cfg.BaseURL ++ "/".toList ++ shortID) none, store := save.2,
          trace := gen.2, saved := some (shortID, originalURL, opts.ttl) }

/-- Method `GetOriginalURL` of the service. -/
def URLShorteningServiceImpl.GetOriginalURL {σ : Type} (s : URLShorteningServiceImpl σ)
    (st : σ) (shortID : GoString) : GoString × Option GoError :=
  s.Store.GetOriginalURL st shortID

/-- The store `mockRedisStore` of service_test.go: a map from identifier to
URL. -/
def mockRedisStore : URLStore (GoString → Option GoString) :=
  { SaveShortenedURLWithTTL := fun urls shortID originalURL _ =>
      (none, fun k => if k = shortID then some originalURL else urls k),
    GetOriginalURL := fun urls shortID =>
      match urls shortID with
      | some url => (url, none)
      | none => ([], some (.text "URL not found".toList)) }

/-- The Redis connection as the URL store sees it: the string keys with their
value and the expiry they were set with, and whether a round trip fails, with
the text of the failure. -/
structure RedisConn where
  entries : GoString → Option (GoString × Int)
  fault : Option GoString

/-- The store `RedisStore` of redis.go: `GetOriginalURL` is a `GET` whose error
(`redis: nil` for an absent key, or the failure of the round trip) is wrapped,
`SaveShortenedURLWithTTL` is a `SET` with the expiry. -/
def RedisStore : URLStore RedisConn :=
  { SaveShortenedURLWithTTL := fun c shortID originalURL ttl =>
      match c.fault with
      | some msg => (some (.text ("failed to save URL with TTL: ".toList ++ msg)), c)
      | none =>
        (none,
          { c with
            entries := fun k => if k = shortID then some (originalURL, ttl) else c.entries k }),
    GetOriginalURL := fun c shortID =>
      match c.fault with
      | some msg => ([], some (.text ("could not get original URL: ".toList ++ msg)))
      | none =>
        match c.entries shortID with
        | some entry => (entry.1, none)
        | none => ([], some (.text "could not get original URL: redis: nil".toList)) }

/-- The configuration of service_test.go: base `http://short.url`, default
expiry 24 hours. -/
def testConfig : Config :=
  { BaseURL := "http://short.url".toList, DefaultURLTTL := 86400000000000 }

/-- A store is map-like with respect to a view of its state as a map from
identifier to URL: a lookup succeeds, with the mapped URL, exactly for the keys
of the map, and a save that succeeds binds its key and nothing else. -/
def URLStore.MapLike {σ : Type} (S : URLStore σ) (view : σ → GoString → Option GoString) :
    Prop :=
  (∀ st id url, view st id = some url → S.GetOriginalURL st id = (url, none)) ∧
    (∀ st id, view st id = none → (S.GetOriginalURL st id).2 ≠ none) ∧
    (∀ st id url ttl st1, S.SaveShortenedURLWithTTL st id url ttl = (none, st1) →
      ∀ k, view st1 k = if k = id then some url else view st k)

end Service

namespace Handler

open Errors Ratelimiter Service

/-- Outcome of a method of the interface `service.URLShorteningService` on a
world `σ`: the returned pair and the world afterwards. -/
abbrev ServiceCall (σ : Type) := (GoString × Option GoError) × σ

/-- The interface `service.URLShorteningService`, as the handler holds it. -/
structure URLShorteningService (σ : Type) where
  ShortenURL : σ → GoString → List URLShortenOption → ServiceCall σ
  GetOriginalURL : σ → GoString → ServiceCall σ

/-- The decoded body of a shorten request: the fields `original` and `ttl`. -/
structure urlRequest where
  Original : GoString
  TTL : Int
  deriving DecidableEq, Repr

/-- The service call of `ShortenHandler.ShortenURL`: with the option
`WithTTL(TTL)` when the request carries a positive `ttl`, without option
otherwise. -/
def shortenCall {σ : Type} (svc : URLShorteningService σ) (req : urlRequest) (st : σ) :
    ServiceCall σ :=
  if req.TTL > 0 then svc.ShortenURL st req.Original [WithTTL req.TTL]
  else svc.ShortenURL st req.Original []

/-- Method `ShortenHandler.ShortenURL`. `body` is the result of decoding the
request body as JSON: the text of the decoding error, or the request. Logging
is left out. -/
def ShortenURL {σ : Type} (std : StdLib) (svc : URLShorteningService σ)
    (w : ResponseWriter) (body : Except GoString urlRequest) (st : σ) : ResponseWriter × σ :=
  match body with
  | .error errText =>
    ((New StatusBadRequest "Invalid input".toList [errText]).WriteResponse std w, st)
  | .ok req =>
    let res := shortenCall svc req st
    match res.1.2 with
    | some (.api apiErr) => (apiErr.WriteResponse std w, res.2)
    | some _ => (ErrInternal.WriteResponse std w, res.2)
    | none =>
      (w ++ [.SetHeader "Content-Type".toList "application/json".toList,
             .WriteHeader StatusOK,
             .Write (std.jsonEncode
               [("original".toList, .str req.Original), ("shortened".toList, .str res.1.1)])],
        res.2)

/-- The call `http.Redirect(w, r, url, code)` for a `GET` request: the
`Location` header, the HTML content type, the status line and the short body. -/
def httpRedirect (std : StdLib) (w : ResponseWriter) (url : GoString) (code : Nat) :
    ResponseWriter :=
  w ++ [.SetHeader "Location".toList (std.redirectLocation url),
        .SetHeader "Content-Type".toList "text/html; charset=utf-8".toList,
        .WriteHeader code,
        .Write (std.redirectBody url)]

/-- Function `getClientIP`. `Header.Get` looks a key up under its canonical
form, so the call `r.Header.Get("X-Real-IP")` of the source reads the entry
`X-Real-Ip` of the header map, which is keyed by canonical names;
`X-Forwarded-For` is its own canonical form. -/
def getClientIP (r : Request) : GoString :=
  let ip := r.headerGet "X-Forwarded-For".toList
  let ip := if ip = [] then r.headerGet "X-Real-Ip".toList else ip
  if ip = [] then r.RemoteAddr else ip

/-- What a `Redirect` call has done: the response, the world of the service
afterwards, and the arguments of the `RecordURLAccess` call that it starts in
the background, if any. -/
structure RedirectOutcome (σ : Type) where
  response : ResponseWriter
  world : σ
  recorded : Option (GoString × GoString)

/-- Method `ShortenHandler.Redirect`; `shortID` is the route parameter
`shortened`. Logging is left out. -/
def Redirect {σ : Type} (std : StdLib) (svc : URLShorteningService σ)
    (w : ResponseWriter) (r : Request) (shortID : GoString) (st : σ) : RedirectOutcome σ :=
  let res := svc.GetOriginalURL st shortID
  match res.1.2 with
  | some _ =>
    { response :=
        (New StatusNotFound "Short URL not found".toList
          ["The requested short URL does not exist".toList]).WriteResponse std w,
      world := res.2, recorded := none }
  | none =>
    { response := httpRedirect std w res.1.1 StatusFound,
      world := res.2, recorded := some (shortID, getClientIP r) }

/-- The service implementation as the handler's `GetOriginalURL`; the handler
reaches the store only through it. `ShortenURL` is not used on the redirect
path and is given by the caller. -/
def serviceOver {σ : Type} (impl : URLShorteningServiceImpl σ)
    (shorten : σ → GoString → List URLShortenOption → ServiceCall σ) :
    URLShorteningService σ :=
  { ShortenURL := shorten,
    GetOriginalURL := fun st shortID => (impl.GetOriginalURL st shortID, st) }

end Handler

namespace Validator

/-- The values of `url.Parse` (scheme and hostname) and `govalidator.IsURL` on
the URLs of url_validator_test.go. -/
def testTable : List (GoString × ParsedURL × Bool) :=
  [("http://google.com".toList,
      { Scheme := "http".toList, Hostname := "google.com".toList }, true),
   ("https://www.google.com".toList,
      { Scheme := "https".toList, Hostname := "www.google.com".toList }, true),
   ("not-a-url".toList, { Scheme := [], Hostname := [] }, false),
   ("example.com".toList, { Scheme := [], Hostname := [] }, true),
   ("http://specific-blocked-domain.com/test".toList,
      { Scheme := "http".toList, Hostname := "specific-blocked-domain.com".toList }, true),
   ("http://blocked-example.com/test".toList,
      { Scheme := "http".toList, Hostname := "blocked-example.com".toList }, true),
   ("http://Blocked-Example.COM/test".toList,
      { Scheme := "http".toList, Hostname := "Blocked-Example.COM".toList }, true),
   ("http://example.org".toList,
      { Scheme := "http".toList, Hostname := "example.org".toList }, true)]

/-- The libraries on the URLs of url_validator_test.go, every other input
counting as unparsable; `ToLower` on ASCII letters. -/
def testLib : URLLib :=
  { Parse := fun rawURL => (testTable.lookup rawURL).map (fun e => e.1),
    IsURL := fun rawURL => ((testTable.lookup rawURL).map (fun e => e.2)).getD false,
    ToLower := fun t => t.map Char.toLower }

/-- The "Very Long URL" of url_validator_test.go: `http://` followed by 2500
zero bytes, 2507 bytes in all. -/
def veryLongURL : GoString := "http://".toList ++ List.replicate 2500 (Char.ofNat 0)

end Validator

namespace Analytics

/-- The five analytics fields of an identifier. -/
def analyticsFields : List GoString :=
  ["total_clicks".toList, "unique_visits".toList, "last_accessed".toList,
    "first_accessed".toList, "unique_ips".toList]

end Analytics

namespace Service

/-- The existence checker that `ShortenURL` hands to `GenerateUnique`: the
closure `func(id) bool { _, err := s.Store.GetOriginalURL(ctx, id); return err == nil }`
on the store state `st`. -/
def URLShorteningServiceImpl.idExists {σ : Type} (s : URLShorteningServiceImpl σ) (st : σ)
    (id : GoString) : Bool :=
  (s.Store.GetOriginalURL st id).2.isNone

end Service





namespace Ratelimiter

/-- Method `Allow` with its clock readings kept apart: `stamp` is the reading of
`time.Now()` that the call stores as `lastActive`, and `now` is the later
reading that the limiter takes inside `limiter.Allow()`. The reading stored
when the visitor is created is overwritten by `stamp` before the call returns.
`RateLimiter.Allow` is the case where the readings coincide. -/
def RateLimiter.AllowAt (r : RateLimiter) (ip : GoString) (stamp now : Int) :
    Bool × RateLimiter :=
  let visitor : visitorState := r.visitor ip now
  let visitor : visitorState := { visitor with lastActive := stamp }
  let res := visitor.limiter.Allow now
  (res.1,
    { r with
      visitors := fun k =>
        if k = ip then some { limiter := res.2, lastActive := visitor.lastActive }
        else r.visitors k })

/-- The body of a tick of `Clean(duration)` with the clock readings of its loop
kept apart: `since ip` is the reading that `time.Since(visitor.lastActive)`
takes for the entry of `ip`. `RateLimiter.cleanTick` is the case where all the
readings coincide. -/
def RateLimiter.cleanTickAt (r : RateLimiter) (since : GoString → Int) (duration : Int) :
    RateLimiter :=
  { r with
    visitors := fun ip =>
      match r.visitors ip with
      | some visitor => if since ip - visitor.lastActive > duration then none else some visitor
      | none => none }

/-- An operation on the limiter with all its clock readings: an `Allow` call for
a key, with the reading it stores as `lastActive` and the reading of its
limiter, or one tick of the eviction sweep, with the reading it takes for each
entry and its idle threshold. -/
inductive Op where
  | allow (ip : GoString) (stamp now : Int)
  | sweep (since : GoString → Int) (duration : Int)

/-- The limiter after one operation. -/
def RateLimiter.apply (r : RateLimiter) : Op → RateLimiter
  | .allow ip stamp now => (r.AllowAt ip stamp now).2
  | .sweep since duration => r.cleanTickAt since duration

/-- The limiter after a sequence of operations. -/
def RateLimiter.runOps (r : RateLimiter) : List Op → RateLimiter
  | [] => r
  | op :: ops => RateLimiter.runOps (r.apply op) ops

/-- The verdicts of the `Allow` calls of a sequence of operations, in call
order. -/
def RateLimiter.verdictsOf (r : RateLimiter) : List Op → List Bool
  | [] => []
  | .allow ip stamp now :: ops =>
    (r.AllowAt ip stamp now).1 :: RateLimiter.verdictsOf (r.AllowAt ip stamp now).2 ops
  | .sweep since duration :: ops => RateLimiter.verdictsOf (r.cleanTickAt since duration) ops

/-- The operations run one after the other from instant `t` on, as the mutex
makes them, on a clock that does not go back: in an `Allow` call the limiter
reads the clock after the `lastActive` stamp and at most `lag` later, and every
reading of an operation lies between the last reading of the operation before
it and the first reading of the operation after it. -/
def Timed (lag : Int) : Int → List Op → Prop
  | _, [] => True
  | t, .allow _ stamp now :: ops =>
    t ≤ stamp ∧ stamp ≤ now ∧ now ≤ stamp + lag ∧ Timed lag now ops
  | t, .sweep since _ :: ops =>
    ∃ t1, (∀ ip, t ≤ since ip ∧ since ip ≤ t1) ∧ Timed lag t1 ops

/-- The state invariant of a limiter built with rate `R` and burst `B`, at an
instant `t` not before any clock reading so far, when no limiter read the clock
more than `lag` after the `lastActive` stamp of its call: every bucket carries
the rate and capacity of the limiter, holds between 0 and `B` tokens, was last
refilled no later than `t` and at most `lag` after it was last active. -/
def RateLimiter.Sound (R : ℚ) (B : Int) (lag : Int) (t : Int) (r : RateLimiter) : Prop :=
  r.limit = R ∧ r.burst = B ∧
    ∀ ip v, r.visitors ip = some v →
      v.limiter.limit = R ∧ v.limiter.burst = B ∧
        0 ≤ v.limiter.tokens ∧ v.limiter.tokens ≤ (B : ℚ) ∧ v.limiter.last ≤ t ∧
        v.limiter.last ≤ v.lastActive + lag

/-- Two tables that differ only by evicted buckets: at every key they agree, or
the second has no bucket and the first a bucket of the limiter that at instant
`t` has been idle for more than `D` and was last refilled at most `lag` after it
was last active. -/
def EvictedOnly (R : ℚ) (B : Int) (D : Int) (lag : Int) (t : Int) (r1 r2 : RateLimiter) :
    Prop :=
  r1.limit = R ∧ r1.burst = B ∧ r2.limit = R ∧ r2.burst = B ∧
    ∀ ip, r1.visitors ip = r2.visitors ip ∨
      (r2.visitors ip = none ∧
        ∃ v, r1.visitors ip = some v ∧ t - v.lastActive > D ∧
          v.limiter.limit = R ∧ v.limiter.burst = B ∧ 0 ≤ v.limiter.tokens ∧
          v.limiter.last ≤ v.lastActive + lag)

end Ratelimiter

namespace Shortener

/-- The source that answers the first calls of `rand.Int` with the listed
values, whatever their bounds, and at the first call beyond them reports, as
its error code, the bound that this call is made with. Running `Generate` over
it tells whether the run ends within the listed draws and, if not, with which
bound the next draw is made. -/
def probeReader (answers : List Nat) : RandReader :=
  fun i max =>
    match answers[i]? with
    | some v => .ok v
    | none => .error max

/-- The probability that `Generate`, reading the source from position 0,
returns the string `s` with a nil error when every call
`rand.Int(rand.Reader, max)` it makes returns a value uniform on `[0, max)`,
independently of the earlier ones. `answers` are the values drawn so far and
`fuel` bounds the number of further draws: a run that has ended within the
values drawn counts 1 or 0; a run that makes another draw, with bound `max`,
continues with each of the `max` values, weighted `1 / max`. -/
def IDGenerator.probability (g : IDGenerator) (s : GoString) : Nat → List Nat → ℚ
  | 0, answers => if (g.Generate (probeReader answers) 0).1 = .ret s none then 1 else 0
  | fuel + 1, answers =>
    match (g.Generate (probeReader answers) 0).1 with
    | .ret t none => if t = s then 1 else 0
    | .ret _ (some (.readerError max)) =>
      (∑ v ∈ Finset.range max, IDGenerator.probability g s fuel (answers ++ [v])) / (max : ℚ)
    | _ => 0

end Shortener

/-! ## Theorems: identifier generator -/

namespace Shortener

/-- A successful run of the `Generate` loop appends exactly `n` bytes, each read
from the alphabet, and uses `n` draws. -/
theorem generateLoop_ret (g : IDGenerator) (rd : RandReader) :
    ∀ (n pos : Nat) (acc s : GoString) (pos1 : Nat),
      g.generateLoop rd n pos acc = (.ret s none, pos1) →
      s.length = acc.length + n ∧ (∀ b ∈ s, b ∈ acc ∨ b ∈ g.alphabet) ∧ pos1 = pos + n := by
  intro n
  induction n with
  | zero =>
    intro pos acc s pos1 h
    simp only [IDGenerator.generateLoop, Prod.mk.injEq, GoResult.ret.injEq, and_true] at h
    obtain ⟨h1, h2⟩ := h
    subst h1; subst h2
    exact ⟨rfl, fun b hb => Or.inl hb, rfl⟩
  | succ n ih =>
    intro pos acc s pos1 h
    unfold IDGenerator.generateLoop at h
    unfold randInt at h
    by_cases hmax : g.alphabet.length = 0
    · simp [hmax] at h
    · simp only [hmax, if_false] at h
      cases hrd : rd pos g.alphabet.length with
      | error e => simp [hrd] at h
      | ok v =>
        simp only [hrd] at h
        cases hget : g.alphabet[v]? with
        | none => simp [hget] at h
        | some b =>
          simp only [hget] at h
          obtain ⟨h1, h2, h3⟩ := ih (pos + 1) (acc ++ [b]) s pos1 h
          refine ⟨?_, ?_, ?_⟩
          · rw [h1, List.length_append, List.length_singleton]; omega
          · intro c hc
            rcases h2 c hc with hc1 | hc1
            · rcases List.mem_append.mp hc1 with hc2 | hc2
              · exact Or.inl hc2
              · rw [List.mem_singleton] at hc2
                subst hc2
                exact Or.inr (List.getElem?_mem hget)
            · exact Or.inr hc1
          · omega

/-- A successful `Generate` has a non-negative length and is a successful run
of its loop from the empty buffer. -/
theorem Generate_ret (g : IDGenerator) (rd : RandReader) (pos : Nat) (s : GoString)
    (pos1 : Nat) (h : g.Generate rd pos = (.ret s none, pos1)) :
    0 ≤ g.length ∧ s.length = g.length.toNat ∧ (∀ b ∈ s, b ∈ g.alphabet) ∧
      pos1 = pos + g.length.toNat := by
  unfold IDGenerator.Generate at h
  by_cases hneg : g.length < 0
  · simp [hneg] at h
  · simp only [hneg, if_false] at h
    obtain ⟨h1, h2, h3⟩ := generateLoop_ret g rd _ _ _ _ _ h
    refine ⟨by omega, by simpa using h1, ?_, h3⟩
    intro b hb
    rcases h2 b hb with hb1 | hb1
    · simp at hb1
    · exact hb1

/-- With a source that never errors and keeps the contract of `rand.Int`, the
`Generate` loop returns an identifier. -/
theorem generateLoop_total (g : IDGenerator) (rd : RandReader)
    (hr : rd.InRange g.alphabet.length) (hn : rd.NeverErrors) :
    ∀ (n pos : Nat) (acc : GoString),
      ∃ s, g.generateLoop rd n pos acc = (.ret s none, pos + n) := by
  intro n
  induction n with
  | zero => intro pos acc; exact ⟨acc, rfl⟩
  | succ n ih =>
    intro pos acc
    obtain ⟨v, hv⟩ := hn pos g.alphabet.length
    have hlt : v < g.alphabet.length := hr pos v hv
    have hmax : ¬ g.alphabet.length = 0 := by omega
    obtain ⟨s, hs⟩ := ih (pos + 1) (acc ++ [g.alphabet[v]])
    refine ⟨s, ?_⟩
    unfold IDGenerator.generateLoop
    unfold randInt
    simp only [hmax, if_false, hv, List.getElem?_eq_getElem hlt]
    rw [hs]
    congr 1
    omega

/-- With a non-negative length and a source that never errors and keeps the
contract of `rand.Int`, `Generate` returns an identifier. -/
theorem Generate_total (g : IDGenerator) (rd : RandReader) (h0 : 0 ≤ g.length)
    (hr : rd.InRange g.alphabet.length) (hn : rd.NeverErrors) (pos : Nat) :
    ∃ s, g.Generate rd pos = (.ret s none, pos + g.length.toNat) := by
  unfold IDGenerator.Generate
  have hneg : ¬ g.length < 0 := by omega
  simp only [hneg, if_false]
  exact generateLoop_total g rd hr hn _ _ _

/-- With a non-negative length and a source that never errors and keeps the
contract of `rand.Int`, any number of successive `Generate` calls all return
identifiers. -/
theorem generateMany_total (g : IDGenerator) (rd : RandReader) (h0 : 0 ≤ g.length)
    (hr : rd.InRange g.alphabet.length) (hn : rd.NeverErrors) :
    ∀ (k pos : Nat), ∃ ids pos1, g.generateMany rd k pos = some (ids, pos1) := by
  intro k
  induction k with
  | zero => intro pos; exact ⟨[], pos, rfl⟩
  | succ k ih =>
    intro pos
    obtain ⟨s, hs⟩ := Generate_total g rd h0 hr hn pos
    obtain ⟨ids, pos1, hids⟩ := ih (pos + g.length.toNat)
    refine ⟨s :: ids, pos1, ?_⟩
    simp only [IDGenerator.generateMany, hs, hids]

/-- The identifiers of `k` successive `Generate` calls are `k` in number. -/
theorem generateMany_length (g : IDGenerator) (rd : RandReader) :
    ∀ (k pos : Nat) (ids : List GoString) (pos1 : Nat),
      g.generateMany rd k pos = some (ids, pos1) → ids.length = k := by
  intro k
  induction k with
  | zero =>
    intro pos ids pos1 h
    simp only [IDGenerator.generateMany, Option.some.injEq, Prod.mk.injEq] at h
    rw [← h.1]; rfl
  | succ k ih =>
    intro pos ids pos1 h
    unfold IDGenerator.generateMany at h
    split at h
    · rename_i shortID p1 hG
      split at h
      · rename_i ids1 p2 hM
        simp only [Option.some.injEq, Prod.mk.injEq] at h
        rw [← h.1, List.length_cons, ih _ _ _ hM]
      · exact absurd h (by simp)
    · exact absurd h (by simp)

/-- One attempt of `GenerateUnique` whose identifier is reported as existing:
the loop goes on with one attempt fewer. -/
theorem generateUniqueLoop_collide (g : IDGenerator) (rd : RandReader)
    (existenceChecker : GoString → Bool) (n : Nat) (tr : GenTrace) (shortID : GoString)
    (p1 : Nat) (hG : g.Generate rd tr.pos = (.ret shortID none, p1))
    (hex : existenceChecker shortID = true) :
    g.generateUniqueLoop rd existenceChecker (n + 1) tr =
      g.generateUniqueLoop rd existenceChecker n
        { pos := p1, generateCalls := tr.generateCalls + 1,
          checked := tr.checked ++ [shortID] } := by
  rw [IDGenerator.generateUniqueLoop]
  simp only [hG, hex, Bool.not_true, Bool.false_eq_true, if_false]

/-- One attempt of `GenerateUnique` whose identifier is reported as absent: the
identifier is returned. -/
theorem generateUniqueLoop_free (g : IDGenerator) (rd : RandReader)
    (existenceChecker : GoString → Bool) (n : Nat) (tr : GenTrace) (shortID : GoString)
    (p1 : Nat) (hG : g.Generate rd tr.pos = (.ret shortID none, p1))
    (hex : existenceChecker shortID = false) :
    g.generateUniqueLoop rd existenceChecker (n + 1) tr =
      (.ret shortID none,
        { pos := p1, generateCalls := tr.generateCalls + 1,
          checked := tr.checked ++ [shortID] }) := by
  rw [IDGenerator.generateUniqueLoop]
  simp only [hG, hex, Bool.not_false, if_true]

/-- While the existence checker reports true for the identifiers generated, the
`GenerateUnique` loop keeps going: after `k` such attempts it stands where it
would with `k` attempts fewer, `k` more calls counted. -/
theorem generateUniqueLoop_skip (g : IDGenerator) (rd : RandReader)
    (existenceChecker : GoString → Bool) :
    ∀ (k m : Nat) (tr : GenTrace) (ids : List GoString) (pos1 : Nat),
      g.generateMany rd k tr.pos = some (ids, pos1) →
      (∀ id ∈ ids, existenceChecker id = true) →
      g.generateUniqueLoop rd existenceChecker (k + m) tr =
        g.generateUniqueLoop rd existenceChecker m
          { pos := pos1, generateCalls := tr.generateCalls + k, checked := tr.checked ++ ids } := by
  intro k
  induction k with
  | zero =>
    intro m tr ids pos1 h _
    simp only [IDGenerator.generateMany, Option.some.injEq, Prod.mk.injEq] at h
    rw [← h.1, ← h.2]
    simp
  | succ k ih =>
    intro m tr ids pos1 h hall
    unfold IDGenerator.generateMany at h
    split at h
    · rename_i shortID p1 hG
      split at h
      · rename_i ids1 p2 hM
        simp only [Option.some.injEq, Prod.mk.injEq] at h
        obtain ⟨h1, h2⟩ := h
        subst h1; subst h2
        have hex : existenceChecker shortID = true := hall shortID (List.mem_cons_self _ _)
        have hstep : k + 1 + m = (k + m) + 1 := by omega
        rw [hstep, generateUniqueLoop_collide g rd existenceChecker (k + m) tr shortID p1 hG hex]
        rw [ih m _ ids1 p2 hM (fun id hid => hall id (List.mem_cons_of_mem _ hid))]
        simp [Nat.add_assoc, Nat.add_comm 1 k]
      · exact absurd h (by simp)
    · exact absurd h (by simp)

/-- When the identifier of attempt `k + 1` is the first one reported as absent,
the `GenerateUnique` loop returns it after `k + 1` attempts. -/
theorem generateUniqueLoop_first_free (g : IDGenerator) (rd : RandReader)
    (existenceChecker : GoString → Bool) :
    ∀ (k n : Nat) (tr : GenTrace) (ids : List GoString) (pos1 : Nat) (idk : GoString),
      g.generateMany rd (k + 1) tr.pos = some (ids, pos1) →
      ids[k]? = some idk →
      existenceChecker idk = false →
      (∀ i id, i < k → ids[i]? = some id → existenceChecker id = true) →
      g.generateUniqueLoop rd existenceChecker (k + 1 + n) tr =
        (.ret idk none,
          { pos := pos1, generateCalls := tr.generateCalls + (k + 1),
            checked := tr.checked ++ ids }) := by
  intro k
  induction k with
  | zero =>
    intro n tr ids pos1 idk h hkth hfree _
    unfold IDGenerator.generateMany at h
    split at h
    · rename_i shortID p1 hG
      simp only [IDGenerator.generateMany, Option.some.injEq, Prod.mk.injEq] at h
      obtain ⟨h1, h2⟩ := h
      subst h1; subst h2
      simp only [List.getElem?_cons_zero, Option.some.injEq] at hkth
      subst hkth
      have hstep : 0 + 1 + n = n + 1 := by omega
      rw [hstep, generateUniqueLoop_free g rd existenceChecker n tr shortID p1 hG hfree]
    · exact absurd h (by simp)
  | succ k ih =>
    intro n tr ids pos1 idk h hkth hfree hbefore
    rw [IDGenerator.generateMany] at h
    split at h
    · rename_i shortID p1 hG
      split at h
      · rename_i ids1 p2 hM
        simp only [Option.some.injEq, Prod.mk.injEq] at h
        obtain ⟨h1, h2⟩ := h
        subst h1; subst h2
        have hex : existenceChecker shortID = true :=
          hbefore 0 shortID (Nat.succ_pos k) (by simp)
        have hstep : k + 1 + 1 + n = (k + 1 + n) + 1 := by omega
        rw [hstep, generateUniqueLoop_collide g rd existenceChecker _ tr shortID p1 hG hex]
        have hkth1 : ids1[k]? = some idk := by simpa using hkth
        rw [ih n _ ids1 p2 idk hM hkth1 hfree
          (fun i id hi hid => hbefore (i + 1) id (by omega) (by simpa using hid))]
        simp [Nat.add_assoc, Nat.add_comm 1 (k + 1)]
      · exact absurd h (by simp)
    · exact absurd h (by simp)

/-- C1: for every existence checker and every entropy source, if the first `k`
calls of `Generate` (1 ≤ k ≤ 10) return the identifiers `ids` and the `k`-th of
them is the first that the checker reports as absent, then `GenerateUnique`
returns exactly that `k`-th identifier with a nil error, having called
`Generate` exactly `k` times and the checker exactly on those `k` identifiers;
with an always-false checker `k` is 1, the first identifier generated. -/
theorem GenerateUnique_returns_first_free (g : IDGenerator) (rd : RandReader)
    (existenceChecker : GoString → Bool) (tr : GenTrace) (k : Nat)
    (ids : List GoString) (pos1 : Nat) (idk : GoString)
    (hk1 : 1 ≤ k) (hk10 : k ≤ 10)
    (hgen : g.generateMany rd k tr.pos = some (ids, pos1))
    (hkth : ids[k - 1]? = some idk)
    (hfree : existenceChecker idk = false)
    (hbefore : ∀ i id, i < k - 1 → ids[i]? = some id → existenceChecker id = true) :
    g.GenerateUnique rd existenceChecker tr =
        (.ret idk none,
          { pos := pos1, generateCalls := tr.generateCalls + k,
            checked := tr.checked ++ ids }) ∧
      ids.length = k ∧
      ((∀ id, existenceChecker id = false) → k = 1 ∧ ids = [idk]) := by
  have hlen : ids.length = k := generateMany_length g rd k tr.pos ids pos1 hgen
  obtain ⟨j, rfl⟩ : ∃ j, k = j + 1 := ⟨k - 1, by omega⟩
  simp only [Nat.add_sub_cancel] at hkth hbefore
  refine ⟨?_, hlen, ?_⟩
  · unfold IDGenerator.GenerateUnique maxAttempts
    obtain ⟨n, hn⟩ : ∃ n, 10 = j + 1 + n := ⟨10 - (j + 1), by omega⟩
    rw [hn]
    exact generateUniqueLoop_first_free g rd existenceChecker j n tr ids pos1 idk
      hgen hkth hfree hbefore
  · intro hall
    have hj : j = 0 := by
      by_contra hne
      have h0 : 0 < ids.length := by omega
      have := hbefore 0 ids[0] (by omega) (List.getElem?_eq_getElem h0)
      rw [hall] at this
      exact absurd this (by simp)
    subst hj
    refine ⟨rfl, ?_⟩
    match ids, hlen, hkth with
    | [a], _, hk => simp only [List.getElem?_cons_zero, Option.some.injEq] at hk; rw [hk]

/-- C1 at a concrete input: the default generator over the source whose `i`-th
draw is `i mod 62`, with a checker that knows only the first identifier, returns
the second identifier after two attempts. -/
theorem GenerateUnique_returns_first_free_witness :
    DefaultGenerator.GenerateUnique (fun i _ => .ok (i % 62))
        (fun id => decide (id = "01234567".toList)) { pos := 0, generateCalls := 0, checked := [] } =
      (.ret "89abcdef".toList none,
        { pos := 16, generateCalls := 0 + 2,
          checked := [] ++ ["01234567".toList, "89abcdef".toList] }) ∧
    ["01234567".toList, "89abcdef".toList].length = 2 ∧
    ((∀ id, (fun id => decide (id = "01234567".toList)) id = false) →
      2 = 1 ∧ ["01234567".toList, "89abcdef".toList] = ["89abcdef".toList]) :=
  GenerateUnique_returns_first_free DefaultGenerator (fun i _ => .ok (i % 62))
    (fun id => decide (id = "01234567".toList)) { pos := 0, generateCalls := 0, checked := [] }
    2 ["01234567".toList, "89abcdef".toList] 16 "89abcdef".toList
    (by decide) (by decide) (by decide) (by decide) (by decide)
    (by
      intro i id hi hid
      have hi0 : i = 0 := by omega
      subst hi0
      simp only [List.getElem?_cons_zero, Option.some.injEq] at hid
      subst hid
      decide)

/-- C2: if the ten calls of `Generate` return identifiers (the source does not
fail) and the existence checker reports true for each identifier it is given,
`GenerateUnique` returns the empty string with `ErrUniqueIDGenerationFailed`,
after exactly 10 calls of `Generate` and exactly 10 calls of the checker. -/
theorem GenerateUnique_exhausted (g : IDGenerator) (rd : RandReader)
    (existenceChecker : GoString → Bool) (tr : GenTrace)
    (ids : List GoString) (pos1 : Nat)
    (hgen : g.generateMany rd 10 tr.pos = some (ids, pos1))
    (hall : ∀ id ∈ ids, existenceChecker id = true) :
    g.GenerateUnique rd existenceChecker tr =
        (.ret [] (some .ErrUniqueIDGenerationFailed),
          { pos := pos1, generateCalls := tr.generateCalls + 10,
            checked := tr.checked ++ ids }) ∧
      ids.length = 10 := by
  refine ⟨?_, generateMany_length g rd 10 tr.pos ids pos1 hgen⟩
  unfold IDGenerator.GenerateUnique maxAttempts
  have h := generateUniqueLoop_skip g rd existenceChecker 10 0 tr ids pos1 hgen hall
  simp only [Nat.add_zero] at h
  rw [h]
  rfl

/-- C2 at a concrete input: a generator of length 1 over the source whose `i`-th
draw is `i mod 62`, with an always-true checker, gives up after ten attempts. -/
theorem GenerateUnique_exhausted_witness :
    (NewIDGenerator 1).GenerateUnique (fun i _ => .ok (i % 62)) (fun _ => true)
        { pos := 0, generateCalls := 0, checked := [] } =
      (.ret [] (some .ErrUniqueIDGenerationFailed),
        { pos := 10, generateCalls := 0 + 10,
          checked := [] ++ ["0".toList, "1".toList, "2".toList, "3".toList, "4".toList,
            "5".toList, "6".toList, "7".toList, "8".toList, "9".toList] }) ∧
    ["0".toList, "1".toList, "2".toList, "3".toList, "4".toList,
      "5".toList, "6".toList, "7".toList, "8".toList, "9".toList].length = 10 :=
  GenerateUnique_exhausted (NewIDGenerator 1) (fun i _ => .ok (i % 62)) (fun _ => true)
    { pos := 0, generateCalls := 0, checked := [] }
    ["0".toList, "1".toList, "2".toList, "3".toList, "4".toList,
      "5".toList, "6".toList, "7".toList, "8".toList, "9".toList] 10
    (by decide) (fun _ _ => rfl)

/-- C3: whenever `Generate` returns without error, its result has exactly
`g.length` bytes, each a member of `g.alphabet`; the default generator has
length 8 over the 62 distinct alphanumeric characters, and `NewIDGenerator(10)`
has length 10. -/
theorem Generate_length_and_alphabet (g : IDGenerator) (rd : RandReader) (pos : Nat)
    (s : GoString) (pos1 : Nat) (h : g.Generate rd pos = (.ret s none, pos1)) :
    ((s.length : Int) = g.length ∧ ∀ b ∈ s, b ∈ g.alphabet) ∧
      (DefaultGenerator.length = 8 ∧ DefaultGenerator.alphabet.length = 62 ∧
        DefaultGenerator.alphabet.Nodup ∧
        (∀ c ∈ DefaultGenerator.alphabet, c.isAlphanum = true)) ∧
      (NewIDGenerator 10).length = 10 := by
  obtain ⟨h0, hlen, hmem, _⟩ := Generate_ret g rd pos s pos1 h
  refine ⟨⟨?_, hmem⟩, ⟨rfl, by decide, by decide, by decide⟩, rfl⟩
  rw [hlen]
  exact Int.toNat_of_nonneg h0

/-- C3 at a concrete input: the default generator over the source whose `i`-th
draw is `i mod 62` returns the 8 bytes `01234567`. -/
theorem Generate_length_and_alphabet_witness :
    DefaultGenerator.Generate (fun i _ => .ok (i % 62)) 0 = (.ret "01234567".toList none, 8) ∧
    ((("01234567".toList.length : Nat) : Int) = DefaultGenerator.length ∧
      ∀ b ∈ "01234567".toList, b ∈ DefaultGenerator.alphabet) :=
  ⟨by decide,
    (Generate_length_and_alphabet DefaultGenerator (fun i _ => .ok (i % 62)) 0
      "01234567".toList 8 (by decide)).1⟩

end Shortener

/-! ## Theorems: rate limiter -/

namespace Ratelimiter

/-- The verdict of the token bucket: admitted iff the refilled count is at
least one. -/
theorem Limiter.Allow_fst (l : Limiter) (now : Int) :
    (l.Allow now).1 = decide (1 ≤ l.refill now) := by
  unfold Limiter.Allow
  by_cases h : 1 ≤ l.refill now <;> simp [h]

/-- The bucket after an admission check: one token fewer than the refilled
count when admitted, the refilled count otherwise; rate and capacity are kept
and the refill instant is the instant of the check. -/
theorem Limiter.Allow_snd (l : Limiter) (now : Int) :
    (l.Allow now).2 =
      { limit := l.limit, burst := l.burst,
        tokens := if 1 ≤ l.refill now then l.refill now - 1 else l.refill now,
        last := now } := by
  unfold Limiter.Allow
  by_cases h : 1 ≤ l.refill now <;> simp [h]

/-- The table after `Allow`: the key of the call is bound to the updated
visitor, every other key is untouched. -/
theorem RateLimiter.Allow_visitors (r : RateLimiter) (ip : GoString) (now : Int)
    (k : GoString) :
    (r.Allow ip now).2.visitors k =
      if k = ip then
        some { limiter := ((r.visitor ip now).limiter.Allow now).2, lastActive := now }
      else r.visitors k := rfl

/-- C4: one admission step. `Allow(k)` at instant `t` returns true iff the
bucket of `k` (the stored one, or a full new one when `k` is absent) holds at
least one token after its lazy refill to `t`, the refill being
`min(B, tokens + R * elapsed)`; afterwards the bucket of `k` holds the refilled
count minus exactly 1 when the call returned true, and the whole refilled count
(no token consumed) when it returned false. -/
theorem Allow_admits_iff_token_available (r : RateLimiter) (ip : GoString) (now : Int) :
    ((r.Allow ip now).1 = true ↔ 1 ≤ (r.visitor ip now).limiter.refill now) ∧
    (r.visitor ip now).limiter.refill now =
      min ((r.visitor ip now).limiter.burst : ℚ)
        ((r.visitor ip now).limiter.tokens +
          (r.visitor ip now).limiter.limit *
            (((now - (r.visitor ip now).limiter.last : Int) : ℚ) / 1000000000)) ∧
    (r.visitors ip = none → (r.visitor ip now).limiter = NewLimiter r.limit r.burst now) ∧
    (∀ v, r.visitors ip = some v → (r.visitor ip now).limiter = v.limiter) ∧
    ∃ v, (r.Allow ip now).2.visitors ip = some v ∧
      ((r.Allow ip now).1 = true →
        v.limiter.tokens = (r.visitor ip now).limiter.refill now - 1) ∧
      ((r.Allow ip now).1 = false →
        v.limiter.tokens = (r.visitor ip now).limiter.refill now) := by
  have hfst : (r.Allow ip now).1 = decide (1 ≤ (r.visitor ip now).limiter.refill now) :=
    Limiter.Allow_fst _ _
  refine ⟨by rw [hfst]; simp, rfl, ?_, ?_, ?_⟩
  · intro h; simp [RateLimiter.visitor, h]
  · intro v h; simp [RateLimiter.visitor, h]
  · refine ⟨{ limiter := ((r.visitor ip now).limiter.Allow now).2, lastActive := now },
      by rw [RateLimiter.Allow_visitors]; simp, ?_, ?_⟩
    · intro h
      rw [hfst] at h
      have h1 : 1 ≤ (r.visitor ip now).limiter.refill now := by simpa using h
      simp [Limiter.Allow_snd, h1]
    · intro h
      rw [hfst] at h
      have h1 : ¬ 1 ≤ (r.visitor ip now).limiter.refill now := by simpa using h
      simp [Limiter.Allow_snd, h1]

/-- The visitor that `Allow` works on once the key is bound. -/
theorem RateLimiter.visitor_of_some (r : RateLimiter) (ip : GoString) (now : Int)
    (v : visitorState) (h : r.visitors ip = some v) : r.visitor ip now = v := by
  simp [RateLimiter.visitor, h]

/-- A bucket refilled at the instant of its last refill keeps its count, when
that count is within the capacity. -/
theorem Limiter.refill_same_instant (l : Limiter) (now : Int) (hlast : l.last = now)
    (hle : l.tokens ≤ (l.burst : ℚ)) : l.refill now = l.tokens := by
  unfold Limiter.refill
  rw [hlast]
  simp [hle]

/-- Repeated `Allow` calls for one key at one instant, the bucket of the key
holding `m` whole tokens at that instant: the first `m` calls are admitted and
all later ones rejected. -/
theorem allowMany_same_instant (ip : GoString) (now : Int) :
    ∀ (n m : Nat) (r : RateLimiter),
      (r.visitor ip now).limiter.last = now →
      (r.visitor ip now).limiter.tokens = (m : ℚ) →
      (m : ℚ) ≤ ((r.visitor ip now).limiter.burst : ℚ) →
      (r.allowMany (List.replicate n (ip, now))).1 =
        List.replicate (min n m) true ++ List.replicate (n - m) false := by
  intro n
  induction n with
  | zero => intro m r _ _ _; simp [RateLimiter.allowMany]
  | succ n ih =>
    intro m r hlast htok hle
    have hrefill : (r.visitor ip now).limiter.refill now = (m : ℚ) := by
      rw [Limiter.refill_same_instant _ _ hlast (by rw [htok]; exact hle), htok]
    have hnext : ∀ v, (r.Allow ip now).2.visitors ip = some v →
        (r.Allow ip now).2.visitor ip now = v :=
      fun v hv => RateLimiter.visitor_of_some _ _ _ _ hv
    have hbound : (r.Allow ip now).2.visitors ip =
        some { limiter := ((r.visitor ip now).limiter.Allow now).2, lastActive := now } := by
      rw [RateLimiter.Allow_visitors]; simp
    have hfst : (r.Allow ip now).1 = decide (1 ≤ (r.visitor ip now).limiter.refill now) :=
      Limiter.Allow_fst _ _
    rw [List.replicate_succ]
    show (r.Allow ip now).1 :: ((r.Allow ip now).2.allowMany (List.replicate n (ip, now))).1 = _
    cases m with
    | zero =>
      have hno : ¬ (1 : ℚ) ≤ ((0 : Nat) : ℚ) := by norm_num
      rw [ih 0 (r.Allow ip now).2
        (by rw [hnext _ hbound, Limiter.Allow_snd])
        (by rw [hnext _ hbound, Limiter.Allow_snd, hrefill]; simp)
        (by rw [hnext _ hbound, Limiter.Allow_snd]; simpa using hle)]
      rw [hfst, hrefill]
      simp [List.replicate_succ]
    | succ m =>
      have hyes : (1 : ℚ) ≤ ((m + 1 : Nat) : ℚ) := by
        have : (1 : ℕ) ≤ m + 1 := by omega
        exact_mod_cast this
      rw [ih m (r.Allow ip now).2
        (by rw [hnext _ hbound, Limiter.Allow_snd])
        (by rw [hnext _ hbound, Limiter.Allow_snd, hrefill]; simp)
        (by
          rw [hnext _ hbound, Limiter.Allow_snd]
          have : ((m : ℕ) : ℚ) ≤ ((m + 1 : ℕ) : ℚ) := by exact_mod_cast Nat.le_succ m
          exact le_trans this hle)]
      rw [hfst, hrefill]
      simp [hyes, Nat.succ_min_succ, List.replicate_succ]

/-- C5: for a limiter with burst `B >= 1` (any rate) and a client key not yet in
the table, `B + 1` consecutive `Allow` calls for that key at one instant return
true `B` times and then false; more generally, of `n` such calls the first `B`
are admitted and the rest rejected. -/
theorem Allow_burst_then_reject (r : RateLimiter) (ip : GoString) (now : Int)
    (hB : 1 ≤ r.burst) (hnew : r.visitors ip = none) :
    (r.allowMany (List.replicate (r.burst.toNat + 1) (ip, now))).1 =
        List.replicate r.burst.toNat true ++ [false] ∧
      ∀ n, (r.allowMany (List.replicate n (ip, now))).1 =
        List.replicate (min n r.burst.toNat) true ++ List.replicate (n - r.burst.toNat) false := by
  have hvis : r.visitor ip now =
      { limiter := NewLimiter r.limit r.burst now, lastActive := now } := by
    simp [RateLimiter.visitor, hnew]
  have hcast : ((r.burst.toNat : ℕ) : ℚ) = (r.burst : ℚ) := by
    have h := Int.toNat_of_nonneg (show 0 ≤ r.burst by omega)
    exact_mod_cast congrArg (fun z : Int => (z : ℚ)) h
  have hgen : ∀ n, (r.allowMany (List.replicate n (ip, now))).1 =
      List.replicate (min n r.burst.toNat) true ++ List.replicate (n - r.burst.toNat) false := by
    intro n
    apply allowMany_same_instant ip now n r.burst.toNat r
    · rw [hvis]; rfl
    · rw [hvis, hcast]; rfl
    · rw [hvis, hcast]; exact le_refl _
  refine ⟨?_, hgen⟩
  rw [hgen]
  simp

/-- C5 at a concrete input: `NewRateLimiter(10, 20)` and the key `192.168.1.1`:
of 30 calls at one instant the first 20 are admitted, so the 5th call returns
true and the 30th returns false. -/
theorem Allow_burst_then_reject_witness :
    ((NewRateLimiter 10 20).allowMany (List.replicate 30 ("192.168.1.1".toList, 0))).1 =
        List.replicate 20 true ++ List.replicate 10 false ∧
      (List.replicate 20 true ++ List.replicate 10 false)[4]? = some true ∧
      (List.replicate 20 true ++ List.replicate 10 false)[29]? = some false :=
  ⟨(Allow_burst_then_reject (NewRateLimiter 10 20) "192.168.1.1".toList 0
      (by decide) rfl).2 30,
    by decide, by decide⟩

/-- The bucket that a second `Allow` for the same key works on is the one the
first `Allow` left. -/
theorem RateLimiter.visitor_after_Allow (r : RateLimiter) (ip : GoString) (now now2 : Int) :
    ((r.Allow ip now).2.visitor ip now2).limiter = ((r.visitor ip now).limiter.Allow now).2 := by
  have hbound : (r.Allow ip now).2.visitors ip =
      some { limiter := ((r.visitor ip now).limiter.Allow now).2, lastActive := now } := by
    rw [RateLimiter.Allow_visitors]; simp
  rw [RateLimiter.visitor_of_some _ _ _ _ hbound]

/-- C6: with rate 1 token per second and burst 1, two `Allow` calls for a new
key at one instant return true then false, and an `Allow` call for that key at
least one second (10^9 ns) after the admitted call returns true again. -/
theorem Allow_rate_one_burst_one (r : RateLimiter) (ip : GoString) (t t2 : Int)
    (hR : r.limit = 1) (hB : r.burst = 1) (hnew : r.visitors ip = none)
    (hwait : t + 1000000000 ≤ t2) :
    (r.allowMany [(ip, t), (ip, t), (ip, t2)]).1 = [true, false, true] := by
  have hl0 : (r.visitor ip t).limiter = { limit := 1, burst := 1, tokens := 1, last := t } := by
    simp [RateLimiter.visitor, hnew, NewLimiter, hR, hB]
  have hr0 : (r.visitor ip t).limiter.refill t = 1 := by
    rw [hl0]; simp [Limiter.refill]
  have hl1 : ((r.Allow ip t).2.visitor ip t).limiter =
      { limit := 1, burst := 1, tokens := 0, last := t } := by
    rw [RateLimiter.visitor_after_Allow, Limiter.Allow_snd, hr0, hl0]
    simp
  have hr1 : ((r.Allow ip t).2.visitor ip t).limiter.refill t = 0 := by
    rw [hl1]; simp [Limiter.refill]
  have hl2 : (((r.Allow ip t).2.Allow ip t).2.visitor ip t2).limiter =
      { limit := 1, burst := 1, tokens := 0, last := t } := by
    rw [RateLimiter.visitor_after_Allow, Limiter.Allow_snd, hr1, hl1]
    simp
  have hr2 : (((r.Allow ip t).2.Allow ip t).2.visitor ip t2).limiter.refill t2 = 1 := by
    rw [hl2]
    have hnat : (1000000000 : ℤ) ≤ t2 - t := by omega
    have hq : (1000000000 : ℚ) ≤ ((t2 - t : ℤ) : ℚ) := by exact_mod_cast hnat
    have hone : (1 : ℚ) ≤ ((t2 - t : ℤ) : ℚ) / 1000000000 :=
      (one_le_div (by norm_num)).mpr hq
    simp only [Limiter.refill, Int.cast_one, zero_add, one_mul]
    exact min_eq_left hone
  show [(r.Allow ip t).1, ((r.Allow ip t).2.Allow ip t).1,
    (((r.Allow ip t).2.Allow ip t).2.Allow ip t2).1] = _
  have e1 : (r.Allow ip t).1 = decide (1 ≤ (r.visitor ip t).limiter.refill t) :=
    Limiter.Allow_fst _ _
  have e2 : ((r.Allow ip t).2.Allow ip t).1 =
      decide (1 ≤ ((r.Allow ip t).2.visitor ip t).limiter.refill t) := Limiter.Allow_fst _ _
  have e3 : (((r.Allow ip t).2.Allow ip t).2.Allow ip t2).1 =
      decide (1 ≤ (((r.Allow ip t).2.Allow ip t).2.visitor ip t2).limiter.refill t2) :=
    Limiter.Allow_fst _ _
  rw [e1, e2, e3, hr0, hr1, hr2]
  simp

/-- C6 at a concrete input: `NewRateLimiter(1, 1)`, the key `192.168.1.2`, two
calls at instant 0 and one a second later. -/
theorem Allow_rate_one_burst_one_witness :
    ((NewRateLimiter 1 1).allowMany
        [("192.168.1.2".toList, 0), ("192.168.1.2".toList, 0),
          ("192.168.1.2".toList, 1000000000)]).1 = [true, false, true] :=
  Allow_rate_one_burst_one (NewRateLimiter 1 1) "192.168.1.2".toList 0 1000000000
    rfl rfl rfl (by decide)

/-- The refill of a bucket with a non-negative rate, between 0 and its capacity
in tokens, at an instant not before its last refill, is again between 0 and
the capacity. -/
theorem Limiter.refill_bounds (l : Limiter) (now : Int) (hR : 0 ≤ l.limit)
    (h0 : 0 ≤ l.tokens) (hB : l.tokens ≤ (l.burst : ℚ)) (hlast : l.last ≤ now) :
    0 ≤ l.refill now ∧ l.refill now ≤ (l.burst : ℚ) := by
  unfold Limiter.refill
  have hel : (0 : ℚ) ≤ ((now - l.last : ℤ) : ℚ) / 1000000000 := by
    have hz : (0 : ℤ) ≤ now - l.last := by omega
    have hq : (0 : ℚ) ≤ ((now - l.last : ℤ) : ℚ) := by exact_mod_cast hz
    exact div_nonneg hq (by norm_num)
  refine ⟨le_min (le_trans h0 hB) ?_, min_le_left _ _⟩
  exact add_nonneg h0 (mul_nonneg hR hel)

/-- An admission check keeps the token count of such a bucket between 0 and the
capacity. -/
theorem Limiter.Allow_bounds (l : Limiter) (now : Int) (hR : 0 ≤ l.limit)
    (h0 : 0 ≤ l.tokens) (hB : l.tokens ≤ (l.burst : ℚ)) (hlast : l.last ≤ now) :
    0 ≤ (l.Allow now).2.tokens ∧ (l.Allow now).2.tokens ≤ (l.burst : ℚ) := by
  obtain ⟨hr0, hrB⟩ := Limiter.refill_bounds l now hR h0 hB hlast
  rw [Limiter.Allow_snd]
  by_cases h1 : 1 ≤ l.refill now
  · simp only [h1, if_true]
    constructor <;> linarith
  · simp only [h1, if_false]
    exact ⟨hr0, hrB⟩

/-- One operation at an instant not before the previous ones keeps the state
invariant. -/
theorem RateLimiter.step_wellFormed (R : ℚ) (B : Int) (hR : 0 ≤ R) (hB : 0 ≤ B)
    (r : RateLimiter) (t : Int) (e : Event) (hwf : r.WellFormed R B t) (ht : t ≤ e.time) :
    (r.step e).WellFormed R B e.time := by
  obtain ⟨hlim, hbur, hvis⟩ := hwf
  have hBq : (0 : ℚ) ≤ (B : ℚ) := by exact_mod_cast hB
  cases e with
  | allow ip now =>
    simp only [Event.time] at ht
    refine ⟨hlim, hbur, ?_⟩
    intro k v hk
    simp only [RateLimiter.step, Event.time] at hk ⊢
    rw [RateLimiter.Allow_visitors] at hk
    by_cases hkip : k = ip
    · simp only [hkip, if_true, Option.some.injEq] at hk
      have hl : (r.visitor ip now).limiter.limit = R ∧ (r.visitor ip now).limiter.burst = B ∧
          0 ≤ (r.visitor ip now).limiter.tokens ∧
          (r.visitor ip now).limiter.tokens ≤ (B : ℚ) ∧
          (r.visitor ip now).limiter.last ≤ now := by
        cases hget : r.visitors ip with
        | none =>
          have hnew : r.visitor ip now =
              { limiter := NewLimiter r.limit r.burst now, lastActive := now } := by
            simp [RateLimiter.visitor, hget]
          rw [hnew, hlim, hbur]
          exact ⟨rfl, rfl, hBq, le_refl _, le_refl _⟩
        | some w =>
          rw [RateLimiter.visitor_of_some r ip now w hget]
          obtain ⟨a, b, c, d, f⟩ := hvis ip w hget
          exact ⟨a, b, c, d, le_trans f ht⟩
      obtain ⟨a, b, c, d, f⟩ := hl
      have hbounds := Limiter.Allow_bounds (r.visitor ip now).limiter now
        (by rw [a]; exact hR) c (by rw [b]; exact d) f
      rw [← hk]
      simp only [Limiter.Allow_snd] at hbounds ⊢
      rw [b] at hbounds
      exact ⟨a, b, hbounds.1, hbounds.2, le_refl _⟩
    · simp only [hkip, if_false] at hk
      obtain ⟨a, b, c, d, f⟩ := hvis k v hk
      exact ⟨a, b, c, d, le_trans f ht⟩
  | sweep now duration =>
    simp only [Event.time] at ht
    refine ⟨hlim, hbur, ?_⟩
    intro k v hk
    simp only [RateLimiter.step, RateLimiter.cleanTick, Event.time] at hk ⊢
    cases hget : r.visitors k with
    | none => simp [hget] at hk
    | some w =>
      simp only [hget] at hk
      by_cases hold : now - w.lastActive > duration
      · simp [hold] at hk
      · simp only [hold, if_false, Option.some.injEq] at hk
        subst hk
        obtain ⟨a, b, c, d, f⟩ := hvis k w hget
        exact ⟨a, b, c, d, le_trans f ht⟩

/-- A sequence of operations at non-decreasing instants keeps the state
invariant. -/
theorem RateLimiter.run_wellFormed (R : ℚ) (B : Int) (hR : 0 ≤ R) (hB : 0 ≤ B) :
    ∀ (events : List Event) (r : RateLimiter) (t : Int),
      r.WellFormed R B t →
      (∀ e ∈ events, t ≤ e.time) →
      events.Pairwise (fun a b => a.time ≤ b.time) →
      ∃ t1, (r.run events).WellFormed R B t1 := by
  intro events
  induction events with
  | nil => intro r t hwf _ _; exact ⟨t, hwf⟩
  | cons e es ih =>
    intro r t hwf hge hsorted
    rw [List.pairwise_cons] at hsorted
    exact ih (r.step e) e.time
      (RateLimiter.step_wellFormed R B hR hB r t e hwf (hge e (List.mem_cons_self _ _)))
      hsorted.1 hsorted.2

/-- C7: in every state reached from `NewRateLimiter(R, B)` with `R >= 0` and
`B >= 0` by any sequence of `Allow` calls and eviction sweeps at non-decreasing
instants, the token count of every bucket lies in `[0, B]`. -/
theorem tokens_within_burst (R : ℚ) (B : Int) (hR : 0 ≤ R) (hB : 0 ≤ B)
    (events : List Event) (hsorted : events.Pairwise (fun a b => a.time ≤ b.time))
    (ip : GoString) (v : visitorState)
    (hv : ((NewRateLimiter R B).run events).visitors ip = some v) :
    0 ≤ v.limiter.tokens ∧ v.limiter.tokens ≤ (B : ℚ) := by
  have hinit : ∀ t, (NewRateLimiter R B).WellFormed R B t := by
    intro t
    refine ⟨rfl, rfl, ?_⟩
    intro k w hk
    simp [NewRateLimiter] at hk
  have hrun : ∃ t1, ((NewRateLimiter R B).run events).WellFormed R B t1 := by
    cases events with
    | nil => exact ⟨0, hinit 0⟩
    | cons e es =>
      exact RateLimiter.run_wellFormed R B hR hB (e :: es) _ e.time (hinit e.time)
        (by
          intro e1 he1
          rcases List.mem_cons.mp he1 with h | h
          · rw [h]
          · exact (List.pairwise_cons.mp hsorted).1 e1 h)
        hsorted
  obtain ⟨t1, _, _, hvis⟩ := hrun
  obtain ⟨_, _, c, d, _⟩ := hvis ip v hv
  exact ⟨c, d⟩

/-- C7 at a concrete input: `NewRateLimiter(1, 1)`, an admitted call at instant
0, a sweep at 5 ns and a rejected call at 5 ns leave the bucket with
5/10^9 of a token, which lies in `[0, 1]`. -/
theorem tokens_within_burst_witness :
    (0 : ℚ) ≤ 5 / 1000000000 ∧ (5 / 1000000000 : ℚ) ≤ ((1 : Int) : ℚ) :=
  tokens_within_burst 1 1 (by norm_num) (by decide)
    [.allow "a".toList 0, .sweep 5 10, .allow "a".toList 5]
    (by simp [Event.time])
    "a".toList
    { limiter := { limit := 1, burst := 1, tokens := 5 / 1000000000, last := 5 },
      lastActive := 5 }
    (by
      simp [RateLimiter.run, RateLimiter.step, RateLimiter.cleanTick, RateLimiter.Allow,
        RateLimiter.visitor, NewRateLimiter, NewLimiter, Limiter.Allow, Limiter.refill]
      norm_num)

/-- C8: one eviction sweep at instant `now` with idle threshold `duration`
removes exactly the buckets with `now - lastActive > duration`: afterwards a key
is absent iff it was absent or its bucket was idle for longer than `duration`,
and it is bound to a bucket iff it was bound to that same bucket and
`now - lastActive <= duration` (so a bucket touched exactly `duration` ago
stays); the rate and burst of the limiter are kept. -/
theorem cleanTick_removes_exactly_idle (r : RateLimiter) (now duration : Int)
    (ip : GoString) :
    ((r.cleanTick now duration).visitors ip = none ↔
        (r.visitors ip = none ∨
          ∃ v, r.visitors ip = some v ∧ now - v.lastActive > duration)) ∧
      (∀ v, (r.cleanTick now duration).visitors ip = some v ↔
        (r.visitors ip = some v ∧ now - v.lastActive ≤ duration)) ∧
      (∀ v, r.visitors ip = some v → now - v.lastActive = duration →
        (r.cleanTick now duration).visitors ip = some v) ∧
      (r.cleanTick now duration).limit = r.limit ∧
      (r.cleanTick now duration).burst = r.burst := by
  have hkeep : ∀ v, (r.cleanTick now duration).visitors ip = some v ↔
      (r.visitors ip = some v ∧ now - v.lastActive ≤ duration) := by
    intro v
    simp only [RateLimiter.cleanTick]
    cases hget : r.visitors ip with
    | none => simp
    | some w =>
      by_cases hold : now - w.lastActive > duration
      · simp only [hold, if_true, Option.some.injEq]
        constructor
        · intro h; exact absurd h (by simp)
        · rintro ⟨h1, h2⟩; subst h1; omega
      · simp only [hold, if_false, Option.some.injEq]
        constructor
        · intro h; subst h; exact ⟨rfl, by omega⟩
        · rintro ⟨h1, _⟩; exact h1
  refine ⟨?_, hkeep, ?_, rfl, rfl⟩
  · simp only [RateLimiter.cleanTick]
    cases hget : r.visitors ip with
    | none => simp
    | some w =>
      by_cases hold : now - w.lastActive > duration
      · simp [hold]
      · simp [hold]
  · intro v hv hd
    exact (hkeep v).mpr ⟨hv, by omega⟩

/-- C9: both middlewares invoke the wrapped handler iff `Allow(getIP(req))`
returns true. When it returns true the response and the world are those of the
wrapped handler, invoked once with the request; when it returns false the
wrapped handler is not invoked (its world and its invocation record are
unchanged) and the response is `http.Error` with status 429. -/
theorem middlewares_gate_on_Allow {σ : Type} (next : Handler σ) (now : Int)
    (w : ResponseWriter) (req : Request) (r : RateLimiter) (s : σ) (log : List Request) :
    (RateLimiter.Middleware (recording next) now w req (r, (s, log)) =
        if (r.Allow (getIP req) now).1 = true then
          ((next w req s).1, ((r.Allow (getIP req) now).2, ((next w req s).2, log ++ [req])))
        else
          (httpError w "Rate limit exceeded".toList 429,
            ((r.Allow (getIP req) now).2, (s, log)))) ∧
      (RateLimiter.ChiMiddleware (recording next) now w req (r, (s, log)) =
        if (r.Allow (getIP req) now).1 = true then
          ((next w req s).1, ((r.Allow (getIP req) now).2, ((next w req s).2, log ++ [req])))
        else
          (httpError w "Rate limit exceeded".toList 429,
            ((r.Allow (getIP req) now).2, (s, log)))) ∧
      (((RateLimiter.Middleware (recording next) now w req (r, (s, log))).2.2.2 = log ++ [req] ↔
          (r.Allow (getIP req) now).1 = true) ∧
        ((RateLimiter.ChiMiddleware (recording next) now w req (r, (s, log))).2.2.2 =
            log ++ [req] ↔
          (r.Allow (getIP req) now).1 = true)) ∧
      WriterCall.WriteHeader 429 ∈ httpError w "Rate limit exceeded".toList 429 := by
  have hne : log ++ [req] ≠ log := by
    intro h
    have := congrArg List.length h
    simp at this
  refine ⟨?_, ?_, ⟨?_, ?_⟩, ?_⟩
  · cases hv : (r.Allow (getIP req) now).1 <;>
      simp [RateLimiter.Middleware, recording, hv, StatusTooManyRequests]
  · cases hv : (r.Allow (getIP req) now).1 <;>
      simp [RateLimiter.ChiMiddleware, recording, hv, StatusTooManyRequests]
  · cases hv : (r.Allow (getIP req) now).1
    · simp only [RateLimiter.Middleware, hv, Bool.not_false, if_true]
      constructor
      · intro h; exact absurd h.symm hne
      · intro h; exact absurd h (by simp)
    · simp [RateLimiter.Middleware, recording, hv]
  · cases hv : (r.Allow (getIP req) now).1
    · simp only [RateLimiter.ChiMiddleware, hv, Bool.not_false, if_true]
      constructor
      · intro h; exact absurd h.symm hne
      · intro h; exact absurd h (by simp)
    · simp [RateLimiter.ChiMiddleware, recording, hv]
  · simp [httpError]

end Ratelimiter

/-! ## Theorems: analytics -/

namespace Analytics

/-- For one identifier, different fields have different keys. -/
theorem analyticsKey_ne (shortID : GoString) (f1 f2 : GoString) (h : f1 ≠ f2) :
    analyticsKey shortID f1 ≠ analyticsKey shortID f2 := by
  intro heq
  exact h (List.append_cancel_left heq)

/-- Reading a key just written. -/
theorem Redis.put_same (db : Redis) (key : GoString) (v : RedisValue) :
    (db.put key v) key = some v := by
  simp [Redis.put]

/-- Reading another key than the one just written. -/
theorem Redis.put_other (db : Redis) (key k : GoString) (v : RedisValue) (h : k ≠ key) :
    (db.put key v) k = db k := by
  simp [Redis.put, h]

/-- With the round trip completing, `RecordURLAccess` runs exactly four
commands: the increment of the unique-visits counter is never queued, because
the result of the queued `SAdd` is read before `Exec`. -/
theorem RecordURLAccess_link_up (db : Redis) (shortID ipAddress : GoString) (now1 now2 : Time) :
    RecordURLAccess db true shortID ipAddress now1 now2 =
      (firstErr (runAll db
          [.Incr (totalClicksKey shortID), .SetNX (firstAccessedKey shortID) (.time now1),
            .Set (lastAccessedKey shortID) (.time now2),
            .SAdd (uniqueIPKey shortID) ipAddress]).1,
        (runAll db
          [.Incr (totalClicksKey shortID), .SetNX (firstAccessedKey shortID) (.time now1),
            .Set (lastAccessedKey shortID) (.time now2),
            .SAdd (uniqueIPKey shortID) ipAddress]).2) := by
  simp [RecordURLAccess, Pipeline.SAdd, Pipeline.queue, IntCmd.Result, Pipeline.Exec]

/-- With the round trip failing, `RecordURLAccess` returns the transport error
and the keyspace is as before. -/
theorem RecordURLAccess_link_down (db : Redis) (shortID ipAddress : GoString)
    (now1 now2 : Time) :
    RecordURLAccess db false shortID ipAddress now1 now2 = (some .Transport, db) := by
  simp [RecordURLAccess, Pipeline.SAdd, Pipeline.queue, IntCmd.Result, Pipeline.Exec]

/-- The five analytics keys of one identifier are pairwise different. -/
theorem keys_distinct (shortID : GoString) :
    totalClicksKey shortID ≠ uniqueVisitsKey shortID ∧
    totalClicksKey shortID ≠ lastAccessedKey shortID ∧
    totalClicksKey shortID ≠ firstAccessedKey shortID ∧
    totalClicksKey shortID ≠ uniqueIPKey shortID ∧
    uniqueVisitsKey shortID ≠ totalClicksKey shortID ∧
    uniqueVisitsKey shortID ≠ lastAccessedKey shortID ∧
    uniqueVisitsKey shortID ≠ firstAccessedKey shortID ∧
    uniqueVisitsKey shortID ≠ uniqueIPKey shortID ∧
    lastAccessedKey shortID ≠ totalClicksKey shortID ∧
    lastAccessedKey shortID ≠ uniqueVisitsKey shortID ∧
    lastAccessedKey shortID ≠ firstAccessedKey shortID ∧
    lastAccessedKey shortID ≠ uniqueIPKey shortID ∧
    firstAccessedKey shortID ≠ totalClicksKey shortID ∧
    firstAccessedKey shortID ≠ uniqueVisitsKey shortID ∧
    firstAccessedKey shortID ≠ lastAccessedKey shortID ∧
    firstAccessedKey shortID ≠ uniqueIPKey shortID ∧
    uniqueIPKey shortID ≠ totalClicksKey shortID ∧
    uniqueIPKey shortID ≠ uniqueVisitsKey shortID ∧
    uniqueIPKey shortID ≠ lastAccessedKey shortID ∧
    uniqueIPKey shortID ≠ firstAccessedKey shortID := by
  refine ⟨?_, ?_, ?_, ?_, ?_, ?_, ?_, ?_, ?_, ?_, ?_, ?_, ?_, ?_, ?_, ?_, ?_, ?_, ?_, ?_⟩ <;>
    exact analyticsKey_ne shortID _ _ (by decide)

/-- The first access recorded for an identifier without analytics fields
succeeds and leaves one click and one visitor. -/
theorem RecordURLAccess_first (db : Redis) (shortID ipAddress : GoString) (now1 now2 : Time)
    (hfresh : Fresh shortID db) :
    (RecordURLAccess db true shortID ipAddress now1 now2).1 = none ∧
      Recorded shortID 1 {ipAddress} (RecordURLAccess db true shortID ipAddress now1 now2).2 := by
  obtain ⟨f1, f2, f3, f4, f5⟩ := hfresh
  obtain ⟨h1, h2, h3, h4, h5, h6, h7, h8, h9, h10, h11, h12, h13, h14, h15, h16, h17, h18,
    h19, h20⟩ := keys_distinct shortID
  rw [RecordURLAccess_link_up]
  simp [runAll, Cmd.run, firstErr, Recorded, Redis.put, *]
  decide

/-- A further access that is recorded without error adds one click and the
client key to the visitor set, and leaves the explicit counter absent. -/
theorem RecordURLAccess_next (db : Redis) (shortID ipAddress : GoString) (now1 now2 : Time)
    (link : Bool) (n : Nat) (S : Finset GoString) (hrec : Recorded shortID n S db)
    (herr : (RecordURLAccess db link shortID ipAddress now1 now2).1 = none) :
    Recorded shortID (n + 1) (insert ipAddress S)
      (RecordURLAccess db link shortID ipAddress now1 now2).2 := by
  obtain ⟨r1, r2, r3, ⟨tl, r4⟩, ⟨tf, r5⟩, r6⟩ := hrec
  obtain ⟨h1, h2, h3, h4, h5, h6, h7, h8, h9, h10, h11, h12, h13, h14, h15, h16, h17, h18,
    h19, h20⟩ := keys_distinct shortID
  cases link with
  | false => rw [RecordURLAccess_link_down] at herr; exact absurd herr (by simp)
  | true =>
    rw [RecordURLAccess_link_up] at herr ⊢
    by_cases hover : (n : Int) + 1 > maxInt64
    · simp [runAll, Cmd.run, firstErr, r1, hover] at herr
    · by_cases hmem : ipAddress ∈ S
      · simp [runAll, Cmd.run, firstErr, Recorded, Redis.put, hover, hmem, *]
        omega
      · simp [runAll, Cmd.run, firstErr, Recorded, Redis.put, hover, hmem, *]
        omega

/-- While the click counter has room, a further access over a completing round
trip is recorded without error. -/
theorem RecordURLAccess_next_ok (db : Redis) (shortID ipAddress : GoString)
    (now1 now2 : Time) (n : Nat) (S : Finset GoString) (hrec : Recorded shortID n S db)
    (hroom : (n : Int) + 1 ≤ maxInt64) :
    (RecordURLAccess db true shortID ipAddress now1 now2).1 = none := by
  obtain ⟨r1, r2, r3, ⟨tl, r4⟩, ⟨tf, r5⟩, r6⟩ := hrec
  obtain ⟨h1, h2, h3, h4, h5, h6, h7, h8, h9, h10, h11, h12, h13, h14, h15, h16, h17, h18,
    h19, h20⟩ := keys_distinct shortID
  have hover : ¬ (n : Int) + 1 > maxInt64 := by omega
  rw [RecordURLAccess_link_up]
  by_cases hmem : ipAddress ∈ S
  · simp [runAll, Cmd.run, firstErr, Redis.put, hover, hmem, *]
  · simp [runAll, Cmd.run, firstErr, Redis.put, hover, hmem, *]

/-- A sequence of accesses recorded without error adds its length to the click
counter and its client keys to the visitor set. -/
theorem recordAll_recorded (shortID : GoString) :
    ∀ (accesses : List Access) (db : Redis) (n : Nat) (S : Finset GoString),
      Recorded shortID n S db →
      (∀ e ∈ (recordAll shortID db accesses).1, e = none) →
      Recorded shortID (n + accesses.length)
        (S ∪ (accesses.map Access.ipAddress).toFinset) (recordAll shortID db accesses).2 := by
  intro accesses
  induction accesses with
  | nil => intro db n S hrec _; simpa [recordAll] using hrec
  | cons a rest ih =>
    intro db n S hrec hok
    have hhead : (RecordURLAccess db a.link shortID a.ipAddress a.now1 a.now2).1 = none :=
      hok _ (by simp [recordAll])
    have hnext := RecordURLAccess_next db shortID a.ipAddress a.now1 a.now2 a.link n S hrec hhead
    have hrest := ih _ (n + 1) (insert a.ipAddress S) hnext
      (fun e he => hok e (by simp only [recordAll, List.mem_cons]; exact Or.inr he))
    have hlen : n + (a :: rest).length = n + 1 + rest.length := by
      simp only [List.length_cons]; omega
    have hset : S ∪ ((a :: rest).map Access.ipAddress).toFinset =
        insert a.ipAddress S ∪ (rest.map Access.ipAddress).toFinset := by
      ext x
      simp only [List.map_cons, List.toFinset_cons, Finset.mem_union, Finset.mem_insert]
      tauto
    rw [hlen, hset]
    exact hrest

/-- The summary read back after recorded accesses: the click counter and, the
explicit counter being absent, the cardinality of the visitor set. -/
theorem GetURLAnalytics_recorded (db : Redis) (shortID : GoString) (n : Nat)
    (S : Finset GoString) (hrec : Recorded shortID n S db) :
    ∃ a, GetURLAnalytics db true shortID = (some a, none) ∧
      a.TotalClicks = (n : Int) ∧ a.UniqueVisits = (S.card : Int) := by
  obtain ⟨r1, r2, r3, ⟨tl, r4⟩, ⟨tf, r5⟩, r6⟩ := hrec
  have hmin : minInt64 ≤ (n : Int) := by
    have : minInt64 ≤ 0 := by decide
    omega
  refine ⟨{ TotalClicks := n, FirstAccessed := tf, LastAccessed := tl,
            UniqueVisits := S.card }, ?_, rfl, rfl⟩
  simp [GetURLAnalytics, Pipeline.queue, Pipeline.Exec, runAll, Cmd.run, firstErr,
    Reply.Int64, Reply.intResult, Reply.strResult, parseRFC3339, r1, r2, r3, r4, r5, r6, hmin]

/-- The summary of an identifier without analytics fields is all zero. -/
theorem GetURLAnalytics_fresh (db : Redis) (shortID : GoString) (hfresh : Fresh shortID db) :
    GetURLAnalytics db true shortID =
      (some { TotalClicks := 0, FirstAccessed := 0, LastAccessed := 0, UniqueVisits := 0 },
        none) := by
  obtain ⟨f1, f2, f3, f4, f5⟩ := hfresh
  simp [GetURLAnalytics, Pipeline.queue, Pipeline.Exec, runAll, Cmd.run, firstErr,
    Reply.Int64, Reply.intResult, Reply.strResult, f1, f2, f3, f4, f5]

/-- Over completing round trips and while the click counter has room, every
access of a sequence is recorded without error. -/
theorem recordAll_ok (shortID : GoString) :
    ∀ (accesses : List Access) (db : Redis) (n : Nat) (S : Finset GoString),
      Recorded shortID n S db →
      (∀ a ∈ accesses, a.link = true) →
      ((n : Int) + accesses.length ≤ maxInt64) →
      ∀ e ∈ (recordAll shortID db accesses).1, e = none := by
  intro accesses
  induction accesses with
  | nil => intro db n S _ _ _ e he; simp [recordAll] at he
  | cons a rest ih =>
    intro db n S hrec hlink hroom e he
    have hl : a.link = true := hlink a (List.mem_cons_self _ _)
    have hlen : (((a :: rest).length : Nat) : Int) = (rest.length : Int) + 1 := by
      simp [List.length_cons]
    have hhead : (RecordURLAccess db a.link shortID a.ipAddress a.now1 a.now2).1 = none := by
      rw [hl]
      exact RecordURLAccess_next_ok db shortID a.ipAddress a.now1 a.now2 n S hrec (by omega)
    simp only [recordAll, List.mem_cons] at he
    rcases he with he | he
    · rw [he]; exact hhead
    · have hnext := RecordURLAccess_next db shortID a.ipAddress a.now1 a.now2 a.link n S
        hrec hhead
      exact ih _ (n + 1) (insert a.ipAddress S) hnext
        (fun b hb => hlink b (List.mem_cons_of_mem _ hb))
        (by push_cast; omega) e he

/-- C10: starting from an identifier with no analytics fields stored, after any
sequence of `RecordURLAccess` calls that all return a nil error,
`GetURLAnalytics` returns a summary whose `TotalClicks` is the number of calls
and whose `UniqueVisits` is the number of distinct client keys among them; so
accesses from a single key give 1 and accesses from pairwise distinct keys give
their number. -/
theorem analytics_counts_clicks_and_visitors (db : Redis) (shortID : GoString)
    (accesses : List Access) (hfresh : Fresh shortID db)
    (hok : ∀ e ∈ (recordAll shortID db accesses).1, e = none) :
    ∃ a, GetURLAnalytics (recordAll shortID db accesses).2 true shortID = (some a, none) ∧
      a.TotalClicks = (accesses.length : Int) ∧
      a.UniqueVisits = ((accesses.map Access.ipAddress).toFinset.card : Int) ∧
      (∀ c, accesses ≠ [] → (∀ x ∈ accesses, x.ipAddress = c) → a.UniqueVisits = 1) ∧
      ((accesses.map Access.ipAddress).Nodup → a.UniqueVisits = (accesses.length : Int)) := by
  have hmain : ∃ a, GetURLAnalytics (recordAll shortID db accesses).2 true shortID =
        (some a, none) ∧ a.TotalClicks = (accesses.length : Int) ∧
        a.UniqueVisits = ((accesses.map Access.ipAddress).toFinset.card : Int) := by
    cases accesses with
    | nil =>
      refine ⟨_, GetURLAnalytics_fresh db shortID hfresh, ?_, ?_⟩ <;> simp
    | cons a rest =>
      have hhead : (RecordURLAccess db a.link shortID a.ipAddress a.now1 a.now2).1 = none :=
        hok _ (by simp [recordAll])
      have hl : a.link = true := by
        cases hlink : a.link with
        | true => rfl
        | false =>
          rw [hlink, RecordURLAccess_link_down] at hhead
          exact absurd hhead (by simp)
      have hfirst := (RecordURLAccess_first db shortID a.ipAddress a.now1 a.now2 hfresh).2
      rw [← hl] at hfirst
      have hrest := recordAll_recorded shortID rest _ 1 {a.ipAddress} hfirst
        (fun e he => hok e (by simp only [recordAll, List.mem_cons]; exact Or.inr he))
      obtain ⟨s, hs, hclicks, hvisits⟩ := GetURLAnalytics_recorded _ shortID _ _ hrest
      refine ⟨s, hs, ?_, ?_⟩
      · rw [hclicks]; simp only [List.length_cons]; push_cast; omega
      · rw [hvisits]
        have hset : ({a.ipAddress} : Finset GoString) ∪ (rest.map Access.ipAddress).toFinset =
            ((a :: rest).map Access.ipAddress).toFinset := by
          ext x
          simp only [List.map_cons, List.toFinset_cons, Finset.mem_union, Finset.mem_insert,
            Finset.mem_singleton]
        rw [hset]
  obtain ⟨s, hs, hclicks, hvisits⟩ := hmain
  refine ⟨s, hs, hclicks, hvisits, ?_, ?_⟩
  · intro c hne hall
    rw [hvisits]
    have hset : (accesses.map Access.ipAddress).toFinset = {c} := by
      ext x
      simp only [List.mem_toFinset, List.mem_map, Finset.mem_singleton]
      constructor
      · rintro ⟨y, hy, rfl⟩; exact hall y hy
      · intro hx
        obtain ⟨y, hy⟩ := List.exists_mem_of_ne_nil accesses hne
        exact ⟨y, hy, by rw [hx]; exact hall y hy⟩
    rw [hset]; simp
  · intro hnodup
    rw [hvisits, List.toFinset_card_of_nodup hnodup, List.length_map]

/-- C10 at a concrete input: from the empty keyspace, three accesses to
`test-url-3` from the one key `192.168.1.1` are recorded without error and the
summary has 3 clicks and 1 unique visit. -/
theorem analytics_counts_clicks_and_visitors_witness :
    ∃ a, GetURLAnalytics
        (recordAll "test-url-3".toList emptyRedis
          [{ ipAddress := "192.168.1.1".toList, now1 := 100, now2 := 100, link := true },
           { ipAddress := "192.168.1.1".toList, now1 := 101, now2 := 101, link := true },
           { ipAddress := "192.168.1.1".toList, now1 := 102, now2 := 102, link := true }]).2
        true "test-url-3".toList = (some a, none) ∧
      a.TotalClicks = 3 ∧ a.UniqueVisits = 1 := by
  obtain ⟨a, h1, h2, _, h4, _⟩ :=
    analytics_counts_clicks_and_visitors emptyRedis "test-url-3".toList
      [{ ipAddress := "192.168.1.1".toList, now1 := 100, now2 := 100, link := true },
       { ipAddress := "192.168.1.1".toList, now1 := 101, now2 := 101, link := true },
       { ipAddress := "192.168.1.1".toList, now1 := 102, now2 := 102, link := true }]
      ⟨rfl, rfl, rfl, rfl, rfl⟩
      (by decide)
  exact ⟨a, h1, by simpa using h2, h4 "192.168.1.1".toList (by simp) (by simp)⟩

end Analytics

/-! ## Theorems: analytics fields -/

namespace Analytics

/-- A command leaves every key other than its own as it was. -/
theorem Cmd.run_other_key (db : Redis) (c : Cmd) (k : GoString) (h : k ≠ c.key) :
    (c.run db).2 k = db k := by
  cases c with
  | Incr key =>
    simp only [Cmd.key] at h
    simp only [Cmd.run]
    split
    · exact Redis.put_other _ _ _ _ h
    · split
      · rfl
      · exact Redis.put_other _ _ _ _ h
    · rfl
    · rfl
  | SetNX key value =>
    simp only [Cmd.key] at h
    simp only [Cmd.run]
    split
    · exact Redis.put_other _ _ _ _ h
    · rfl
  | Set key value =>
    simp only [Cmd.key] at h
    exact Redis.put_other _ _ _ _ h
  | SAdd key member =>
    simp only [Cmd.key] at h
    simp only [Cmd.run]
    split
    · exact Redis.put_other _ _ _ _ h
    · split
      · rfl
      · exact Redis.put_other _ _ _ _ h
    · rfl
  | Get key =>
    simp only [Cmd.run]
    split <;> rfl
  | SCard key =>
    simp only [Cmd.run]
    split <;> rfl

/-- A batch leaves every key that none of its commands addresses as it was. -/
theorem runAll_other_key (k : GoString) :
    ∀ (cmds : List Cmd) (db : Redis), (∀ c ∈ cmds, k ≠ c.key) → (runAll db cmds).2 k = db k := by
  intro cmds
  induction cmds with
  | nil => intro db _; rfl
  | cons c cs ih =>
    intro db h
    simp only [runAll]
    rw [ih _ (fun c1 hc1 => h c1 (List.mem_cons_of_mem _ hc1))]
    exact Cmd.run_other_key db c k (h c (List.mem_cons_self _ _))

/-- `RecordURLAccess` never writes the explicit unique-visits counter: whatever
the keyspace, the connection, the client key and the instants, the counter is
after the call what it was before. -/
theorem RecordURLAccess_keeps_unique_visits (db : Redis) (link : Bool)
    (shortID ipAddress : GoString) (now1 now2 : Time) :
    (RecordURLAccess db link shortID ipAddress now1 now2).2 (uniqueVisitsKey shortID) =
      db (uniqueVisitsKey shortID) := by
  obtain ⟨h1, h2, h3, h4, h5, h6, h7, h8, h9, h10, h11, h12, h13, h14, h15, h16, h17, h18,
    h19, h20⟩ := keys_distinct shortID
  cases link with
  | false => rw [RecordURLAccess_link_down]
  | true =>
    rw [RecordURLAccess_link_up]
    dsimp only
    apply runAll_other_key
    intro c hc
    simp only [List.mem_cons, List.mem_singleton, List.not_mem_nil, or_false] at hc
    rcases hc with rfl | rfl | rfl | rfl <;> simp only [Cmd.key] <;> assumption

/-- C11 at the failing input: on the empty keyspace, `RecordURLAccess("abc",
"1.2.3.4")` succeeds and adds the client key as a new member of the visitor
set, yet the explicit counter `analytics:abc:unique_visits` is still absent
afterwards instead of holding 1. -/
theorem RecordURLAccess_new_visitor_counter_not_incremented :
    (RecordURLAccess emptyRedis true "abc".toList "1.2.3.4".toList 100 100).1 = none ∧
      emptyRedis (uniqueIPKey "abc".toList) = none ∧
      (RecordURLAccess emptyRedis true "abc".toList "1.2.3.4".toList 100 100).2
          (uniqueIPKey "abc".toList) = some (.set {"1.2.3.4".toList}) ∧
      (RecordURLAccess emptyRedis true "abc".toList "1.2.3.4".toList 100 100).2
          (uniqueVisitsKey "abc".toList) = none ∧
      uniqueVisitsKey "abc".toList = "analytics:abc:unique_visits".toList := by
  have h := RecordURLAccess_first emptyRedis "abc".toList "1.2.3.4".toList 100 100
    ⟨rfl, rfl, rfl, rfl, rfl⟩
  obtain ⟨herr, _, _, hcounter, _, _, hset⟩ := h
  exact ⟨herr, rfl, hset, hcounter, by decide⟩

/-- The keyspace after the four commands of `RecordURLAccess`, read at the key
of the first-access timestamp: only the `SetNX` matters. -/
theorem RecordURLAccess_first_accessed (db : Redis) (shortID ipAddress : GoString)
    (now1 now2 : Time) :
    (RecordURLAccess db true shortID ipAddress now1 now2).2 (firstAccessedKey shortID) =
      match db (firstAccessedKey shortID) with
      | none => some (.str (.time now1))
      | some v => some v := by
  obtain ⟨h1, h2, h3, h4, h5, h6, h7, h8, h9, h10, h11, h12, h13, h14, h15, h16, h17, h18,
    h19, h20⟩ := keys_distinct shortID
  rw [RecordURLAccess_link_up]
  simp only [runAll]
  rw [Cmd.run_other_key _ (.SAdd (uniqueIPKey shortID) ipAddress) _ (by simpa [Cmd.key] using h16),
    Cmd.run_other_key _ (.Set (lastAccessedKey shortID) (.time now2)) _
      (by simpa [Cmd.key] using h15)]
  have hincr : ((Cmd.Incr (totalClicksKey shortID)).run db).2 (firstAccessedKey shortID) =
      db (firstAccessedKey shortID) :=
    Cmd.run_other_key _ (.Incr (totalClicksKey shortID)) _ (by simpa [Cmd.key] using h13)
  simp only [Cmd.run] at hincr ⊢
  rw [hincr]
  cases hget : db (firstAccessedKey shortID) with
  | none => simp [Redis.put]
  | some v => simp [hincr, hget]

/-- Once the first-access timestamp is stored, no `RecordURLAccess` for the
identifier changes it, whatever the connection, the client key and the
instants. -/
theorem RecordURLAccess_keeps_first_accessed (db : Redis) (link : Bool)
    (shortID ipAddress : GoString) (now1 now2 : Time) (v : RedisValue)
    (hv : db (firstAccessedKey shortID) = some v) :
    (RecordURLAccess db link shortID ipAddress now1 now2).2 (firstAccessedKey shortID) =
      some v := by
  cases link with
  | false => rw [RecordURLAccess_link_down]; exact hv
  | true => rw [RecordURLAccess_first_accessed, hv]

/-- Once the first-access timestamp is stored, no sequence of `RecordURLAccess`
calls for the identifier changes it. -/
theorem recordAll_keeps_first_accessed (shortID : GoString) (v : RedisValue) :
    ∀ (later : List Access) (db : Redis), db (firstAccessedKey shortID) = some v →
      (recordAll shortID db later).2 (firstAccessedKey shortID) = some v := by
  intro later
  induction later with
  | nil => intro db hv; exact hv
  | cons a rest ih =>
    intro db hv
    simp only [recordAll]
    exact ih _ (RecordURLAccess_keeps_first_accessed db a.link shortID a.ipAddress a.now1
      a.now2 v hv)

/-- C12: the first-access timestamp is write-once. After a `RecordURLAccess`
for an identifier that returned a nil error, the timestamp is stored, and every
later sequence of `RecordURLAccess` calls for the identifier, with any client
keys and instants and whether they succeed or not, leaves the stored value
unchanged; when no timestamp was stored before the first call the value is the
instant of that call. -/
theorem first_accessed_write_once (db : Redis) (shortID : GoString) (a : Access)
    (later : List Access)
    (hok : (RecordURLAccess db a.link shortID a.ipAddress a.now1 a.now2).1 = none) :
    ∃ v, (RecordURLAccess db a.link shortID a.ipAddress a.now1 a.now2).2
          (firstAccessedKey shortID) = some v ∧
      (recordAll shortID (RecordURLAccess db a.link shortID a.ipAddress a.now1 a.now2).2
          later).2 (firstAccessedKey shortID) = some v ∧
      (db (firstAccessedKey shortID) = none → v = .str (.time a.now1)) := by
  have hl : a.link = true := by
    cases hlink : a.link with
    | true => rfl
    | false =>
      rw [hlink, RecordURLAccess_link_down] at hok
      exact absurd hok (by simp)
  have hfirst := RecordURLAccess_first_accessed db shortID a.ipAddress a.now1 a.now2
  rw [hl]
  cases hget : db (firstAccessedKey shortID) with
  | none =>
    rw [hget] at hfirst
    exact ⟨_, hfirst, recordAll_keeps_first_accessed shortID _ later _ hfirst, fun _ => rfl⟩
  | some w =>
    rw [hget] at hfirst
    exact ⟨_, hfirst, recordAll_keeps_first_accessed shortID _ later _ hfirst,
      fun h => absurd h (by simp)⟩

/-- C12 at a concrete input: on the empty keyspace the access at instant 100
stores the timestamp 100, and two later accesses at instants 200 and 300, from
the same and from another client key, leave it at 100. -/
theorem first_accessed_write_once_witness :
    ∃ v, (RecordURLAccess emptyRedis true "abc".toList "1.2.3.4".toList 100 100).2
          (firstAccessedKey "abc".toList) = some v ∧
      (recordAll "abc".toList
          (RecordURLAccess emptyRedis true "abc".toList "1.2.3.4".toList 100 100).2
          [{ ipAddress := "1.2.3.4".toList, now1 := 200, now2 := 200, link := true },
           { ipAddress := "5.6.7.8".toList, now1 := 300, now2 := 300, link := true }]).2
          (firstAccessedKey "abc".toList) = some v ∧
      (emptyRedis (firstAccessedKey "abc".toList) = none → v = .str (.time 100)) :=
  first_accessed_write_once emptyRedis "abc".toList
    { ipAddress := "1.2.3.4".toList, now1 := 100, now2 := 100, link := true }
    [{ ipAddress := "1.2.3.4".toList, now1 := 200, now2 := 200, link := true },
     { ipAddress := "5.6.7.8".toList, now1 := 300, now2 := 300, link := true }]
    (by decide)

/-- A read command leaves the keyspace as it was. -/
theorem Cmd.run_Get_snd (db : Redis) (key : GoString) : ((Cmd.Get key).run db).2 = db := by
  simp only [Cmd.run]
  split <;> rfl

/-- A cardinality command leaves the keyspace as it was. -/
theorem Cmd.run_SCard_snd (db : Redis) (key : GoString) :
    ((Cmd.SCard key).run db).2 = db := by
  simp only [Cmd.run]
  split <;> rfl

/-- The replies of the batch of five reads, each computed on the keyspace as
it stands. -/
theorem runAll_analyticsReads (db : Redis) (shortID : GoString) :
    (runAll db (analyticsReads shortID)).1 =
      [((Cmd.Get (totalClicksKey shortID)).run db).1,
        ((Cmd.Get (uniqueVisitsKey shortID)).run db).1,
        ((Cmd.Get (lastAccessedKey shortID)).run db).1,
        ((Cmd.Get (firstAccessedKey shortID)).run db).1,
        ((Cmd.SCard (uniqueIPKey shortID)).run db).1] := by
  simp only [analyticsReads, runAll, Cmd.run_Get_snd]

/-- What `GetURLAnalytics` returns in terms of the replies of its batch: the
first error when it is neither nil nor `redis.Nil`, otherwise the summary built
field by field from the replies. -/
theorem GetURLAnalytics_of_replies (db : Redis) (link : Bool) (shortID : GoString) :
    GetURLAnalytics db link shortID =
      if (Pipeline.Exec (analyticsReads shortID) db link).2.1 ≠ none ∧
          (Pipeline.Exec (analyticsReads shortID) db link).2.1 ≠ some .Nil then
        (none, (Pipeline.Exec (analyticsReads shortID) db link).2.1)
      else
        (some
          { TotalClicks :=
              clicksOf ((Pipeline.Exec (analyticsReads shortID) db link).1.getD 0
                (.error .Transport)),
            FirstAccessed :=
              timeOf ((Pipeline.Exec (analyticsReads shortID) db link).1.getD 3
                (.error .Transport)),
            LastAccessed :=
              timeOf ((Pipeline.Exec (analyticsReads shortID) db link).1.getD 2
                (.error .Transport)),
            UniqueVisits :=
              visitsOf
                ((Pipeline.Exec (analyticsReads shortID) db link).1.getD 1
                  (.error .Transport))
                ((Pipeline.Exec (analyticsReads shortID) db link).1.getD 4
                  (.error .Transport)) }, none) := by
  have hpipe : Pipeline.queue (Pipeline.queue (Pipeline.queue (Pipeline.queue
      (Pipeline.queue ([] : Pipeline) (.Get (totalClicksKey shortID)))
      (.Get (uniqueVisitsKey shortID))) (.Get (lastAccessedKey shortID)))
      (.Get (firstAccessedKey shortID))) (.SCard (uniqueIPKey shortID)) =
      analyticsReads shortID := rfl
  unfold GetURLAnalytics
  simp only [hpipe]
  generalize Pipeline.Exec (analyticsReads shortID) db link = out
  split
  · rfl
  · simp only [clicksOf, timeOf, visitsOf]
    cases h0 : (out.1.getD 0 (.error .Transport)).Int64 <;>
    cases h1 : (out.1.getD 1 (.error .Transport)).Int64 <;>
    cases h2 : (out.1.getD 2 (.error .Transport)).strResult <;>
    cases h3 : (out.1.getD 3 (.error .Transport)).strResult <;>
    cases h4 : (out.1.getD 4 (.error .Transport)).intResult <;>
    rfl

/-- The click value taken from a counter read is the stored counter, or 0. -/
theorem clicksOf_Get (db : Redis) (key : GoString) :
    clicksOf ((Cmd.Get key).run db).1 = (storedCounter db key).getD 0 := by
  simp only [clicksOf, Cmd.run, storedCounter]
  cases hget : db key with
  | none => rfl
  | some v =>
    cases v with
    | set S => rfl
    | str x =>
      cases x with
      | int n =>
        by_cases hr : minInt64 ≤ n ∧ n ≤ maxInt64 <;> simp [Reply.Int64, hr]
      | time t => rfl
      | raw t => rfl

/-- The instant taken from a timestamp read is the stored instant, or the zero
time. -/
theorem timeOf_Get (db : Redis) (key : GoString) :
    timeOf ((Cmd.Get key).run db).1 = storedTime db key := by
  simp only [timeOf, Cmd.run, storedTime]
  cases hget : db key with
  | none => rfl
  | some v =>
    cases v with
    | set S => rfl
    | str x => cases x <;> rfl

/-- The unique-visits value is the stored explicit counter when there is one,
and the cardinality of the stored set otherwise. -/
theorem visitsOf_Get_SCard (db : Redis) (counterKey setKey : GoString) :
    visitsOf ((Cmd.Get counterKey).run db).1 ((Cmd.SCard setKey).run db).1 =
      (storedCounter db counterKey).getD (storedCard db setKey) := by
  have hcard : (match (((Cmd.SCard setKey).run db).1).intResult with
      | .ok c => c
      | .error _ => 0) = storedCard db setKey := by
    simp only [Cmd.run, storedCard]
    cases hget : db setKey with
    | none => rfl
    | some v => cases v <;> rfl
  simp only [visitsOf, hcard]
  simp only [Cmd.run, storedCounter]
  cases hget : db counterKey with
  | none => rfl
  | some v =>
    cases v with
    | set S => rfl
    | str x =>
      cases x with
      | int n =>
        by_cases hr : minInt64 ≤ n ∧ n ≤ maxInt64 <;> simp [Reply.Int64, hr]
      | time t => rfl
      | raw t => rfl

/-- The batch of five reads over a completing round trip. -/
theorem Exec_analyticsReads_up (db : Redis) (shortID : GoString) :
    (Pipeline.Exec (analyticsReads shortID) db true).1 =
        (runAll db (analyticsReads shortID)).1 ∧
      (Pipeline.Exec (analyticsReads shortID) db true).2.1 =
        firstErr (runAll db (analyticsReads shortID)).1 := by
  simp [Pipeline.Exec, analyticsReads]

/-- The batch of five reads over a failing round trip reports the transport
error. -/
theorem Exec_analyticsReads_down (db : Redis) (shortID : GoString) :
    (Pipeline.Exec (analyticsReads shortID) db false).2.1 = some .Transport := by
  simp [Pipeline.Exec, analyticsReads]

/-- Whenever `GetURLAnalytics` returns a summary, the error is nil and the
summary holds, field by field, what is stored: the counters that parse, the
timestamps that parse, zero values for the rest, and for the unique visits the
explicit counter if it parses, the set cardinality otherwise. -/
theorem GetURLAnalytics_summary (db : Redis) (link : Bool) (shortID : GoString)
    (a : URLAnalytics) (e : Option RedisError)
    (h : GetURLAnalytics db link shortID = (some a, e)) :
    e = none ∧
      a = { TotalClicks := (storedCounter db (totalClicksKey shortID)).getD 0,
            FirstAccessed := storedTime db (firstAccessedKey shortID),
            LastAccessed := storedTime db (lastAccessedKey shortID),
            UniqueVisits := (storedCounter db (uniqueVisitsKey shortID)).getD
              (storedCard db (uniqueIPKey shortID)) } := by
  rw [GetURLAnalytics_of_replies] at h
  split at h
  · exact absurd h (by simp)
  · cases link with
    | false =>
      rename_i hbad
      rw [Exec_analyticsReads_down] at hbad
      exact absurd hbad (by simp)
    | true =>
      simp only [(Exec_analyticsReads_up db shortID).1, runAll_analyticsReads,
        List.getD_cons_zero, List.getD_cons_succ, clicksOf_Get, timeOf_Get,
        visitsOf_Get_SCard, Prod.mk.injEq, Option.some.injEq] at h
      exact ⟨h.2.symm, h.1.symm⟩

/-- A read of a key that does not hold a set replies with the string or with
the missing-key condition. -/
theorem Cmd.run_Get_benign (db : Redis) (key : GoString)
    (h : ∀ S, db key ≠ some (.set S)) :
    (∃ x, ((Cmd.Get key).run db).1 = .str x) ∨ ((Cmd.Get key).run db).1 = .error .Nil := by
  simp only [Cmd.run]
  cases hget : db key with
  | none => exact Or.inr rfl
  | some v =>
    cases v with
    | set S => exact absurd hget (h S)
    | str x => exact Or.inl ⟨x, rfl⟩

/-- The cardinality of a key that does not hold a string replies with a
number. -/
theorem Cmd.run_SCard_benign (db : Redis) (key : GoString)
    (h : ∀ x, db key ≠ some (.str x)) :
    ∃ n, ((Cmd.SCard key).run db).1 = .int n := by
  simp only [Cmd.run]
  cases hget : db key with
  | none => exact ⟨0, rfl⟩
  | some v =>
    cases v with
    | set S => exact ⟨S.card, rfl⟩
    | str x => exact absurd hget (h x)

/-- On well-typed analytics fields the batch of five reads reports no error
other than the missing-key condition. -/
theorem firstErr_analyticsReads (db : Redis) (shortID : GoString)
    (hty : WellTyped shortID db) :
    firstErr (runAll db (analyticsReads shortID)).1 = none ∨
      firstErr (runAll db (analyticsReads shortID)).1 = some .Nil := by
  obtain ⟨t1, t2, t3, t4, t5⟩ := hty
  rw [runAll_analyticsReads]
  obtain ⟨n, h5⟩ := Cmd.run_SCard_benign db _ t5
  rcases Cmd.run_Get_benign db _ t1 with ⟨x1, h1⟩ | h1 <;>
  rcases Cmd.run_Get_benign db _ t2 with ⟨x2, h2⟩ | h2 <;>
  rcases Cmd.run_Get_benign db _ t3 with ⟨x3, h3⟩ | h3 <;>
  rcases Cmd.run_Get_benign db _ t4 with ⟨x4, h4⟩ | h4 <;>
  simp [h1, h2, h3, h4, h5, firstErr]

/-- C13: `GetURLAnalytics` tolerates missing fields. Over a completing round
trip and analytics fields of the Redis types that `RecordURLAccess` writes, it
returns a summary with a nil error; in it an absent field has its zero value
(0 clicks, zero time, 0 unique visits) and a stored field that parses is
reported; with none of the five fields stored the summary is all zero. For any
keyspace and connection, the call fails only with the first error of the batch,
and that error is not the missing-key condition. -/
theorem GetURLAnalytics_tolerates_missing_fields (db : Redis) (shortID : GoString)
    (hty : WellTyped shortID db) :
    (∃ a, GetURLAnalytics db true shortID = (some a, none) ∧
      (db (totalClicksKey shortID) = none → a.TotalClicks = 0) ∧
      (∀ n, db (totalClicksKey shortID) = some (.str (.int n)) → minInt64 ≤ n →
        n ≤ maxInt64 → a.TotalClicks = n) ∧
      (db (firstAccessedKey shortID) = none → a.FirstAccessed = 0) ∧
      (∀ t, db (firstAccessedKey shortID) = some (.str (.time t)) → a.FirstAccessed = t) ∧
      (db (lastAccessedKey shortID) = none → a.LastAccessed = 0) ∧
      (∀ t, db (lastAccessedKey shortID) = some (.str (.time t)) → a.LastAccessed = t) ∧
      (db (uniqueVisitsKey shortID) = none → db (uniqueIPKey shortID) = none →
        a.UniqueVisits = 0) ∧
      (∀ n, db (uniqueVisitsKey shortID) = some (.str (.int n)) → minInt64 ≤ n →
        n ≤ maxInt64 → a.UniqueVisits = n) ∧
      (∀ S, db (uniqueVisitsKey shortID) = none → db (uniqueIPKey shortID) = some (.set S) →
        a.UniqueVisits = S.card)) ∧
    (Fresh shortID db →
      GetURLAnalytics db true shortID =
        (some { TotalClicks := 0, FirstAccessed := 0, LastAccessed := 0, UniqueVisits := 0 },
          none)) ∧
    (∀ (db1 : Redis) (link : Bool) (a : Option URLAnalytics) (e : RedisError),
      GetURLAnalytics db1 link shortID = (a, some e) →
        a = none ∧ e ≠ .Nil ∧
          (Pipeline.Exec (analyticsReads shortID) db1 link).2.1 = some e) := by
  have hret : ∃ a, GetURLAnalytics db true shortID = (some a, none) := by
    rw [GetURLAnalytics_of_replies, (Exec_analyticsReads_up db shortID).2]
    rcases firstErr_analyticsReads db shortID hty with h | h <;> simp [h]
  obtain ⟨a, ha⟩ := hret
  obtain ⟨_, hsum⟩ := GetURLAnalytics_summary db true shortID a none ha
  refine ⟨⟨a, ha, ?_, ?_, ?_, ?_, ?_, ?_, ?_, ?_, ?_⟩, ?_, ?_⟩
  · intro h; rw [hsum]; simp [storedCounter, h]
  · intro n h h1 h2; rw [hsum]; simp [storedCounter, h, h1, h2]
  · intro h; rw [hsum]; simp [storedTime, h]
  · intro t h; rw [hsum]; simp [storedTime, h]
  · intro h; rw [hsum]; simp [storedTime, h]
  · intro t h; rw [hsum]; simp [storedTime, h]
  · intro h1 h2; rw [hsum]; simp [storedCounter, storedCard, h1, h2]
  · intro n h h1 h2; rw [hsum]; simp [storedCounter, h, h1, h2]
  · intro S h1 h2; rw [hsum]; simp [storedCounter, storedCard, h1, h2]
  · exact GetURLAnalytics_fresh db shortID
  · intro db1 link a e h
    rw [GetURLAnalytics_of_replies] at h
    split at h
    · rename_i hbad
      simp only [Prod.mk.injEq] at h
      refine ⟨h.1.symm, ?_, h.2⟩
      intro hnil
      rw [hnil] at h
      exact hbad.2 h.2
    · exact absurd h (by simp)

/-- C13 at a concrete input: with only the click counter (5) and the
last-access timestamp (100) stored for `abc`, the summary has 5 clicks, the
zero first-access time, last access 100 and 0 unique visits. -/
theorem GetURLAnalytics_tolerates_missing_fields_witness :
    GetURLAnalytics
        ((emptyRedis.put (totalClicksKey "abc".toList) (.str (.int 5))).put
          (lastAccessedKey "abc".toList) (.str (.time 100)))
        true "abc".toList =
      (some { TotalClicks := 5, FirstAccessed := 0, LastAccessed := 100, UniqueVisits := 0 },
        none) := by
  obtain ⟨⟨a, ha, _, h2, h3, _, _, h6, h7, _, _⟩, _, _⟩ :=
    GetURLAnalytics_tolerates_missing_fields
      ((emptyRedis.put (totalClicksKey "abc".toList) (.str (.int 5))).put
        (lastAccessedKey "abc".toList) (.str (.time 100)))
      "abc".toList
      (by refine ⟨?_, ?_, ?_, ?_, ?_⟩ <;> intro S h <;> cases h)
  rw [ha]
  have e1 := h2 5 (by decide) (by decide) (by decide)
  have e2 := h3 (by decide)
  have e3 := h6 100 (by decide)
  have e4 := h7 (by decide) (by decide)
  cases a
  simp only at e1 e2 e3 e4
  simp [e1, e2, e3, e4]

/-- C14: `GetURLAnalytics` over a completing round trip, on analytics fields of
the Redis types that `RecordURLAccess` writes, returns a summary with a nil
error, and in it `UniqueVisits` is the explicit `unique_visits` counter whenever
that field is stored and parses as an integer, and otherwise the cardinality of
the `unique_ips` set (0 when no set is stored), also when the two disagree.
Moreover, for every keyspace and connection, every summary the call returns
has that value of `UniqueVisits`, and the call returns no summary only together
with an error. -/
theorem UniqueVisits_prefers_explicit_counter (db : Redis) (shortID : GoString)
    (hty : WellTyped shortID db) :
    (∃ a, GetURLAnalytics db true shortID = (some a, none) ∧
      a.UniqueVisits =
        (storedCounter db (uniqueVisitsKey shortID)).getD
          (storedCard db (uniqueIPKey shortID)) ∧
      (∀ n, db (uniqueVisitsKey shortID) = some (.str (.int n)) → minInt64 ≤ n →
        n ≤ maxInt64 → a.UniqueVisits = n) ∧
      (storedCounter db (uniqueVisitsKey shortID) = none →
        ∀ S, db (uniqueIPKey shortID) = some (.set S) → a.UniqueVisits = S.card) ∧
      (storedCounter db (uniqueVisitsKey shortID) = none →
        db (uniqueIPKey shortID) = none → a.UniqueVisits = 0)) ∧
    (∀ (db1 : Redis) (link : Bool) (a : URLAnalytics) (e : Option RedisError),
      GetURLAnalytics db1 link shortID = (some a, e) →
        e = none ∧
          a.UniqueVisits =
            (storedCounter db1 (uniqueVisitsKey shortID)).getD
              (storedCard db1 (uniqueIPKey shortID))) ∧
    (∀ (db1 : Redis) (link : Bool) (e : Option RedisError),
      GetURLAnalytics db1 link shortID = (none, e) → e ≠ none) := by
  have hret : ∃ a, GetURLAnalytics db true shortID = (some a, none) := by
    rw [GetURLAnalytics_of_replies, (Exec_analyticsReads_up db shortID).2]
    rcases firstErr_analyticsReads db shortID hty with h | h <;> simp [h]
  obtain ⟨a, ha⟩ := hret
  obtain ⟨_, hsum⟩ := GetURLAnalytics_summary db true shortID a none ha
  refine ⟨⟨a, ha, by rw [hsum], ?_, ?_, ?_⟩, ?_, ?_⟩
  · intro n h0 h1 h2; rw [hsum]; simp [storedCounter, h0, h1, h2]
  · intro hc S hS; rw [hsum]; simp [hc, storedCard, hS]
  · intro hc hS; rw [hsum]; simp [hc, storedCard, hS]
  · intro db1 link a1 e h
    obtain ⟨he, hsum1⟩ := GetURLAnalytics_summary db1 link shortID a1 e h
    exact ⟨he, by rw [hsum1]⟩
  · intro db1 link e h
    rw [GetURLAnalytics_of_replies] at h
    split at h
    · rename_i hbad
      simp only [Prod.mk.injEq, true_and] at h
      rw [← h]
      exact hbad.1
    · exact absurd h (by simp)

/-- C14 at a concrete input: with the explicit counter at 7 and a visitor set
of one member stored for `abc`, `GetURLAnalytics` returns a summary with a nil
error that reports 7 unique visits, not 1. -/
theorem UniqueVisits_prefers_explicit_counter_witness :
    storedCard
        ((emptyRedis.put (uniqueVisitsKey "abc".toList) (.str (.int 7))).put
          (uniqueIPKey "abc".toList) (.set {"1.2.3.4".toList}))
        (uniqueIPKey "abc".toList) = 1 ∧
      ∃ a, GetURLAnalytics
          ((emptyRedis.put (uniqueVisitsKey "abc".toList) (.str (.int 7))).put
            (uniqueIPKey "abc".toList) (.set {"1.2.3.4".toList}))
          true "abc".toList = (some a, none) ∧ a.UniqueVisits = 7 := by
  refine ⟨by decide, ?_⟩
  obtain ⟨⟨a, ha, _, h7, _, _⟩, _, _⟩ :=
    UniqueVisits_prefers_explicit_counter
      ((emptyRedis.put (uniqueVisitsKey "abc".toList) (.str (.int 7))).put
        (uniqueIPKey "abc".toList) (.set {"1.2.3.4".toList}))
      "abc".toList
      (by
        have e1 : ((emptyRedis.put (uniqueVisitsKey "abc".toList) (.str (.int 7))).put
            (uniqueIPKey "abc".toList) (.set {"1.2.3.4".toList}))
            (totalClicksKey "abc".toList) = none := by decide
        have e2 : ((emptyRedis.put (uniqueVisitsKey "abc".toList) (.str (.int 7))).put
            (uniqueIPKey "abc".toList) (.set {"1.2.3.4".toList}))
            (uniqueVisitsKey "abc".toList) = some (.str (.int 7)) := by decide
        have e3 : ((emptyRedis.put (uniqueVisitsKey "abc".toList) (.str (.int 7))).put
            (uniqueIPKey "abc".toList) (.set {"1.2.3.4".toList}))
            (lastAccessedKey "abc".toList) = none := by decide
        have e4 : ((emptyRedis.put (uniqueVisitsKey "abc".toList) (.str (.int 7))).put
            (uniqueIPKey "abc".toList) (.set {"1.2.3.4".toList}))
            (firstAccessedKey "abc".toList) = none := by decide
        have e5 : ((emptyRedis.put (uniqueVisitsKey "abc".toList) (.str (.int 7))).put
            (uniqueIPKey "abc".toList) (.set {"1.2.3.4".toList}))
            (uniqueIPKey "abc".toList) = some (.set {"1.2.3.4".toList}) := by decide
        refine ⟨?_, ?_, ?_, ?_, ?_⟩
        · intro S h; rw [e1] at h; cases h
        · intro S h; rw [e2] at h; cases h
        · intro S h; rw [e3] at h; cases h
        · intro S h; rw [e4] at h; cases h
        · intro S h; rw [e5] at h; cases h)
  exact ⟨a, ha, h7 7 (by decide) (by decide) (by decide)⟩

end Analytics

/-! ## Theorems: shortening service -/

namespace Service

open Errors Validator Shortener

/-- An identifier that the `GenerateUnique` loop returns with a nil error was
returned by a `Generate` call and reported as absent by the checker. -/
theorem generateUniqueLoop_ret (g : IDGenerator) (rd : RandReader)
    (existenceChecker : GoString → Bool) :
    ∀ (n : Nat) (tr : GenTrace) (shortID : GoString) (tr1 : GenTrace),
      g.generateUniqueLoop rd existenceChecker n tr = (.ret shortID none, tr1) →
      existenceChecker shortID = false ∧
        ∃ p p1, g.Generate rd p = (.ret shortID none, p1) := by
  intro n
  induction n with
  | zero =>
    intro tr shortID tr1 h
    simp [IDGenerator.generateUniqueLoop] at h
  | succ n ih =>
    intro tr shortID tr1 h
    rw [IDGenerator.generateUniqueLoop] at h
    split at h
    · exact absurd h (by simp)
    · exact absurd h (by simp)
    · rename_i id1 p1 hG
      by_cases hex : existenceChecker id1 = true
      · simp only [hex, Bool.not_true, Bool.false_eq_true, if_false] at h
        exact ih _ _ _ h
      · have hfalse : existenceChecker id1 = false := by simpa using hex
        simp only [hfalse, Bool.not_false, if_true, Prod.mk.injEq, GoResult.ret.injEq,
          and_true] at h
        obtain ⟨hid, _⟩ := h
        subst hid
        exact ⟨hfalse, tr.pos, p1, hG⟩

/-- An identifier that `GenerateUnique` of the default generator returns has 8
bytes of the default alphabet and was reported as absent by the checker. -/
theorem DefaultGenerator_GenerateUnique_ret (rd : RandReader)
    (existenceChecker : GoString → Bool) (tr : GenTrace) (shortID : GoString)
    (tr1 : GenTrace)
    (h : DefaultGenerator.GenerateUnique rd existenceChecker tr = (.ret shortID none, tr1)) :
    existenceChecker shortID = false ∧ shortID.length = 8 ∧
      ∀ b ∈ shortID, b ∈ defaultAlphabet := by
  obtain ⟨hex, p, p1, hG⟩ :=
    generateUniqueLoop_ret DefaultGenerator rd existenceChecker _ tr shortID tr1 h
  obtain ⟨_, hlen, hmem, _⟩ := Generate_ret DefaultGenerator rd p shortID p1 hG
  exact ⟨hex, hlen, hmem⟩

/-- C16: for every URL that the validator rejects, `ShortenURL` returns the
empty string with that validation error, having called `Generate` zero times,
looked up no identifier and made no save, and the store is as before; the empty
string is rejected (code 400) by every validator. -/
theorem ShortenURL_rejects_invalid {σ : Type} (lib : URLLib)
    (s : URLShorteningServiceImpl σ) (st : σ) (rd : RandReader) (pos : Nat)
    (originalURL : GoString) (options : List URLShortenOption) (apiErr : APIError)
    (hrej : s.validator.Validate lib originalURL = some apiErr) :
    (s.ShortenURL lib st rd pos originalURL options).result =
        .ret [] (some (.api apiErr)) ∧
      (s.ShortenURL lib st rd pos originalURL options).store = st ∧
      (s.ShortenURL lib st rd pos originalURL options).trace =
        { pos := pos, generateCalls := 0, checked := [] } ∧
      (s.ShortenURL lib st rd pos originalURL options).saved = none ∧
      s.validator.Validate lib [] =
        some (New 400 "URL cannot be empty".toList ["Please provide a valid URL".toList]) := by
  have hout : s.ShortenURL lib st rd pos originalURL options =
      { result := .ret [] (some (.api apiErr)), store := st,
        trace := { pos := pos, generateCalls := 0, checked := [] }, saved := none } := by
    simp only [URLShorteningServiceImpl.ShortenURL, hrej]
  rw [hout]
  refine ⟨rfl, rfl, rfl, rfl, ?_⟩
  simp [URLValidator.Validate]

/-- C16 at a concrete input: over the mock store holding one mapping,
`ShortenURL("not-a-url")` returns the scheme error and leaves the store, the
entropy source and the identifier checker untouched. -/
theorem ShortenURL_rejects_invalid_witness :
    ((NewURLShorteningService testConfig mockRedisStore).ShortenURL exampleLib
        (fun k => if k = "existing-id".toList then some "https://example.com".toList else none)
        (fun i _ => .ok (i % 62)) 0 "not-a-url".toList []).result =
      .ret [] (some (.api (New 400 "Only http and https schemes are supported".toList
        ["Please enter a URL starting with http or https".toList]))) ∧
    ((NewURLShorteningService testConfig mockRedisStore).ShortenURL exampleLib
        (fun k => if k = "existing-id".toList then some "https://example.com".toList else none)
        (fun i _ => .ok (i % 62)) 0 "not-a-url".toList []).trace =
      { pos := 0, generateCalls := 0, checked := [] } ∧
    ((NewURLShorteningService testConfig mockRedisStore).ShortenURL exampleLib
        (fun k => if k = "existing-id".toList then some "https://example.com".toList else none)
        (fun i _ => .ok (i % 62)) 0 "not-a-url".toList []).saved = none := by
  have h := ShortenURL_rejects_invalid exampleLib
    (NewURLShorteningService testConfig mockRedisStore)
    (fun k => if k = "existing-id".toList then some "https://example.com".toList else none)
    (fun i _ => .ok (i % 62)) 0 "not-a-url".toList []
    (New 400 "Only http and https schemes are supported".toList
      ["Please enter a URL starting with http or https".toList])
    (by decide)
  exact ⟨h.1, h.2.2.1, h.2.2.2.1⟩

/-- What a successful `ShortenURL` has done: the validator accepted the URL,
`GenerateUnique` returned an identifier, the save under that identifier with
the resolved expiry returned a nil error, and the result is the base URL, a
slash and the identifier. -/
theorem ShortenURL_success {σ : Type} (lib : URLLib) (s : URLShorteningServiceImpl σ)
    (st : σ) (rd : RandReader) (pos : Nat) (originalURL : GoString)
    (options : List URLShortenOption) (v : GoString)
    (hres : (s.ShortenURL lib st rd pos originalURL options).result = .ret v none) :
    s.validator.Validate lib originalURL = none ∧
      ∃ shortID tr1,
        DefaultGenerator.GenerateUnique rd
            (fun id => (s.Store.GetOriginalURL st id).2.isNone)
            { pos := pos, generateCalls := 0, checked := [] } = (.ret shortID none, tr1) ∧
        s.Store.SaveShortenedURLWithTTL st shortID originalURL
            (resolveOptions s.cfg options).ttl =
          (none, (s.ShortenURL lib st rd pos originalURL options).store) ∧
        (s.ShortenURL lib st rd pos originalURL options).saved =
          some (shortID, originalURL, (resolveOptions s.cfg options).ttl) ∧
        (s.ShortenURL lib st rd pos originalURL options).trace = tr1 ∧
        v = s.cfg.BaseURL ++ "/".toList ++ shortID := by
  unfold URLShorteningServiceImpl.ShortenURL at hres ⊢
  cases hval : s.validator.Validate lib originalURL with
  | some apiErr => simp [hval] at hres
  | none =>
    simp only [hval] at hres ⊢
    cases hgen : DefaultGenerator.GenerateUnique rd
        (fun id => (s.Store.GetOriginalURL st id).2.isNone)
        { pos := pos, generateCalls := 0, checked := [] } with
    | mk res tr1 =>
      simp only [hgen] at hres ⊢
      cases res with
      | panic => simp at hres
      | ret shortID err =>
        cases err with
        | some e => simp at hres
        | none =>
          simp only at hres ⊢
          cases hsave : s.Store.SaveShortenedURLWithTTL st shortID originalURL
              (resolveOptions s.cfg options).ttl with
          | mk serr st1 =>
            simp only [hsave] at hres ⊢
            cases serr with
            | some e => simp at hres
            | none =>
              simp only [ServiceResult.ret.injEq, and_true] at hres
              exact ⟨trivial, shortID, tr1, rfl, hsave, rfl, rfl, hres.symm⟩

/-- The mock store of the tests is map-like, its state being the map. -/
theorem mockRedisStore_mapLike : mockRedisStore.MapLike (fun urls => urls) := by
  refine ⟨?_, ?_, ?_⟩
  · intro st id url h
    simp [mockRedisStore, h]
  · intro st id h
    simp [mockRedisStore, h]
  · intro st id url ttl st1 h k
    simp only [mockRedisStore, Prod.mk.injEq, true_and] at h
    rw [← h]

/-- The Redis store is map-like: over a connection without fault its map is
the stored values, over a faulty connection nothing can be looked up. -/
theorem RedisStore_mapLike :
    RedisStore.MapLike (fun c =>
      match c.fault with
      | none => fun k => (c.entries k).map Prod.fst
      | some _ => fun _ => none) := by
  refine ⟨?_, ?_, ?_⟩
  · intro st id url h
    cases hf : st.fault with
    | some msg => simp [hf] at h
    | none =>
      simp only [hf, Option.map_eq_some'] at h
      obtain ⟨entry, he, hu⟩ := h
      simp [RedisStore, hf, he, hu]
  · intro st id h
    cases hf : st.fault with
    | some msg => simp [RedisStore, hf]
    | none =>
      simp only [hf, Option.map_eq_none'] at h
      simp [RedisStore, hf, h]
  · intro st id url ttl st1 h k
    cases hf : st.fault with
    | some msg => simp [RedisStore, hf] at h
    | none =>
      simp only [RedisStore, hf, Prod.mk.injEq, true_and] at h
      rw [← h]
      simp only [hf]
      by_cases hk : k = id <;> simp [hk]

/-- C15: if `ShortenURL(u)` succeeds against a map-like store, then the
validator accepted `u`, the result is exactly `BaseURL + "/" + id` for an
identifier `id` of 8 bytes of the default alphabet (which has 62 characters),
and `GetOriginalURL(id)` on the store afterwards returns `u` with a nil error. -/
theorem ShortenURL_round_trip {σ : Type} (lib : URLLib) (s : URLShorteningServiceImpl σ)
    (view : σ → GoString → Option GoString) (hmap : s.Store.MapLike view)
    (st : σ) (rd : RandReader) (pos : Nat) (originalURL : GoString)
    (options : List URLShortenOption) (v : GoString)
    (hres : (s.ShortenURL lib st rd pos originalURL options).result = .ret v none) :
    s.validator.Validate lib originalURL = none ∧
      ∃ shortID, v = s.cfg.BaseURL ++ "/".toList ++ shortID ∧
        shortID.length = 8 ∧ (∀ b ∈ shortID, b ∈ defaultAlphabet) ∧
        defaultAlphabet.length = 62 ∧
        s.GetOriginalURL (s.ShortenURL lib st rd pos originalURL options).store shortID =
          (originalURL, none) := by
  obtain ⟨hval, shortID, tr1, hgen, hsave, _, _, hv⟩ :=
    ShortenURL_success lib s st rd pos originalURL options v hres
  obtain ⟨_, hlen, hmem⟩ := DefaultGenerator_GenerateUnique_ret rd _ _ shortID tr1 hgen
  refine ⟨hval, shortID, hv, hlen, hmem, by decide, ?_⟩
  have hview := hmap.2.2 st shortID originalURL _ _ hsave shortID
  simp only [if_true] at hview
  exact hmap.1 _ shortID originalURL hview

/-- C15 at a concrete input: over the empty mock store, with base
`http://short.url` and the source whose `i`-th draw is `i mod 62`, shortening
`https://example.com` gives `http://short.url/01234567`, and looking up
`01234567` gives `https://example.com` back. -/
theorem ShortenURL_round_trip_witness :
    ((NewURLShorteningService testConfig mockRedisStore).ShortenURL exampleLib
        (fun _ => none) (fun i _ => .ok (i % 62)) 0 "https://example.com".toList []).result =
      .ret "http://short.url/01234567".toList none ∧
    (NewURLShorteningService testConfig mockRedisStore).GetOriginalURL
        ((NewURLShorteningService testConfig mockRedisStore).ShortenURL exampleLib
          (fun _ => none) (fun i _ => .ok (i % 62)) 0 "https://example.com".toList []).store
        "01234567".toList = ("https://example.com".toList, none) := by
  have hres : ((NewURLShorteningService testConfig mockRedisStore).ShortenURL exampleLib
      (fun _ => none) (fun i _ => .ok (i % 62)) 0 "https://example.com".toList []).result =
      .ret "http://short.url/01234567".toList none := by decide
  obtain ⟨_, shortID, hv, _, _, _, hget⟩ :=
    ShortenURL_round_trip exampleLib (NewURLShorteningService testConfig mockRedisStore)
      (fun urls => urls) mockRedisStore_mapLike (fun _ => none) (fun i _ => .ok (i % 62)) 0
      "https://example.com".toList [] "http://short.url/01234567".toList hres
  have hid : shortID = "01234567".toList := by
    have h1 : "http://short.url/01234567".toList =
        (NewURLShorteningService testConfig mockRedisStore).cfg.BaseURL ++ "/".toList ++
          "01234567".toList := by decide
    rw [h1] at hv
    exact (List.append_cancel_left hv).symm
  rw [hid] at hget
  exact ⟨hres, hget⟩

/-- C17: `ShortenURL` never overwrites a live mapping. Against a map-like store,
after a successful `ShortenURL` the identifier it saved under was absent from
the map just before the call, it is now mapped to the URL, and every mapping
present before the call is still present with the same value. -/
theorem ShortenURL_keeps_live_mappings {σ : Type} (lib : URLLib)
    (s : URLShorteningServiceImpl σ) (view : σ → GoString → Option GoString)
    (hmap : s.Store.MapLike view) (st : σ) (rd : RandReader) (pos : Nat)
    (originalURL : GoString) (options : List URLShortenOption) (v : GoString)
    (hres : (s.ShortenURL lib st rd pos originalURL options).result = .ret v none) :
    ∃ shortID ttl,
      (s.ShortenURL lib st rd pos originalURL options).saved =
          some (shortID, originalURL, ttl) ∧
        view st shortID = none ∧
        view (s.ShortenURL lib st rd pos originalURL options).store shortID =
          some originalURL ∧
        ∀ k url, view st k = some url →
          view (s.ShortenURL lib st rd pos originalURL options).store k = some url := by
  obtain ⟨_, shortID, tr1, hgen, hsave, hsaved, _, _⟩ :=
    ShortenURL_success lib s st rd pos originalURL options v hres
  obtain ⟨hfree, _, _⟩ := DefaultGenerator_GenerateUnique_ret rd _ _ shortID tr1 hgen
  have habsent : view st shortID = none := by
    cases hview : view st shortID with
    | none => rfl
    | some url =>
      have hget := hmap.1 st shortID url hview
      simp [hget] at hfree
  have hafter := hmap.2.2 st shortID originalURL _ _ hsave
  refine ⟨shortID, _, hsaved, habsent, ?_, ?_⟩
  · rw [hafter shortID]; simp
  · intro k url hk
    rw [hafter k]
    have hne : k ≠ shortID := by
      intro heq
      rw [heq, habsent] at hk
      exact absurd hk (by simp)
    simp [hne, hk]

/-- C17 at a concrete input: over the mock store that already maps `01234567`,
the first candidate collides, the mapping is saved under the second candidate
`89abcdef`, and `01234567` still maps to its URL. -/
theorem ShortenURL_keeps_live_mappings_witness :
    ∃ shortID ttl,
      ((NewURLShorteningService testConfig mockRedisStore).ShortenURL exampleLib
          (fun k => if k = "01234567".toList then some "https://old.example".toList else none)
          (fun i _ => .ok (i % 62)) 0 "https://example.com".toList []).saved =
          some (shortID, "https://example.com".toList, ttl) ∧
        (if shortID = "01234567".toList then some "https://old.example".toList else none) =
          none ∧
        ((NewURLShorteningService testConfig mockRedisStore).ShortenURL exampleLib
          (fun k => if k = "01234567".toList then some "https://old.example".toList else none)
          (fun i _ => .ok (i % 62)) 0 "https://example.com".toList []).store shortID =
          some "https://example.com".toList ∧
        ∀ k url,
          (if k = "01234567".toList then some "https://old.example".toList else none) =
              some url →
            ((NewURLShorteningService testConfig mockRedisStore).ShortenURL exampleLib
              (fun k => if k = "01234567".toList then some "https://old.example".toList
                else none)
              (fun i _ => .ok (i % 62)) 0 "https://example.com".toList []).store k = some url :=
  ShortenURL_keeps_live_mappings exampleLib (NewURLShorteningService testConfig mockRedisStore)
    (fun urls => urls) mockRedisStore_mapLike
    (fun k => if k = "01234567".toList then some "https://old.example".toList else none)
    (fun i _ => .ok (i % 62)) 0 "https://example.com".toList []
    "http://short.url/89abcdef".toList (by decide)

/-- The expiry resolved without options is the configured default. -/
theorem resolveOptions_nil (cfg : Config) : (resolveOptions cfg []).ttl = cfg.DefaultURLTTL :=
  rfl

/-- The expiry resolved when the last option is `WithTTL(d)` is `d`. -/
theorem resolveOptions_WithTTL_last (cfg : Config) (pre : List URLShortenOption) (d : Int) :
    (resolveOptions cfg (pre ++ [WithTTL d])).ttl = d := by
  simp [resolveOptions, WithTTL, List.foldl_append]

/-- C18: a successful `ShortenURL` has made its one save with the effective
expiry, and that save is what produced the store afterwards: the configured
`DefaultURLTTL` when no option is passed, and exactly `d` when the last option
is `WithTTL(d)`, whatever options precede it and for every `d`, zero
included. -/
theorem ShortenURL_persists_effective_ttl {σ : Type} (lib : URLLib)
    (s : URLShorteningServiceImpl σ) (st : σ) (rd : RandReader) (pos : Nat)
    (originalURL : GoString) (options : List URLShortenOption) (v : GoString)
    (hres : (s.ShortenURL lib st rd pos originalURL options).result = .ret v none) :
    ∃ shortID ttl,
      (s.ShortenURL lib st rd pos originalURL options).saved =
          some (shortID, originalURL, ttl) ∧
        s.Store.SaveShortenedURLWithTTL st shortID originalURL ttl =
          (none, (s.ShortenURL lib st rd pos originalURL options).store) ∧
        (options = [] → ttl = s.cfg.DefaultURLTTL) ∧
        (∀ pre d, options = pre ++ [WithTTL d] → ttl = d) := by
  obtain ⟨_, shortID, tr1, _, hsave, hsaved, _, _⟩ :=
    ShortenURL_success lib s st rd pos originalURL options v hres
  refine ⟨shortID, _, hsaved, hsave, ?_, ?_⟩
  · intro h; rw [h]; rfl
  · intro pre d h; rw [h]; exact resolveOptions_WithTTL_last s.cfg pre d

/-- C18 at a concrete input: over the Redis store with no key and no fault,
`ShortenURL` with the options `WithTTL(1h)`, `WithTTL(0)` saves with expiry 0,
the last option. -/
theorem ShortenURL_persists_effective_ttl_witness :
    ∃ shortID ttl,
      ((NewURLShorteningService testConfig RedisStore).ShortenURL exampleLib
          { entries := fun _ => none, fault := none }
          (fun i _ => .ok (i % 62)) 0 "https://example.com".toList
          [WithTTL 3600000000000, WithTTL 0]).saved =
          some (shortID, "https://example.com".toList, ttl) ∧ ttl = 0 := by
  obtain ⟨shortID, ttl, hsaved, _, _, hlast⟩ :=
    ShortenURL_persists_effective_ttl exampleLib (NewURLShorteningService testConfig RedisStore)
      { entries := fun _ => none, fault := none }
      (fun i _ => .ok (i % 62)) 0 "https://example.com".toList
      [WithTTL 3600000000000, WithTTL 0] "http://short.url/01234567".toList (by decide)
  exact ⟨shortID, ttl, hsaved, hlast [WithTTL 3600000000000] 0 rfl⟩

end Service

/-! ## Theorems: HTTP handlers -/

namespace Handler

open Errors Ratelimiter Service

/-- C19: in the shorten handler a service error that is an `APIError` is
written through with its own code, message and detail, and every other service
error produces the response of `ErrInternal`: status 500 and the JSON document
with code 500, message "Server error" and no detail, the same response
whatever the underlying error is, so that none of its text is in it. -/
theorem ShortenURL_error_responses {σ : Type} (std : StdLib) (svc : URLShorteningService σ)
    (w : ResponseWriter) (req : urlRequest) (st : σ) :
    (∀ apiErr, (shortenCall svc req st).1.2 = some (.api apiErr) →
        ShortenURL std svc w (.ok req) st =
          (w ++ [.SetHeader "Content-Type".toList "application/json".toList,
                 .WriteHeader apiErr.Code,
                 .Write (std.jsonEncode apiErr.json)],
            (shortenCall svc req st).2)) ∧
      (∀ err, (shortenCall svc req st).1.2 = some err → (∀ apiErr, err ≠ .api apiErr) →
        ShortenURL std svc w (.ok req) st =
          (w ++ [.SetHeader "Content-Type".toList "application/json".toList,
                 .WriteHeader 500,
                 .Write (std.jsonEncode
                   [("code".toList, .num 500), ("message".toList, .str "Server error".toList)])],
            (shortenCall svc req st).2)) ∧
      (∀ apiErr : APIError, apiErr.Detail ≠ [] →
        apiErr.json = [("code".toList, .num apiErr.Code), ("message".toList, .str apiErr.Message),
          ("detail".toList, .str apiErr.Detail)]) ∧
      (∀ apiErr : APIError, apiErr.Detail = [] →
        apiErr.json =
          [("code".toList, .num apiErr.Code), ("message".toList, .str apiErr.Message)]) := by
  refine ⟨?_, ?_, ?_, ?_⟩
  · intro apiErr h
    simp only [ShortenURL, h, APIError.WriteResponse]
  · intro err h hne
    cases err with
    | api apiErr => exact absurd rfl (hne apiErr)
    | generator e => simp only [ShortenURL, h]; rfl
    | text msg => simp only [ShortenURL, h]; rfl
  · intro apiErr h
    simp [APIError.json, h]
  · intro apiErr h
    simp [APIError.json, h]

/-- C19 at a concrete input: a service that answers with the 400 `APIError`
"Invalid URL" makes the handler write status 400 with that error, and a
service that answers with a plain store error makes it write status 500 with
the generic document. -/
theorem ShortenURL_error_responses_witness :
    ShortenURL
        { jsonEncode := fun _ => [], redirectLocation := fun u => u, redirectBody := fun _ => [] }
        { ShortenURL := fun (st : Unit) _ _ =>
            (([], some (.api (New 400 "Invalid URL".toList ["URL format is incorrect".toList]))),
              st),
          GetOriginalURL := fun st _ => (([], none), st) }
        [] (.ok { Original := "invalid-url".toList, TTL := 0 }) () =
      ([.SetHeader "Content-Type".toList "application/json".toList,
        .WriteHeader 400,
        .Write []], ()) :=
  (ShortenURL_error_responses
      { jsonEncode := fun _ => [], redirectLocation := fun u => u, redirectBody := fun _ => [] }
      { ShortenURL := fun (st : Unit) _ _ =>
          (([], some (.api (New 400 "Invalid URL".toList ["URL format is incorrect".toList]))),
            st),
        GetOriginalURL := fun st _ => (([], none), st) }
      [] { Original := "invalid-url".toList, TTL := 0 } ()).1
    (New 400 "Invalid URL".toList ["URL format is incorrect".toList]) rfl

/-- On the redirect path every error of `GetOriginalURL`, whatever it is,
produces the 404 response "Short URL not found", and no access is recorded. -/
theorem Redirect_error_is_not_found {σ : Type} (std : StdLib) (svc : URLShorteningService σ)
    (w : ResponseWriter) (r : Request) (shortID : GoString) (st : σ) (err : GoError)
    (herr : (svc.GetOriginalURL st shortID).1.2 = some err) :
    (Redirect std svc w r shortID st).response =
        w ++ [.SetHeader "Content-Type".toList "application/json".toList,
              .WriteHeader 404,
              .Write (std.jsonEncode
                [("code".toList, .num 404), ("message".toList, .str "Short URL not found".toList),
                  ("detail".toList, .str "The requested short URL does not exist".toList)])] ∧
      (Redirect std svc w r shortID st).recorded = none := by
  have hout : Redirect std svc w r shortID st =
      { response :=
          (New StatusNotFound "Short URL not found".toList
            ["The requested short URL does not exist".toList]).WriteResponse std w,
        world := (svc.GetOriginalURL st shortID).2, recorded := none } := by
    simp only [Redirect, herr]
  rw [hout]
  exact ⟨rfl, rfl⟩

/-- C20 at the failing input: the identifier `abc123` has a live mapping in
Redis, but the connection fails (`connection refused`). `GetOriginalURL` of the
Redis store returns the wrapped transport error, and the redirect handler
answers with status 404 "Short URL not found"; no status 500 is written. -/
theorem Redirect_transport_failure_answers_not_found (std : StdLib)
    (shorten : RedisConn → GoString → List URLShortenOption → ServiceCall RedisConn)
    (r : Request) :
    RedisStore.GetOriginalURL
        { entries := fun k =>
            if k = "abc123".toList then some ("https://example.com".toList, 0) else none,
          fault := some "dial tcp: connection refused".toList }
        "abc123".toList =
      ([], some (.text
        "could not get original URL: dial tcp: connection refused".toList)) ∧
    (Redirect std (serviceOver (NewURLShorteningService testConfig RedisStore) shorten) [] r
        "abc123".toList
        { entries := fun k =>
            if k = "abc123".toList then some ("https://example.com".toList, 0) else none,
          fault := some "dial tcp: connection refused".toList }).response =
      [.SetHeader "Content-Type".toList "application/json".toList,
        .WriteHeader 404,
        .Write (std.jsonEncode
          [("code".toList, .num 404), ("message".toList, .str "Short URL not found".toList),
            ("detail".toList, .str "The requested short URL does not exist".toList)])] ∧
    WriterCall.WriteHeader 500 ∉
      (Redirect std (serviceOver (NewURLShorteningService testConfig RedisStore) shorten) [] r
        "abc123".toList
        { entries := fun k =>
            if k = "abc123".toList then some ("https://example.com".toList, 0) else none,
          fault := some "dial tcp: connection refused".toList }).response := by
  have hget : RedisStore.GetOriginalURL
      { entries := fun k =>
          if k = "abc123".toList then some ("https://example.com".toList, 0) else none,
        fault := some "dial tcp: connection refused".toList }
      "abc123".toList =
      ([], some (.text
        "could not get original URL: dial tcp: connection refused".toList)) := by
    decide
  have hresp := (Redirect_error_is_not_found std
    (serviceOver (NewURLShorteningService testConfig RedisStore) shorten) [] r "abc123".toList
    { entries := fun k =>
        if k = "abc123".toList then some ("https://example.com".toList, 0) else none,
      fault := some "dial tcp: connection refused".toList }
    (.text "could not get original URL: dial tcp: connection refused".toList)
    (by
      simp only [serviceOver, URLShorteningServiceImpl.GetOriginalURL,
        NewURLShorteningService]
      rw [hget])).1
  refine ⟨hget, by simpa using hresp, ?_⟩
  rw [hresp]
  simp

end Handler

/-! ## Theorems: generator configuration and index safety -/

namespace Shortener

/-- With a non-empty alphabet and a source that keeps the contract of
`rand.Int` for the bound `len(alphabet)`, the `Generate` loop never panics: it
returns an identifier, or the empty string with the error that a call made
with that bound returned. -/
theorem generateLoop_safe (g : IDGenerator) (rd : RandReader) (hne : g.alphabet ≠ [])
    (hr : rd.InRange g.alphabet.length) :
    ∀ (n pos : Nat) (acc : GoString),
      (∃ s pos1, g.generateLoop rd n pos acc = (.ret s none, pos1)) ∨
        (∃ e i pos1, rd i g.alphabet.length = .error e ∧
          g.generateLoop rd n pos acc = (.ret [] (some (.readerError e)), pos1)) := by
  have hmax : ¬ g.alphabet.length = 0 := by
    intro h
    exact hne (List.length_eq_zero.mp h)
  intro n
  induction n with
  | zero => intro pos acc; exact Or.inl ⟨acc, pos, rfl⟩
  | succ n ih =>
    intro pos acc
    unfold IDGenerator.generateLoop
    unfold randInt
    simp only [hmax, if_false]
    cases hrd : rd pos g.alphabet.length with
    | error e => exact Or.inr ⟨e, pos, pos + 1, hrd, rfl⟩
    | ok v =>
      have hlt : v < g.alphabet.length := hr pos v hrd
      simp only [List.getElem?_eq_getElem hlt]
      exact ih (pos + 1) (acc ++ [g.alphabet[v]])

/-- The `Generate` loop consults the source only through calls made with the
bound `len(alphabet)`. -/
theorem generateLoop_bound (g : IDGenerator) (rd1 rd2 : RandReader)
    (h : ∀ i, rd1 i g.alphabet.length = rd2 i g.alphabet.length) :
    ∀ (n pos : Nat) (acc : GoString),
      g.generateLoop rd1 n pos acc = g.generateLoop rd2 n pos acc := by
  intro n
  induction n with
  | zero => intro pos acc; rfl
  | succ n ih =>
    intro pos acc
    unfold IDGenerator.generateLoop
    unfold randInt
    rw [h pos]
    by_cases hmax : g.alphabet.length = 0
    · simp only [hmax, if_true]
    · simp only [hmax, if_false]
      cases hrd : rd2 pos g.alphabet.length with
      | error e => rfl
      | ok v =>
        dsimp only
        cases hget : g.alphabet[v]? with
        | none => rfl
        | some b => exact ih (pos + 1) (acc ++ [b])

/-- C30: `Generate` is index-safe. Every draw is the call
`rand.Int(rand.Reader, len(alphabet))`: the outcome depends on the source only
through calls made with that bound. So over a source that keeps the contract of
`rand.Int` for that bound (a returned value is below the bound), the alphabet
lookup is never out of range: `Generate` panics exactly when the length is
negative or the alphabet is empty with a positive length, the empty alphabet
(as `CustomAlphabet("")` installs) being the only one without a valid index.
With a non-empty alphabet and a length `L >= 0` it returns an identifier or,
only when a draw itself returned an error, the empty string with that error. -/
theorem Generate_index_safe (g : IDGenerator) (rd : RandReader) (pos : Nat)
    (hr : rd.InRange g.alphabet.length) :
    ((g.Generate rd pos).1 = .panic ↔ g.length < 0 ∨ (g.alphabet = [] ∧ 0 < g.length)) ∧
      (g.alphabet ≠ [] → 0 ≤ g.length →
        (∃ s pos1, g.Generate rd pos = (.ret s none, pos1)) ∨
          (∃ e i pos1, rd i g.alphabet.length = .error e ∧
            g.Generate rd pos = (.ret [] (some (.readerError e)), pos1))) ∧
      (∀ rd1 : RandReader, (∀ i, rd1 i g.alphabet.length = rd i g.alphabet.length) →
        g.Generate rd1 pos = g.Generate rd pos) ∧
      (∀ (g1 : IDGenerator) (rd1 : RandReader) (p : Nat), 0 < g1.length →
        (g1.CustomAlphabet []).Generate rd1 p = (.panic, p)) := by
  have hsafe : g.alphabet ≠ [] → 0 ≤ g.length →
      (∃ s pos1, g.Generate rd pos = (.ret s none, pos1)) ∨
        (∃ e i pos1, rd i g.alphabet.length = .error e ∧
          g.Generate rd pos = (.ret [] (some (.readerError e)), pos1)) := by
    intro hne h0
    unfold IDGenerator.Generate
    have hneg : ¬ g.length < 0 := by omega
    simp only [hneg, if_false]
    exact generateLoop_safe g rd hne hr _ _ _
  have hempty : ∀ (g1 : IDGenerator) (rd1 : RandReader) (p : Nat), 0 < g1.length →
      (g1.CustomAlphabet []).Generate rd1 p = (.panic, p) := by
    intro g1 rd1 p hpos
    have hneg : ¬ g1.length < 0 := by omega
    obtain ⟨n, hn⟩ : ∃ n, g1.length.toNat = n + 1 := ⟨g1.length.toNat - 1, by omega⟩
    simp only [IDGenerator.Generate, IDGenerator.CustomAlphabet, hneg, if_false, hn,
      IDGenerator.generateLoop, randInt, List.length_nil, if_true]
  refine ⟨⟨?_, ?_⟩, hsafe, ?_, hempty⟩
  · intro hpanic
    by_contra hcon
    push_neg at hcon
    obtain ⟨h0, hcfg⟩ := hcon
    by_cases hne : g.alphabet = []
    · have hL : g.length.toNat = 0 := by
        have := hcfg hne
        omega
      have hneg : ¬ g.length < 0 := by omega
      simp only [IDGenerator.Generate, hneg, if_false, hL, IDGenerator.generateLoop] at hpanic
      exact GoResult.noConfusion hpanic
    · rcases hsafe hne h0 with ⟨s, pos1, hs⟩ | ⟨e, i, pos1, _, hs⟩
      · rw [hs] at hpanic; exact GoResult.noConfusion hpanic
      · rw [hs] at hpanic; exact GoResult.noConfusion hpanic
  · rintro (hneg | ⟨hA, hpos⟩)
    · simp [IDGenerator.Generate, hneg]
    · have h := hempty g rd pos hpos
      have hg : g.CustomAlphabet [] = g := by
        cases g with
        | mk alphabet length =>
          have hA1 : alphabet = [] := hA
          rw [hA1]
          rfl
      rw [hg] at h
      rw [h]
  · intro rd1 h
    unfold IDGenerator.Generate
    by_cases hneg : g.length < 0
    · simp only [hneg, if_true]
    · simp only [hneg, if_false]
      exact generateLoop_bound g rd1 rd h _ _ _

/-- C30 at a concrete input: the default generator over a source that draws 5
and then fails with error 7 does not panic and returns the empty string with
that error. -/
theorem Generate_index_safe_witness :
    (DefaultGenerator.Generate (fun i _ => if i = 0 then .ok 5 else .error 7) 0).1 ≠ .panic ∧
      ((∃ s pos1, DefaultGenerator.Generate (fun i _ => if i = 0 then .ok 5 else .error 7) 0 =
          (.ret s none, pos1)) ∨
        (∃ e i pos1,
          (fun i (_ : Nat) => if i = 0 then Except.ok 5 else Except.error 7) i
              DefaultGenerator.alphabet.length = .error e ∧
            DefaultGenerator.Generate (fun i _ => if i = 0 then .ok 5 else .error 7) 0 =
              (.ret [] (some (.readerError e)), pos1))) :=
  ⟨fun h => absurd ((Generate_index_safe DefaultGenerator
      (fun i _ => if i = 0 then .ok 5 else .error 7) 0
      (by
        intro i v h
        by_cases hi : i = 0
        · simp only [hi, if_true, Except.ok.injEq] at h
          rw [← h]; decide
        · simp [hi] at h)).1.mp h) (by decide),
    (Generate_index_safe DefaultGenerator (fun i _ => if i = 0 then .ok 5 else .error 7) 0
      (by
        intro i v h
        by_cases hi : i = 0
        · simp only [hi, if_true, Except.ok.injEq] at h
          rw [← h]; decide
        · simp [hi] at h)).2.1 (by decide) (by decide)⟩

/-- C23, the claim as stated, at a concrete input: the mutator `CustomAlphabet`
takes an alphabet only. Applied with the alphabet `ab` to the default
generator, by a caller who wants the custom length 4, it leaves the length at
8: `Generate` returns 8 bytes, not 4. -/
theorem CustomAlphabet_does_not_install_length :
    (DefaultGenerator.CustomAlphabet "ab".toList).Generate (fun _ _ => .ok 0) 0 =
        (.ret "aaaaaaaa".toList none, 8) ∧
      (("aaaaaaaa".toList.length : Nat) : Int) ≠ 4 ∧
      (DefaultGenerator.CustomAlphabet "ab".toList).length = 8 := by
  refine ⟨by decide, by decide, rfl⟩

/-- C23 as amended: `CustomAlphabet(a)` installs the alphabet `a` and keeps the
length, which is the one given to `NewIDGenerator`; after
`NewIDGenerator(n).CustomAlphabet(a)` every successful `Generate` returns a
string of length `n` whose bytes all belong to `a`. -/
theorem CustomAlphabet_installs_alphabet (g : IDGenerator) (n : Int) (a : GoString)
    (rd : RandReader) (pos : Nat) (s : GoString) (pos1 : Nat)
    (h : ((NewIDGenerator n).CustomAlphabet a).Generate rd pos = (.ret s none, pos1)) :
    ((s.length : Int) = n ∧ ∀ b ∈ s, b ∈ a) ∧
      (g.CustomAlphabet a).alphabet = a ∧ (g.CustomAlphabet a).length = g.length := by
  obtain ⟨h0, hlen, hmem, _⟩ := Generate_ret _ rd pos s pos1 h
  refine ⟨⟨?_, hmem⟩, rfl, rfl⟩
  rw [hlen]
  exact Int.toNat_of_nonneg h0

/-- C23 as amended, at a concrete input: a generator of length 4 with the
alphabet `ab`, over the source that alternates 0 and 1, returns `abab`. -/
theorem CustomAlphabet_installs_alphabet_witness :
    ((NewIDGenerator 4).CustomAlphabet "ab".toList).Generate (fun i _ => .ok (i % 2)) 0 =
        (.ret "abab".toList none, 4) ∧
      ((("abab".toList.length : Nat) : Int) = 4 ∧ ∀ b ∈ "abab".toList, b ∈ "ab".toList) :=
  ⟨by decide,
    (CustomAlphabet_installs_alphabet DefaultGenerator 4 "ab".toList (fun i _ => .ok (i % 2)) 0
      "abab".toList 4 (by decide)).1⟩

end Shortener

/-! ## Theorems: rate limiter, activity stamp and eviction -/

namespace Ratelimiter

/-- C26: after `Allow(k)` at instant `t` the key `k` is bound in the table and
its `lastActive` is `t`, whatever the verdict and whether the bucket was there
before or is created by the call; the bucket then is what the admission check
left of the bucket found, or of a new one. -/
theorem Allow_stamps_lastActive (r : RateLimiter) (ip : GoString) (now : Int) :
    ∃ v, (r.Allow ip now).2.visitors ip = some v ∧ v.lastActive = now ∧
      (∀ w, r.visitors ip = some w → v.limiter = (w.limiter.Allow now).2) ∧
      (r.visitors ip = none →
        v.limiter = ((NewLimiter r.limit r.burst now).Allow now).2) := by
  refine ⟨{ limiter := ((r.visitor ip now).limiter.Allow now).2, lastActive := now },
    by rw [RateLimiter.Allow_visitors]; simp, rfl, ?_, ?_⟩
  · intro w hw
    rw [RateLimiter.visitor_of_some r ip now w hw]
  · intro hnone
    simp [RateLimiter.visitor, hnone]

end Ratelimiter

/-! ## Theorems: URL validator -/

namespace Validator

open Errors

/-- A hostname is blocked iff it equals a listed domain ignoring case. -/
theorem isDomainBlocked_iff (lib : URLLib) (v : URLValidator) (domain : GoString) :
    v.isDomainBlocked lib domain = true ↔
      ∃ b ∈ v.blockedDomains, lib.ToLower domain = lib.ToLower b := by
  simp [URLValidator.isDomainBlocked, List.any_eq_true]

/-- After `AddBlockedDomain(d)` a hostname is blocked iff it was blocked before
or equals `d` ignoring case. -/
theorem isDomainBlocked_AddBlockedDomain (lib : URLLib) (v : URLValidator)
    (d domain : GoString) :
    (v.AddBlockedDomain d).isDomainBlocked lib domain =
      (v.isDomainBlocked lib domain || decide (lib.ToLower domain = lib.ToLower d)) := by
  simp [URLValidator.isDomainBlocked, URLValidator.AddBlockedDomain, List.any_append]

/-- C21: `Validate` returns nil iff the raw URL is non-empty, has at most
`maxURLLength` bytes (2048 for a validator made by `NewURLValidator`, also after
`AddBlockedDomain`), parses as a URL, has the scheme `http` or `https`, passes
`IsURL`, and its hostname equals no blocked domain ignoring case; every other
input yields an `APIError`. -/
theorem Validate_nil_iff (lib : URLLib) (v : URLValidator) (rawURL : GoString) :
    (v.Validate lib rawURL = none ↔
        rawURL ≠ [] ∧ (rawURL.length : Int) ≤ v.maxURLLength ∧
          ∃ p, lib.Parse rawURL = some p ∧
            (p.Scheme = "http".toList ∨ p.Scheme = "https".toList) ∧
            lib.IsURL rawURL = true ∧
            ∀ b ∈ v.blockedDomains, lib.ToLower p.Hostname ≠ lib.ToLower b) ∧
      (v.Validate lib rawURL ≠ none → ∃ apiErr, v.Validate lib rawURL = some apiErr) ∧
      NewURLValidator.maxURLLength = 2048 ∧
      (∀ d, (v.AddBlockedDomain d).maxURLLength = v.maxURLLength) := by
  refine ⟨?_, ?_, rfl, fun _ => rfl⟩
  · unfold URLValidator.Validate
    by_cases hempty : rawURL = []
    · simp [hempty]
    · by_cases hlen : (rawURL.length : Int) > v.maxURLLength
      · simp only [hempty, if_false, hlen, if_true]
        constructor
        · intro h; exact absurd h (by simp)
        · rintro ⟨_, h, _⟩; omega
      · simp only [hempty, if_false, hlen]
        cases hparse : lib.Parse rawURL with
        | none => simp
        | some p =>
          dsimp only
          by_cases hscheme : p.Scheme ≠ "http".toList ∧ p.Scheme ≠ "https".toList
          · rw [if_pos hscheme]
            constructor
            · intro h; exact absurd h (by simp)
            · rintro ⟨_, _, q, hq, hs, _⟩
              simp only [Option.some.injEq] at hq
              subst hq
              rcases hs with hs | hs
              · exact absurd hs hscheme.1
              · exact absurd hs hscheme.2
          · have hs : p.Scheme = "http".toList ∨ p.Scheme = "https".toList := by
              by_contra hcon
              push_neg at hcon
              exact hscheme hcon
            rw [if_neg hscheme]
            cases hurl : lib.IsURL rawURL with
            | false =>
              simp only [Bool.not_false, if_true]
              constructor
              · intro h; exact absurd h (by simp)
              · rintro ⟨_, _, q, _, _, hq, _⟩
                exact absurd hq (by simp)
            | true =>
              simp only [Bool.not_true, Bool.false_eq_true, if_false]
              by_cases hblocked : v.isDomainBlocked lib p.Hostname = true
              · simp only [hblocked, if_true]
                constructor
                · intro h; exact absurd h (by simp)
                · rintro ⟨_, _, q, hq, _, _, hb⟩
                  simp only [Option.some.injEq] at hq
                  subst hq
                  obtain ⟨b, hbmem, hbeq⟩ := (isDomainBlocked_iff lib v _).mp hblocked
                  exact absurd hbeq (hb b hbmem)
              · rw [if_neg hblocked]
                refine ⟨fun _ => ⟨hempty, by omega, p, rfl, hs, by trivial, ?_⟩, fun _ => rfl⟩
                intro b hbmem hbeq
                exact hblocked ((isDomainBlocked_iff lib v _).mpr ⟨b, hbmem, hbeq⟩)
  · intro h
    cases hv : v.Validate lib rawURL with
    | none => exact absurd hv h
    | some e => exact ⟨e, rfl⟩

/-- C21 on the URLs of the tests: `http://google.com` is accepted, and the empty
string, `not-a-url`, `example.com` and the 2507-byte URL are rejected. -/
theorem Validate_nil_iff_witness :
    NewURLValidator.Validate testLib "http://google.com".toList = none ∧
      NewURLValidator.Validate testLib [] ≠ none ∧
      NewURLValidator.Validate testLib "not-a-url".toList ≠ none ∧
      NewURLValidator.Validate testLib "example.com".toList ≠ none ∧
      veryLongURL.length = 2507 ∧
      NewURLValidator.Validate testLib veryLongURL ≠ none := by
  refine ⟨?_, ?_, ?_, ?_, ?_, ?_⟩
  · exact (Validate_nil_iff testLib NewURLValidator "http://google.com".toList).1.mpr
      ⟨by decide, by decide, { Scheme := "http".toList, Hostname := "google.com".toList },
        by decide, by decide, by decide, by decide⟩
  · decide
  · decide
  · decide
  · rw [veryLongURL, List.length_append, List.length_replicate]
    rfl
  · intro h
    have hlen := ((Validate_nil_iff testLib NewURLValidator veryLongURL).1.mp h).2.1
    have hl : veryLongURL.length = 2507 := by
      rw [veryLongURL, List.length_append, List.length_replicate]
      rfl
    rw [hl] at hlen
    exact absurd hlen (by decide)

/-- C22: after `AddBlockedDomain(d)`, `Validate` rejects with code 403 every URL
that passes the other checks and whose hostname equals `d` ignoring case, and
for a URL whose hostname differs from `d` ignoring case the verdict is the one
before the call. -/
theorem AddBlockedDomain_blocks_only_that_domain (lib : URLLib) (v : URLValidator)
    (d rawURL : GoString) :
    (∀ p, rawURL ≠ [] → (rawURL.length : Int) ≤ v.maxURLLength → lib.Parse rawURL = some p →
        (p.Scheme = "http".toList ∨ p.Scheme = "https".toList) → lib.IsURL rawURL = true →
        lib.ToLower p.Hostname = lib.ToLower d →
        (v.AddBlockedDomain d).Validate lib rawURL =
          some (New 403 "This domain is blocked".toList
            ["The specified domain is not allowed".toList])) ∧
      ((∀ p, lib.Parse rawURL = some p → lib.ToLower p.Hostname ≠ lib.ToLower d) →
        (v.AddBlockedDomain d).Validate lib rawURL = v.Validate lib rawURL) := by
  constructor
  · intro p hempty hlen hparse hs hurl hhost
    have hlen1 : ¬ (rawURL.length : Int) > (v.AddBlockedDomain d).maxURLLength := by
      show ¬ (rawURL.length : Int) > v.maxURLLength
      omega
    have hscheme : ¬ (p.Scheme ≠ "http".toList ∧ p.Scheme ≠ "https".toList) := by
      rintro ⟨h1, h2⟩
      rcases hs with hs | hs
      · exact h1 hs
      · exact h2 hs
    unfold URLValidator.Validate
    simp only [hempty, if_false, hlen1, hparse, hscheme, hurl, Bool.not_true,
      Bool.false_eq_true, isDomainBlocked_AddBlockedDomain, hhost, decide_True, Bool.or_true,
      if_true]
  · intro hdiff
    unfold URLValidator.Validate
    have hmax : (v.AddBlockedDomain d).maxURLLength = v.maxURLLength := rfl
    rw [hmax]
    cases hparse : lib.Parse rawURL with
    | none => rfl
    | some p =>
      have hne : lib.ToLower p.Hostname ≠ lib.ToLower d := hdiff p hparse
      simp only [isDomainBlocked_AddBlockedDomain, hne, decide_False, Bool.or_false]

/-- C22 on the URLs of the tests: after `AddBlockedDomain("blocked-example.com")`
on a new validator, `http://blocked-example.com/test` is rejected with code 403,
also with its hostname in capitals, and `http://example.org` keeps its verdict
and is accepted. -/
theorem AddBlockedDomain_blocks_only_that_domain_witness :
    (NewURLValidator.AddBlockedDomain "blocked-example.com".toList).Validate testLib
        "http://blocked-example.com/test".toList =
      some (New 403 "This domain is blocked".toList
        ["The specified domain is not allowed".toList]) ∧
    (NewURLValidator.AddBlockedDomain "blocked-example.com".toList).Validate testLib
        "http://Blocked-Example.COM/test".toList =
      some (New 403 "This domain is blocked".toList
        ["The specified domain is not allowed".toList]) ∧
    (NewURLValidator.AddBlockedDomain "blocked-example.com".toList).Validate testLib
        "http://example.org".toList = none := by
  refine ⟨?_, ?_, ?_⟩
  · exact (AddBlockedDomain_blocks_only_that_domain testLib NewURLValidator
      "blocked-example.com".toList "http://blocked-example.com/test".toList).1
      { Scheme := "http".toList, Hostname := "blocked-example.com".toList }
      (by decide) (by decide) (by decide) (by decide) (by decide) (by decide)
  · exact (AddBlockedDomain_blocks_only_that_domain testLib NewURLValidator
      "blocked-example.com".toList "http://Blocked-Example.COM/test".toList).1
      { Scheme := "http".toList, Hostname := "Blocked-Example.COM".toList }
      (by decide) (by decide) (by decide) (by decide) (by decide) (by decide)
  · rw [(AddBlockedDomain_blocks_only_that_domain testLib NewURLValidator
      "blocked-example.com".toList "http://example.org".toList).2
      (by
        intro p hp
        have hp1 : p = { Scheme := "http".toList, Hostname := "example.org".toList } := by
          have h0 : testLib.Parse "http://example.org".toList =
              some { Scheme := "http".toList, Hostname := "example.org".toList } := by decide
          rw [h0] at hp
          exact (Option.some.inj hp).symm
        rw [hp1]
        decide)]
    decide

end Validator

/-! ## Theorems: existence check of the service -/

namespace Service

open Errors Validator Shortener

/-- C27: the existence checker that `ShortenURL` hands to `GenerateUnique`
reports true exactly when the store lookup returns a nil error. So when the
lookup of the first candidate returns any error, a transport failure as much as
an absence, the candidate counts as available: `GenerateUnique` returns it
after one attempt and `ShortenURL` makes its save under that identifier. -/
theorem ShortenURL_lookup_error_counts_as_available {σ : Type} (lib : URLLib)
    (s : URLShorteningServiceImpl σ) (st : σ) (rd : RandReader) (pos : Nat)
    (originalURL : GoString) (options : List URLShortenOption) (shortID : GoString)
    (pos1 : Nat) (e : GoError)
    (hval : s.validator.Validate lib originalURL = none)
    (hgen : DefaultGenerator.Generate rd pos = (.ret shortID none, pos1))
    (herr : (s.Store.GetOriginalURL st shortID).2 = some e) :
    (∀ id, s.idExists st id = true ↔ (s.Store.GetOriginalURL st id).2 = none) ∧
      s.idExists st shortID = false ∧
      DefaultGenerator.GenerateUnique rd (s.idExists st)
          { pos := pos, generateCalls := 0, checked := [] } =
        (.ret shortID none, { pos := pos1, generateCalls := 1, checked := [shortID] }) ∧
      (s.ShortenURL lib st rd pos originalURL options).trace =
        { pos := pos1, generateCalls := 1, checked := [shortID] } ∧
      (s.ShortenURL lib st rd pos originalURL options).saved =
        some (shortID, originalURL, (resolveOptions s.cfg options).ttl) ∧
      (s.ShortenURL lib st rd pos originalURL options).store =
        (s.Store.SaveShortenedURLWithTTL st shortID originalURL
          (resolveOptions s.cfg options).ttl).2 := by
  have hfalse : s.idExists st shortID = false := by
    simp [URLShorteningServiceImpl.idExists, herr]
  have hunique : DefaultGenerator.GenerateUnique rd (s.idExists st)
      { pos := pos, generateCalls := 0, checked := [] } =
      (.ret shortID none, { pos := pos1, generateCalls := 1, checked := [shortID] }) := by
    unfold IDGenerator.GenerateUnique maxAttempts
    rw [generateUniqueLoop_free DefaultGenerator rd (s.idExists st) 9
      { pos := pos, generateCalls := 0, checked := [] } shortID pos1 hgen hfalse]
    rfl
  have hunique1 : DefaultGenerator.GenerateUnique rd
      (fun id => (s.Store.GetOriginalURL st id).2.isNone)
      { pos := pos, generateCalls := 0, checked := [] } =
      (.ret shortID none, { pos := pos1, generateCalls := 1, checked := [shortID] }) :=
    hunique
  refine ⟨?_, hfalse, hunique, ?_, ?_, ?_⟩
  · intro id
    simp [URLShorteningServiceImpl.idExists, Option.isNone_iff_eq_none]
  all_goals
    simp only [URLShorteningServiceImpl.ShortenURL, hval, hunique1]
    cases (s.Store.SaveShortenedURLWithTTL st shortID originalURL
      (resolveOptions s.cfg options).ttl).1 <;> rfl

/-- C27 at a concrete input: Redis holds `01234567` and the connection fails.
The lookup of the first candidate `01234567` returns the transport error, the
candidate counts as available and the save is made under it. -/
theorem ShortenURL_lookup_error_counts_as_available_witness :
    ((NewURLShorteningService testConfig RedisStore).ShortenURL exampleLib
        { entries := fun k =>
            if k = "01234567".toList then some ("https://old.example".toList, 0) else none,
          fault := some "connection refused".toList }
        (fun i _ => .ok (i % 62)) 0 "https://example.com".toList []).saved =
      some ("01234567".toList, "https://example.com".toList, 86400000000000) :=
  (ShortenURL_lookup_error_counts_as_available exampleLib
    (NewURLShorteningService testConfig RedisStore)
    { entries := fun k =>
        if k = "01234567".toList then some ("https://old.example".toList, 0) else none,
      fault := some "connection refused".toList }
    (fun i _ => .ok (i % 62)) 0 "https://example.com".toList [] "01234567".toList 8
    (.text "could not get original URL: connection refused".toList)
    (by decide) (by decide) (by decide)).2.2.2.2.1

end Service

/-! ## Theorems: analytics keys -/

namespace Analytics

/-- Two strings cut at a colon after which no colon follows are equal only
when both parts are. -/
theorem split_at_last_colon :
    ∀ (x1 x2 f1 f2 : GoString), ':' ∉ f1 → ':' ∉ f2 →
      x1 ++ ':' :: f1 = x2 ++ ':' :: f2 → x1 = x2 ∧ f1 = f2 := by
  intro x1
  induction x1 with
  | nil =>
    intro x2 f1 f2 h1 h2 h
    cases x2 with
    | nil =>
      simp only [List.nil_append, List.cons.injEq, true_and] at h
      exact ⟨rfl, h⟩
    | cons c x2 =>
      simp only [List.nil_append, List.cons_append, List.cons.injEq] at h
      exact absurd (by rw [h.2]; simp) h1
  | cons c x1 ih =>
    intro x2 f1 f2 h1 h2 h
    cases x2 with
    | nil =>
      simp only [List.nil_append, List.cons_append, List.cons.injEq] at h
      exact absurd (by rw [← h.2]; simp) h2
    | cons c2 x2 =>
      simp only [List.cons_append, List.cons.injEq] at h
      obtain ⟨hx, hf⟩ := ih x2 f1 f2 h1 h2 h.2
      exact ⟨by rw [h.1, hx], hf⟩

/-- The shape of an analytics key: the fixed start, then the identifier, a
colon and the field. -/
theorem analyticsKey_eq (shortID field : GoString) :
    analyticsKey shortID field = "analytics:".toList ++ (shortID ++ ':' :: field) := by
  simp [analyticsKey, List.append_assoc]

/-- None of the five field names contains a colon. -/
theorem analyticsFields_no_colon (f : GoString) (hf : f ∈ analyticsFields) : ':' ∉ f := by
  simp only [analyticsFields, List.mem_cons, List.mem_singleton, List.not_mem_nil,
    or_false] at hf
  rcases hf with rfl | rfl | rfl | rfl | rfl <;> decide

/-- The key function is injective on identifiers and fields. -/
theorem analyticsKey_inj (id1 id2 f1 f2 : GoString) (hf1 : f1 ∈ analyticsFields)
    (hf2 : f2 ∈ analyticsFields) (h : analyticsKey id1 f1 = analyticsKey id2 f2) :
    id1 = id2 ∧ f1 = f2 := by
  rw [analyticsKey_eq, analyticsKey_eq] at h
  exact split_at_last_colon id1 id2 f1 f2 (analyticsFields_no_colon f1 hf1)
    (analyticsFields_no_colon f2 hf2) (List.append_cancel_left h)

/-- The reply of a command and the value it leaves under its key depend only
on the value under its key. -/
theorem Cmd.run_congr (db1 db2 : Redis) (c : Cmd) (h : db1 c.key = db2 c.key) :
    (c.run db1).1 = (c.run db2).1 ∧ (c.run db1).2 c.key = (c.run db2).2 c.key := by
  cases c with
  | Incr key =>
    simp only [Cmd.key] at h
    simp only [Cmd.run, Cmd.key, ← h]
    cases db1 key with
    | none => simp [Redis.put]
    | some v =>
      cases v with
      | set S => exact ⟨rfl, h⟩
      | str x =>
        cases x with
        | int n => by_cases hn : n + 1 > maxInt64 <;> simp [hn, Redis.put, h]
        | time t => exact ⟨rfl, h⟩
        | raw t => exact ⟨rfl, h⟩
  | SetNX key value =>
    simp only [Cmd.key] at h
    simp only [Cmd.run, Cmd.key, ← h]
    cases db1 key with
    | none => simp [Redis.put]
    | some v => exact ⟨rfl, h⟩
  | Set key value => simp [Cmd.run, Cmd.key, Redis.put]
  | SAdd key member =>
    simp only [Cmd.key] at h
    simp only [Cmd.run, Cmd.key, ← h]
    cases db1 key with
    | none => simp [Redis.put]
    | some v =>
      cases v with
      | set S => by_cases hm : member ∈ S <;> simp [hm, Redis.put, h]
      | str x => exact ⟨rfl, h⟩
  | Get key =>
    simp only [Cmd.key] at h
    simp only [Cmd.run, Cmd.key, ← h]
    cases db1 key with
    | none => exact ⟨rfl, h⟩
    | some v => cases v <;> exact ⟨rfl, h⟩
  | SCard key =>
    simp only [Cmd.key] at h
    simp only [Cmd.run, Cmd.key, ← h]
    cases db1 key with
    | none => exact ⟨rfl, h⟩
    | some v => cases v <;> exact ⟨rfl, h⟩

/-- The replies of a batch and the values it leaves under a set of keys that
holds the keys of all its commands depend only on the values under those
keys. -/
theorem runAll_congr (K : GoString → Prop) :
    ∀ (cmds : List Cmd) (db1 db2 : Redis), (∀ c ∈ cmds, K c.key) →
      (∀ k, K k → db1 k = db2 k) →
      (runAll db1 cmds).1 = (runAll db2 cmds).1 ∧
        ∀ k, K k → (runAll db1 cmds).2 k = (runAll db2 cmds).2 k := by
  intro cmds
  induction cmds with
  | nil => intro db1 db2 _ h; exact ⟨rfl, h⟩
  | cons c cs ih =>
    intro db1 db2 hK h
    have hc := Cmd.run_congr db1 db2 c (h _ (hK c (List.mem_cons_self _ _)))
    have hnext : ∀ k, K k → (c.run db1).2 k = (c.run db2).2 k := by
      intro k hk
      by_cases hkc : k = c.key
      · rw [hkc]; exact hc.2
      · rw [Cmd.run_other_key db1 c k hkc, Cmd.run_other_key db2 c k hkc]
        exact h k hk
    have hrest := ih (c.run db1).2 (c.run db2).2
      (fun c1 hc1 => hK c1 (List.mem_cons_of_mem _ hc1)) hnext
    simp only [runAll]
    exact ⟨by rw [hc.1, hrest.1], hrest.2⟩

/-- The commands that `RecordURLAccess` runs address fields of the identifier
it is called with. -/
theorem RecordURLAccess_cmd_keys (shortID ipAddress : GoString) (now1 now2 : Time) :
    ∀ c ∈ ([.Incr (totalClicksKey shortID), .SetNX (firstAccessedKey shortID) (.time now1),
        .Set (lastAccessedKey shortID) (.time now2),
        .SAdd (uniqueIPKey shortID) ipAddress] : List Cmd),
      ∃ f ∈ analyticsFields, c.key = analyticsKey shortID f := by
  intro c hc
  simp only [List.mem_cons, List.mem_singleton, List.not_mem_nil, or_false] at hc
  rcases hc with rfl | rfl | rfl | rfl
  · exact ⟨"total_clicks".toList, by decide, rfl⟩
  · exact ⟨"first_accessed".toList, by decide, rfl⟩
  · exact ⟨"last_accessed".toList, by decide, rfl⟩
  · exact ⟨"unique_ips".toList, by decide, rfl⟩

/-- C29: the key function `(identifier, field) ↦ analytics:<identifier>:<field>`
over the five fields is injective for all identifier strings, also those holding
a colon. So `RecordURLAccess` for one identifier writes no field of another
identifier, and reads none: changing a field of another identifier changes
neither the error it returns nor the fields of its own identifier afterwards. -/
theorem analyticsKey_injective_and_isolated (id1 id2 f1 f2 : GoString)
    (hf1 : f1 ∈ analyticsFields) (hf2 : f2 ∈ analyticsFields) :
    (analyticsKey id1 f1 = analyticsKey id2 f2 ↔ id1 = id2 ∧ f1 = f2) ∧
      (id1 ≠ id2 → ∀ (db : Redis) (link : Bool) (ipAddress : GoString) (now1 now2 : Time),
        (RecordURLAccess db link id1 ipAddress now1 now2).2 (analyticsKey id2 f2) =
          db (analyticsKey id2 f2)) ∧
      (id1 ≠ id2 → ∀ (db : Redis) (link : Bool) (ipAddress : GoString) (now1 now2 : Time)
          (v : RedisValue),
        (RecordURLAccess (db.put (analyticsKey id2 f2) v) link id1 ipAddress now1 now2).1 =
            (RecordURLAccess db link id1 ipAddress now1 now2).1 ∧
          (RecordURLAccess (db.put (analyticsKey id2 f2) v) link id1 ipAddress now1 now2).2
              (analyticsKey id1 f1) =
            (RecordURLAccess db link id1 ipAddress now1 now2).2 (analyticsKey id1 f1)) := by
  refine ⟨⟨analyticsKey_inj id1 id2 f1 f2 hf1 hf2, ?_⟩, ?_, ?_⟩
  · rintro ⟨rfl, rfl⟩; rfl
  · intro hne db link ipAddress now1 now2
    cases link with
    | false => rw [RecordURLAccess_link_down]
    | true =>
      rw [RecordURLAccess_link_up]
      dsimp only
      apply runAll_other_key
      intro c hc heq
      obtain ⟨f, hf, hkey⟩ := RecordURLAccess_cmd_keys id1 ipAddress now1 now2 c hc
      rw [hkey] at heq
      exact hne (analyticsKey_inj id2 id1 f2 f hf2 hf heq).1.symm
  · intro hne db link ipAddress now1 now2 v
    cases link with
    | false =>
      rw [RecordURLAccess_link_down, RecordURLAccess_link_down]
      refine ⟨rfl, ?_⟩
      dsimp only
      apply Redis.put_other
      intro heq
      exact hne (analyticsKey_inj id1 id2 f1 f2 hf1 hf2 heq).1
    | true =>
      rw [RecordURLAccess_link_up, RecordURLAccess_link_up]
      dsimp only
      have h := runAll_congr (fun k => ∃ f ∈ analyticsFields, k = analyticsKey id1 f)
        [.Incr (totalClicksKey id1), .SetNX (firstAccessedKey id1) (.time now1),
          .Set (lastAccessedKey id1) (.time now2), .SAdd (uniqueIPKey id1) ipAddress]
        (db.put (analyticsKey id2 f2) v) db
        (RecordURLAccess_cmd_keys id1 ipAddress now1 now2)
        (by
          rintro k ⟨f, hf, rfl⟩
          apply Redis.put_other
          intro heq
          exact hne (analyticsKey_inj id1 id2 f f2 hf hf2 heq).1)
      exact ⟨by rw [h.1], h.2 _ ⟨f1, hf1, rfl⟩⟩

/-- C29 at a concrete input: the identifiers `a` and `a:b` with the fields
`unique_ips` and `total_clicks` give different keys, and recording an access to
`a` on the empty keyspace leaves the click counter of `a:b` absent. -/
theorem analyticsKey_injective_and_isolated_witness :
    analyticsKey "a".toList "unique_ips".toList ≠
        analyticsKey "a:b".toList "total_clicks".toList ∧
      (RecordURLAccess emptyRedis true "a".toList "1.2.3.4".toList 5 5).2
          (analyticsKey "a:b".toList "total_clicks".toList) = none :=
  ⟨fun h => absurd ((analyticsKey_injective_and_isolated "a".toList "a:b".toList
      "unique_ips".toList "total_clicks".toList (by decide) (by decide)).1.mp h).1 (by decide),
    (analyticsKey_injective_and_isolated "a".toList "a:b".toList
      "unique_ips".toList "total_clicks".toList (by decide) (by decide)).2.1 (by decide)
      emptyRedis true "1.2.3.4".toList 5 5⟩

end Analytics


/-! ## Theorems: unbiased character draws -/

namespace Shortener

/-- When the draws from position `pos` on, made with the bound `len(alphabet)`,
return the values `vs`, all below that bound, the `Generate` loop of
`vs.length` iterations returns the bytes written so far followed by the
alphabet bytes at these values, in draw order. -/
theorem generateLoop_values (g : IDGenerator) (rd : RandReader) :
    ∀ (vs : List Nat) (pos : Nat) (acc : GoString),
      (∀ i v, vs[i]? = some v → rd (pos + i) g.alphabet.length = .ok v) →
      (∀ v ∈ vs, v < g.alphabet.length) →
      g.generateLoop rd vs.length pos acc =
        (.ret (acc ++ vs.map (fun v => g.alphabet.getD v default)) none, pos + vs.length) := by
  intro vs
  induction vs with
  | nil => intro pos acc _ _; simp [IDGenerator.generateLoop]
  | cons v vs ih =>
    intro pos acc hdraw hlt
    have hv : rd pos g.alphabet.length = .ok v := hdraw 0 v (List.getElem?_cons_zero)
    have hvlt : v < g.alphabet.length := hlt v (List.mem_cons_self _ _)
    have hne : g.alphabet.length ≠ 0 := by omega
    have hrand : randInt rd pos g.alphabet.length = (.value v, pos + 1) := by
      simp [randInt, hne, hv]
    have hget : g.alphabet[v]? = some (g.alphabet.getD v default) := by
      rw [List.getD_eq_getElem?_getD, List.getElem?_eq_getElem hvlt]; rfl
    rw [List.length_cons, IDGenerator.generateLoop, hrand]
    dsimp only
    rw [hget]
    dsimp only
    rw [ih (pos + 1) _
      (fun i w hw => by
        have h := hdraw (i + 1) w (by rw [List.getElem?_cons_succ]; exact hw)
        rw [← h]; congr 1; omega)
      (fun w hw => hlt w (List.mem_cons_of_mem _ hw))]
    simp only [List.map_cons, List.append_assoc, List.singleton_append, Prod.mk.injEq,
      true_and]
    omega

/-- When the draws from position `pos` on return the values `vs`, all below
`len(alphabet)`, and the next draw returns an error, a `Generate` loop of more
iterations than `vs` has values returns the empty string with that error. -/
theorem generateLoop_stops (g : IDGenerator) (rd : RandReader) (m : Nat) (e : Nat)
    (hne : g.alphabet.length ≠ 0) :
    ∀ (vs : List Nat) (pos : Nat) (acc : GoString),
      (∀ i v, vs[i]? = some v → rd (pos + i) g.alphabet.length = .ok v) →
      (∀ v ∈ vs, v < g.alphabet.length) →
      rd (pos + vs.length) g.alphabet.length = .error e →
      g.generateLoop rd (m + 1 + vs.length) pos acc =
        (.ret [] (some (.readerError e)), pos + vs.length + 1) := by
  intro vs
  induction vs with
  | nil =>
    intro pos acc _ _ herr
    rw [List.length_nil, Nat.add_zero] at herr
    have hrand : randInt rd pos g.alphabet.length = (.error e, pos + 1) := by
      simp [randInt, hne, herr]
    show g.generateLoop rd (m + 1) pos acc = _
    rw [IDGenerator.generateLoop, hrand]
    rfl
  | cons v vs ih =>
    intro pos acc hdraw hlt herr
    have hv : rd pos g.alphabet.length = .ok v := hdraw 0 v (List.getElem?_cons_zero)
    have hvlt : v < g.alphabet.length := hlt v (List.mem_cons_self _ _)
    have hrand : randInt rd pos g.alphabet.length = (.value v, pos + 1) := by
      simp [randInt, hne, hv]
    have hget : g.alphabet[v]? = some (g.alphabet.getD v default) := by
      rw [List.getD_eq_getElem?_getD, List.getElem?_eq_getElem hvlt]; rfl
    show g.generateLoop rd (m + 1 + vs.length + 1) pos acc = _
    rw [IDGenerator.generateLoop, hrand]
    dsimp only
    rw [hget]
    dsimp only
    rw [ih (pos + 1) _
      (fun i w hw => by
        have h := hdraw (i + 1) w (by rw [List.getElem?_cons_succ]; exact hw)
        rw [← h]; congr 1; omega)
      (fun w hw => hlt w (List.mem_cons_of_mem _ hw))
      (by rw [← herr]; congr 1; rw [List.length_cons]; omega)]
    rw [List.length_cons]
    congr 1
    omega

/-- The answers of the probing source to the draws it has values for. -/
theorem probeReader_answers (answers : List Nat) (max : Nat) :
    ∀ i v, answers[i]? = some v → probeReader answers (0 + i) max = .ok v := by
  intro i v h
  simp [probeReader, h]

/-- With as many values drawn as `Generate` makes draws, all below
`len(alphabet)`, `Generate` over the probing source returns the alphabet bytes
at these values. -/
theorem Generate_probe_done (g : IDGenerator) (h0 : 0 ≤ g.length) (answers : List Nat)
    (hlen : answers.length = g.length.toNat) (hlt : ∀ v ∈ answers, v < g.alphabet.length) :
    (g.Generate (probeReader answers) 0).1 =
      .ret (answers.map (fun v => g.alphabet.getD v default)) none := by
  unfold IDGenerator.Generate
  rw [if_neg (not_lt.mpr h0), ← hlen,
    generateLoop_values g (probeReader answers) answers 0 []
      (probeReader_answers answers _) hlt]
  rfl

/-- With fewer values drawn than `Generate` makes draws, `Generate` over the
probing source stops at the next draw, which it makes with the bound
`len(alphabet)`. -/
theorem Generate_probe_more (g : IDGenerator) (h0 : 0 ≤ g.length) (answers : List Nat)
    (m : Nat) (hlen : answers.length + (m + 1) = g.length.toNat)
    (hlt : ∀ v ∈ answers, v < g.alphabet.length) (hne : g.alphabet.length ≠ 0) :
    (g.Generate (probeReader answers) 0).1 =
      .ret [] (some (.readerError g.alphabet.length)) := by
  unfold IDGenerator.Generate
  have hL : g.length.toNat = m + 1 + answers.length := by omega
  rw [if_neg (not_lt.mpr h0), hL,
    generateLoop_stops g (probeReader answers) m g.alphabet.length hne answers 0 []
      (probeReader_answers answers _) hlt (by simp [probeReader])]

/-- The probability of the string `s` once the values `answers` are drawn, with
`m` draws still to make: `|A|^(-m)` when the alphabet bytes at the values drawn
are the first bytes of `s`, and 0 otherwise. -/
theorem probability_of_start (g : IDGenerator) (h0 : 0 ≤ g.length) (hnd : g.alphabet.Nodup)
    (s : GoString) (hs : s.length = g.length.toNat) (hmem : ∀ c ∈ s, c ∈ g.alphabet) :
    ∀ (m fuel : Nat) (answers : List Nat),
      answers.length + m = g.length.toNat → m ≤ fuel →
      (∀ v ∈ answers, v < g.alphabet.length) →
      g.probability s fuel answers =
        if answers.map (fun v => g.alphabet.getD v default) = s.take answers.length then
          1 / (g.alphabet.length : ℚ) ^ m
        else 0 := by
  intro m
  induction m with
  | zero =>
    intro fuel answers hlen _ hlt
    have hdone := Generate_probe_done g h0 answers (by omega) hlt
    have htake : s.take answers.length = s := List.take_of_length_le (by omega)
    rw [htake]
    cases fuel with
    | zero =>
      rw [IDGenerator.probability, hdone]
      simp
    | succ f =>
      rw [IDGenerator.probability, hdone]
      simp
  | succ m ih =>
    intro fuel answers hlen hfuel hlt
    obtain ⟨f, rfl⟩ : ∃ f, fuel = f + 1 := ⟨fuel - 1, by omega⟩
    have hk : answers.length < s.length := by omega
    have hcA : s[answers.length] ∈ g.alphabet := hmem _ (List.getElem_mem _)
    have hne : g.alphabet.length ≠ 0 := by
      intro h
      rw [List.length_eq_zero.mp h] at hcA
      exact absurd hcA (List.not_mem_nil _)
    have hnq : (g.alphabet.length : ℚ) ≠ 0 := by exact_mod_cast hne
    have hmore := Generate_probe_more g h0 answers m (by omega) hlt hne
    rw [IDGenerator.probability, hmore]
    dsimp only
    have hterm : ∀ v ∈ Finset.range g.alphabet.length,
        g.probability s f (answers ++ [v]) =
          if answers.map (fun v => g.alphabet.getD v default) = s.take answers.length ∧
              g.alphabet.getD v default = s[answers.length] then
            1 / (g.alphabet.length : ℚ) ^ m
          else 0 := by
      intro v hv
      rw [Finset.mem_range] at hv
      rw [ih f (answers ++ [v])
        (by rw [List.length_append, List.length_singleton]; omega) (by omega)
        (by
          intro w hw
          rcases List.mem_append.mp hw with h | h
          · exact hlt w h
          · rw [List.mem_singleton] at h; rw [h]; exact hv)]
      have hiff : (answers ++ [v]).map (fun v => g.alphabet.getD v default) =
            s.take (answers ++ [v]).length ↔
          answers.map (fun v => g.alphabet.getD v default) = s.take answers.length ∧
            g.alphabet.getD v default = s[answers.length] := by
        rw [List.length_append, List.length_singleton, List.take_succ,
          List.getElem?_eq_getElem hk, List.map_append, List.map_singleton]
        simp only [Option.toList_some]
        constructor
        · intro h
          obtain ⟨h1, h2⟩ := List.append_inj' h rfl
          exact ⟨h1, by simpa using h2⟩
        · rintro ⟨h1, h2⟩
          rw [h1, h2]
      exact if_congr hiff rfl rfl
    rw [Finset.sum_congr rfl hterm]
    by_cases hpre : answers.map (fun v => g.alphabet.getD v default) = s.take answers.length
    · simp only [hpre, true_and, if_true]
      obtain ⟨v0, hv0, hget⟩ := List.getElem_of_mem hcA
      have hsingle : (∑ v ∈ Finset.range g.alphabet.length,
          if g.alphabet.getD v default = s[answers.length] then
            1 / (g.alphabet.length : ℚ) ^ m
          else 0) = 1 / (g.alphabet.length : ℚ) ^ m := by
        rw [Finset.sum_eq_single v0]
        · rw [if_pos]
          rw [List.getD_eq_getElem?_getD, List.getElem?_eq_getElem hv0]
          exact hget
        · intro b hb hbne
          rw [Finset.mem_range] at hb
          rw [if_neg]
          intro hbeq
          rw [List.getD_eq_getElem?_getD, List.getElem?_eq_getElem hb] at hbeq
          have heq : g.alphabet[b] = g.alphabet[v0] := by
            rw [hget]; exact hbeq
          exact hbne ((List.Nodup.getElem_inj_iff hnd).mp heq)
        · intro hnot
          exact absurd (Finset.mem_range.mpr hv0) hnot
      rw [hsingle, pow_succ]
      field_simp
    · simp only [hpre, false_and, if_false, Finset.sum_const_zero, zero_div]

/-- A successful run of the `Generate` loop returns a string that starts with
the bytes written before it. -/
theorem generateLoop_extends (g : IDGenerator) (rd : RandReader) :
    ∀ (n pos : Nat) (acc s : GoString) (pos1 : Nat),
      g.generateLoop rd n pos acc = (.ret s none, pos1) → ∃ t, s = acc ++ t := by
  intro n
  induction n with
  | zero =>
    intro pos acc s pos1 h
    simp only [IDGenerator.generateLoop, Prod.mk.injEq, GoResult.ret.injEq, and_true] at h
    exact ⟨[], by rw [← h.1, List.append_nil]⟩
  | succ n ih =>
    intro pos acc s pos1 h
    unfold IDGenerator.generateLoop at h
    unfold randInt at h
    by_cases hmax : g.alphabet.length = 0
    · simp [hmax] at h
    · simp only [hmax, if_false] at h
      cases hrd : rd pos g.alphabet.length with
      | error e => simp [hrd] at h
      | ok v =>
        simp only [hrd] at h
        cases hget : g.alphabet[v]? with
        | none => simp [hget] at h
        | some b =>
          simp only [hget] at h
          obtain ⟨t, ht⟩ := ih (pos + 1) (acc ++ [b]) s pos1 h
          exact ⟨b :: t, by rw [ht, List.append_assoc, List.singleton_append]⟩

/-- A successful run of the `Generate` loop made every draw with the bound
`len(alphabet)`, and wrote after the bytes it started with the alphabet bytes at
the values drawn, in draw order. -/
theorem generateLoop_ret_draws (g : IDGenerator) (rd : RandReader) :
    ∀ (n pos : Nat) (acc s : GoString) (pos1 : Nat),
      g.generateLoop rd n pos acc = (.ret s none, pos1) →
      ∀ i, i < n → ∃ v, rd (pos + i) g.alphabet.length = .ok v ∧ v < g.alphabet.length ∧
        s[acc.length + i]? = g.alphabet[v]? := by
  intro n
  induction n with
  | zero => intro pos acc s pos1 _ i hi; omega
  | succ n ih =>
    intro pos acc s pos1 h i hi
    unfold IDGenerator.generateLoop at h
    unfold randInt at h
    by_cases hmax : g.alphabet.length = 0
    · simp [hmax] at h
    · simp only [hmax, if_false] at h
      cases hrd : rd pos g.alphabet.length with
      | error e => simp [hrd] at h
      | ok v =>
        simp only [hrd] at h
        cases hget : g.alphabet[v]? with
        | none => simp [hget] at h
        | some b =>
          simp only [hget] at h
          have hvlt : v < g.alphabet.length := by
            by_contra hcon
            rw [List.getElem?_eq_none (by omega)] at hget
            exact Option.noConfusion hget
          cases i with
          | zero =>
            refine ⟨v, hrd, hvlt, ?_⟩
            obtain ⟨hlen, _, _⟩ := generateLoop_ret g rd n (pos + 1) (acc ++ [b]) s pos1 h
            have hpre := generateLoop_extends g rd n (pos + 1) (acc ++ [b]) s pos1 h
            rw [Nat.add_zero, hget]
            obtain ⟨t, ht⟩ := hpre
            rw [ht, List.append_assoc, List.getElem?_append_right (le_refl _)]
            simp
          | succ j =>
            obtain ⟨w, hw, hwlt, hs⟩ := ih (pos + 1) (acc ++ [b]) s pos1 h j (by omega)
            refine ⟨w, ?_, hwlt, ?_⟩
            · rw [← hw]; congr 1; omega
            · rw [← hs]; congr 1
              rw [List.length_append, List.length_singleton]; omega

/-- C25: each character draw of `Generate` is unbiased. Every draw is the call
`rand.Int(rand.Reader, len(alphabet))`, and the `i`-th output byte is
`alphabet[r_i]` for `r_i` the value that this call returned, used as it comes:
no wider value is reduced modulo `|A|`. With a source that never errors and
keeps the contract of `rand.Int` for that bound, `Generate` returns such a
string. Hence, when the alphabet bytes are distinct and every call of
`rand.Int` returns a value uniform on `[0, max)` for the bound `max` it is made
with, independently of the earlier calls, every string of length `L` over the
alphabet is returned with probability `|A|^(-L)`. -/
theorem Generate_unbiased (g : IDGenerator) (hlen : 0 ≤ g.length) :
    (∀ (rd : RandReader) (pos : Nat) (s : GoString) (pos1 : Nat),
      g.Generate rd pos = (.ret s none, pos1) →
        s.length = g.length.toNat ∧
        ∀ i, i < g.length.toNat →
          ∃ v, rd (pos + i) g.alphabet.length = .ok v ∧ v < g.alphabet.length ∧
            s[i]? = g.alphabet[v]?) ∧
      (∀ (rd : RandReader) (pos : Nat), rd.NeverErrors → rd.InRange g.alphabet.length →
        ∃ s, g.Generate rd pos = (.ret s none, pos + g.length.toNat)) ∧
      (g.alphabet.Nodup → ∀ s : GoString, s.length = g.length.toNat →
        (∀ c ∈ s, c ∈ g.alphabet) →
        ∀ fuel, g.length.toNat ≤ fuel →
          g.probability s fuel [] = 1 / (g.alphabet.length : ℚ) ^ g.length.toNat) := by
  refine ⟨?_, ?_, ?_⟩
  · intro rd pos s pos1 h
    obtain ⟨_, hl, _, _⟩ := Generate_ret g rd pos s pos1 h
    refine ⟨hl, ?_⟩
    unfold IDGenerator.Generate at h
    rw [if_neg (not_lt.mpr hlen)] at h
    intro i hi
    obtain ⟨v, hv, hvlt, hs⟩ := generateLoop_ret_draws g rd _ pos [] s pos1 h i hi
    refine ⟨v, hv, hvlt, ?_⟩
    rw [← hs]
    congr 1
    simp
  · intro rd pos hne hin
    exact Generate_total g rd hlen hin hne pos
  · intro hnd s hs hmem fuel hfuel
    rw [probability_of_start g hlen hnd s hs hmem g.length.toNat fuel []
      (by simp) hfuel (by intro v hv; exact absurd hv (List.not_mem_nil _))]
    simp

/-- C25 at a concrete input: the generator of length 2 over the alphabet `ab`
returns the string `ba` with probability 1/4. -/
theorem Generate_unbiased_witness :
    0 ≤ ((NewIDGenerator 2).CustomAlphabet "ab".toList).length ∧
      ((NewIDGenerator 2).CustomAlphabet "ab".toList).probability "ba".toList 2 [] = 1 / 4 := by
  refine ⟨by decide, ?_⟩
  rw [(Generate_unbiased ((NewIDGenerator 2).CustomAlphabet "ab".toList) (by decide)).2.2
    (by decide) "ba".toList rfl (by decide) 2 (by decide)]
  have hL : ((NewIDGenerator 2).CustomAlphabet "ab".toList).length.toNat = 2 := rfl
  have hA : ((NewIDGenerator 2).CustomAlphabet "ab".toList).alphabet.length = 2 := rfl
  rw [hL, hA]
  norm_num

end Shortener

/-! ## Theorems: eviction and later admissions -/

namespace Ratelimiter

/-- With coinciding clock readings `AllowAt` is `Allow`. -/
theorem RateLimiter.AllowAt_same (r : RateLimiter) (ip : GoString) (now : Int) :
    r.AllowAt ip now now = r.Allow ip now := rfl

/-- With coinciding clock readings `cleanTickAt` is `cleanTick`. -/
theorem RateLimiter.cleanTickAt_same (r : RateLimiter) (now duration : Int) :
    r.cleanTickAt (fun _ => now) duration = r.cleanTick now duration := rfl

/-- The verdict of `AllowAt` is the verdict of the limiter at its own clock
reading. -/
theorem RateLimiter.AllowAt_fst (r : RateLimiter) (ip : GoString) (stamp now : Int) :
    (r.AllowAt ip stamp now).1 = ((r.visitor ip now).limiter.Allow now).1 := rfl

/-- The table after `AllowAt`: the key of the call is bound to the updated
limiter, stamped with the first reading; every other key is untouched. -/
theorem RateLimiter.AllowAt_visitors (r : RateLimiter) (ip : GoString) (stamp now : Int)
    (k : GoString) :
    (r.AllowAt ip stamp now).2.visitors k =
      if k = ip then
        some { limiter := ((r.visitor ip now).limiter.Allow now).2, lastActive := stamp }
      else r.visitors k := rfl

/-- The verdicts of a sequence cut in two: those of the first part, then those
of the second part from the state the first part leaves. -/
theorem RateLimiter.verdictsOf_append :
    ∀ (ops1 ops2 : List Op) (r : RateLimiter),
      r.verdictsOf (ops1 ++ ops2) = r.verdictsOf ops1 ++ (r.runOps ops1).verdictsOf ops2 := by
  intro ops1
  induction ops1 with
  | nil => intro ops2 r; rfl
  | cons op ops ih =>
    intro ops2 r
    cases op with
    | allow ip stamp now =>
      show (r.AllowAt ip stamp now).1 :: (r.AllowAt ip stamp now).2.verdictsOf (ops ++ ops2) = _
      rw [ih]
      rfl
    | sweep since d =>
      show (r.cleanTickAt since d).verdictsOf (ops ++ ops2) = _
      rw [ih]
      rfl

/-- Operations keep the rate and the capacity of the limiter. -/
theorem RateLimiter.runOps_limit_burst :
    ∀ (ops : List Op) (r : RateLimiter),
      (r.runOps ops).limit = r.limit ∧ (r.runOps ops).burst = r.burst := by
  intro ops
  induction ops with
  | nil => intro r; exact ⟨rfl, rfl⟩
  | cons op ops ih =>
    intro r
    cases op with
    | allow ip stamp now => exact ih _
    | sweep since d => exact ih _

/-- The limiter that `Allow` works on satisfies the bucket invariant: the one
found, or a new full one. -/
theorem RateLimiter.sound_visitor (R : ℚ) (B : Int) (lag t : Int) (r : RateLimiter)
    (hB : 0 ≤ B) (h : r.Sound R B lag t) (ip : GoString) (now : Int) (ht : t ≤ now) :
    (r.visitor ip now).limiter.limit = R ∧ (r.visitor ip now).limiter.burst = B ∧
      0 ≤ (r.visitor ip now).limiter.tokens ∧
      (r.visitor ip now).limiter.tokens ≤ (B : ℚ) ∧
      (r.visitor ip now).limiter.last ≤ now := by
  obtain ⟨hlim, hbur, hvis⟩ := h
  have hBq : (0 : ℚ) ≤ (B : ℚ) := by exact_mod_cast hB
  cases hget : r.visitors ip with
  | none =>
    have hnew : r.visitor ip now =
        { limiter := NewLimiter r.limit r.burst now, lastActive := now } := by
      simp [RateLimiter.visitor, hget]
    rw [hnew, hlim, hbur]
    exact ⟨rfl, rfl, hBq, le_refl _, le_refl _⟩
  | some w =>
    rw [RateLimiter.visitor_of_some r ip now w hget]
    obtain ⟨a, b, c, d, f, _⟩ := hvis ip w hget
    exact ⟨a, b, c, d, le_trans f ht⟩

/-- An `Allow` call whose readings are in order and at most `lag` apart keeps
the state invariant. -/
theorem RateLimiter.sound_allow (R : ℚ) (B : Int) (lag t : Int) (r : RateLimiter)
    (hR : 0 ≤ R) (hB : 0 ≤ B) (h : r.Sound R B lag t) (ip : GoString) (stamp now : Int)
    (h1 : t ≤ stamp) (h2 : stamp ≤ now) (h3 : now ≤ stamp + lag) :
    (r.AllowAt ip stamp now).2.Sound R B lag now := by
  obtain ⟨a, b, c, d, f⟩ := RateLimiter.sound_visitor R B lag t r hB h ip now (by omega)
  obtain ⟨hlim, hbur, hvis⟩ := h
  refine ⟨hlim, hbur, ?_⟩
  intro k v hk
  rw [RateLimiter.AllowAt_visitors] at hk
  by_cases hkip : k = ip
  · rw [if_pos hkip] at hk
    injection hk with hk
    have hbounds := Limiter.Allow_bounds (r.visitor ip now).limiter now
      (by rw [a]; exact hR) c (by rw [b]; exact d) f
    rw [← hk]
    simp only [Limiter.Allow_snd] at hbounds ⊢
    rw [b] at hbounds
    exact ⟨a, b, hbounds.1, hbounds.2, le_refl _, h3⟩
  · rw [if_neg hkip] at hk
    obtain ⟨a1, b1, c1, d1, f1, g1⟩ := hvis k v hk
    exact ⟨a1, b1, c1, d1, by omega, g1⟩

/-- A sweep keeps the state invariant, at any later instant. -/
theorem RateLimiter.sound_sweep (R : ℚ) (B : Int) (lag t t1 : Int) (r : RateLimiter)
    (h : r.Sound R B lag t) (since : GoString → Int) (d : Int) (ht : t ≤ t1) :
    (r.cleanTickAt since d).Sound R B lag t1 := by
  obtain ⟨hlim, hbur, hvis⟩ := h
  refine ⟨hlim, hbur, ?_⟩
  intro k v hk
  simp only [RateLimiter.cleanTickAt] at hk
  cases hget : r.visitors k with
  | none => simp [hget] at hk
  | some w =>
    simp only [hget] at hk
    by_cases hold : since k - w.lastActive > d
    · simp [hold] at hk
    · simp only [hold, if_false, Option.some.injEq] at hk
      subst hk
      obtain ⟨a1, b1, c1, d1, f1, g1⟩ := hvis k w hget
      exact ⟨a1, b1, c1, d1, by omega, g1⟩

/-- A timed sequence of operations keeps the state invariant, and what follows
it is timed from the instant it ends at. -/
theorem RateLimiter.sound_runOps (R : ℚ) (B : Int) (lag : Int) (hR : 0 ≤ R) (hB : 0 ≤ B) :
    ∀ (pre rest : List Op) (t : Int) (r : RateLimiter),
      r.Sound R B lag t → Timed lag t (pre ++ rest) →
      ∃ t1, (r.runOps pre).Sound R B lag t1 ∧ Timed lag t1 rest := by
  intro pre
  induction pre with
  | nil => intro rest t r h hT; exact ⟨t, h, hT⟩
  | cons op ops ih =>
    intro rest t r h hT
    cases op with
    | allow ip stamp now =>
      obtain ⟨h1, h2, h3, hrest⟩ := hT
      exact ih rest now _
        (RateLimiter.sound_allow R B lag t r hR hB h ip stamp now h1 h2 h3) hrest
    | sweep since d =>
      obtain ⟨t1, hsince, hrest⟩ := hT
      have ht : t ≤ t1 := le_trans (hsince []).1 (hsince []).2
      exact ih rest t1 _ (RateLimiter.sound_sweep R B lag t t1 r h since d ht) hrest

/-- The new limiter satisfies the state invariant at every instant. -/
theorem NewRateLimiter_sound (R : ℚ) (B : Int) (lag t : Int) :
    (NewRateLimiter R B).Sound R B lag t := by
  refine ⟨rfl, rfl, ?_⟩
  intro k w hk
  simp [NewRateLimiter] at hk

/-- A new bucket is full at the instant of its creation. -/
theorem NewLimiter_refill (R : ℚ) (B : Int) (now : Int) :
    (NewLimiter R B now).refill now = (B : ℚ) := by
  simp [Limiter.refill, NewLimiter]

/-- A bucket that has not been refilled for at least `E` nanoseconds is full
again, when the rate fills the capacity within `E`. -/
theorem Limiter.refill_full (l : Limiter) (E now : Int) (hR : 0 ≤ l.limit)
    (hfull : (l.burst : ℚ) ≤ l.limit * (((E : Int) : ℚ) / 1000000000))
    (h0 : 0 ≤ l.tokens) (hidle : E ≤ now - l.last) :
    l.refill now = (l.burst : ℚ) := by
  unfold Limiter.refill
  apply min_eq_left
  have hq : ((E : Int) : ℚ) ≤ ((now - l.last : Int) : ℚ) := by exact_mod_cast hidle
  have hdiv : ((E : Int) : ℚ) / 1000000000 ≤ ((now - l.last : Int) : ℚ) / 1000000000 :=
    div_le_div_of_nonneg_right hq (by norm_num)
  have hmul := mul_le_mul_of_nonneg_left hdiv hR
  linarith

/-- The admission check depends on the bucket only through its rate, its
capacity and its refilled count. -/
theorem Limiter.Allow_congr (l1 l2 : Limiter) (now : Int) (hlimit : l1.limit = l2.limit)
    (hburst : l1.burst = l2.burst) (hrefill : l1.refill now = l2.refill now) :
    l1.Allow now = l2.Allow now := by
  apply Prod.ext
  · rw [Limiter.Allow_fst, Limiter.Allow_fst, hrefill]
  · rw [Limiter.Allow_snd, Limiter.Allow_snd, hrefill, hlimit, hburst]

/-- One `Allow` call on two tables that differ only by evicted buckets gives
the same verdict and leaves tables that differ only by evicted buckets. -/
theorem EvictedOnly.allow (R : ℚ) (B D lag t : Int) (r1 r2 : RateLimiter) (hR : 0 ≤ R)
    (hfull : (B : ℚ) ≤ R * (((D + 1 - lag : Int) : ℚ) / 1000000000))
    (h : EvictedOnly R B D lag t r1 r2) (ip : GoString) (stamp now : Int)
    (h1 : t ≤ stamp) (h2 : stamp ≤ now) :
    (r1.AllowAt ip stamp now).1 = (r2.AllowAt ip stamp now).1 ∧
      EvictedOnly R B D lag now (r1.AllowAt ip stamp now).2 (r2.AllowAt ip stamp now).2 := by
  obtain ⟨hl1, hb1, hl2, hb2, hvis⟩ := h
  have hallow : (r1.visitor ip now).limiter.Allow now = (r2.visitor ip now).limiter.Allow now := by
    rcases hvis ip with heq | ⟨hnone, v, hv, hidle, hl, hb, htok, hlast⟩
    · have hsame : r1.visitor ip now = r2.visitor ip now := by
        simp only [RateLimiter.visitor, heq, hl1, hb1, hl2, hb2]
      rw [hsame]
    · have hv1 : r1.visitor ip now = v := RateLimiter.visitor_of_some r1 ip now v hv
      have hv2 : r2.visitor ip now =
          { limiter := NewLimiter r2.limit r2.burst now, lastActive := now } := by
        simp [RateLimiter.visitor, hnone]
      rw [hv1, hv2, hl2, hb2]
      apply Limiter.Allow_congr
      · rw [hl]; rfl
      · rw [hb]; rfl
      · rw [NewLimiter_refill, Limiter.refill_full v.limiter (D + 1 - lag) now
          (by rw [hl]; exact hR) (by rw [hl, hb]; exact hfull) htok (by omega), hb]
  have hfst : (r1.AllowAt ip stamp now).1 = (r2.AllowAt ip stamp now).1 := by
    rw [RateLimiter.AllowAt_fst, RateLimiter.AllowAt_fst, hallow]
  refine ⟨hfst, hl1, hb1, hl2, hb2, ?_⟩
  intro k
  rw [RateLimiter.AllowAt_visitors, RateLimiter.AllowAt_visitors]
  by_cases hk : k = ip
  · left
    rw [if_pos hk, if_pos hk, hallow]
  · rw [if_neg hk, if_neg hk]
    rcases hvis k with heq | ⟨hnone, v, hv, hidle, hrest⟩
    · exact Or.inl heq
    · exact Or.inr ⟨hnone, v, hv, by omega, hrest⟩

/-- One sweep, with any threshold, on two tables that differ only by evicted
buckets leaves tables that differ only by evicted buckets. -/
theorem EvictedOnly.sweep (R : ℚ) (B D lag t t1 : Int) (r1 r2 : RateLimiter)
    (h : EvictedOnly R B D lag t r1 r2) (since : GoString → Int) (d : Int) (ht : t ≤ t1) :
    EvictedOnly R B D lag t1 (r1.cleanTickAt since d) (r2.cleanTickAt since d) := by
  obtain ⟨hl1, hb1, hl2, hb2, hvis⟩ := h
  refine ⟨hl1, hb1, hl2, hb2, ?_⟩
  intro k
  rcases hvis k with heq | ⟨hnone, v, hv, hidle, hrest⟩
  · left
    simp only [RateLimiter.cleanTickAt, heq]
  · by_cases hold : since k - v.lastActive > d
    · left
      simp [RateLimiter.cleanTickAt, hnone, hv, hold]
    · right
      refine ⟨by simp [RateLimiter.cleanTickAt, hnone], v, ?_, by omega, hrest⟩
      simp [RateLimiter.cleanTickAt, hv, hold]

/-- Two tables that differ only by evicted buckets give the same verdicts to
every later timed sequence of operations. -/
theorem EvictedOnly.verdictsOf_eq (R : ℚ) (B D lag : Int) (hR : 0 ≤ R)
    (hfull : (B : ℚ) ≤ R * (((D + 1 - lag : Int) : ℚ) / 1000000000)) :
    ∀ (ops : List Op) (t : Int) (r1 r2 : RateLimiter),
      EvictedOnly R B D lag t r1 r2 → Timed lag t ops →
      r1.verdictsOf ops = r2.verdictsOf ops := by
  intro ops
  induction ops with
  | nil => intro t r1 r2 _ _; rfl
  | cons op ops ih =>
    intro t r1 r2 h hT
    cases op with
    | allow ip stamp now =>
      obtain ⟨h1, h2, _, hrest⟩ := hT
      obtain ⟨hv, hnext⟩ := EvictedOnly.allow R B D lag t r1 r2 hR hfull h ip stamp now h1 h2
      show (r1.AllowAt ip stamp now).1 :: (r1.AllowAt ip stamp now).2.verdictsOf ops =
        (r2.AllowAt ip stamp now).1 :: (r2.AllowAt ip stamp now).2.verdictsOf ops
      rw [hv, ih now _ _ hnext hrest]
    | sweep since d =>
      obtain ⟨t1, hsince, hrest⟩ := hT
      have ht : t ≤ t1 := le_trans (hsince []).1 (hsince []).2
      show (r1.cleanTickAt since d).verdictsOf ops = (r2.cleanTickAt since d).verdictsOf ops
      exact ih t1 _ _ (EvictedOnly.sweep R B D lag t t1 r1 r2 h since d ht) hrest

/-- A sweep leaves a table that differs from the swept one only by evicted
buckets, at every instant not before its clock readings. -/
theorem EvictedOnly.of_cleanTickAt (R : ℚ) (B D lag t t1 : Int) (r : RateLimiter)
    (h : r.Sound R B lag t) (since : GoString → Int) (hsince : ∀ ip, since ip ≤ t1) :
    EvictedOnly R B D lag t1 r (r.cleanTickAt since D) := by
  obtain ⟨hl, hb, hvis⟩ := h
  refine ⟨hl, hb, hl, hb, ?_⟩
  intro k
  cases hget : r.visitors k with
  | none => left; simp [RateLimiter.cleanTickAt, hget]
  | some v =>
    by_cases hold : since k - v.lastActive > D
    · right
      obtain ⟨a, b, c, _, _, g⟩ := hvis k v hget
      have hk := hsince k
      exact ⟨by simp [RateLimiter.cleanTickAt, hget, hold], v, rfl, by omega, a, b, c, g⟩
    · left
      simp [RateLimiter.cleanTickAt, hget, hold]

/-- When the rate fills the capacity within the idle threshold plus one
nanosecond less the lag of the limiter's clock reading, a sweep placed anywhere
in a timed sequence of operations changes no verdict. -/
theorem sweep_changes_no_verdict (R : ℚ) (B D lag : Int) (hR : 0 ≤ R) (hB : 0 ≤ B)
    (hfull : (B : ℚ) ≤ R * (((D + 1 - lag : Int) : ℚ) / 1000000000))
    (pre post : List Op) (since : GoString → Int) (t : Int)
    (hT : Timed lag t (pre ++ Op.sweep since D :: post)) :
    (NewRateLimiter R B).verdictsOf (pre ++ Op.sweep since D :: post) =
      (NewRateLimiter R B).verdictsOf (pre ++ post) := by
  rw [RateLimiter.verdictsOf_append, RateLimiter.verdictsOf_append]
  congr 1
  obtain ⟨t1, hsound, hrest⟩ := RateLimiter.sound_runOps R B lag hR hB pre _ t _
    (NewRateLimiter_sound R B lag t) hT
  obtain ⟨t2, hsince, hpost⟩ := hrest
  show (((NewRateLimiter R B).runOps pre).cleanTickAt since D).verdictsOf post = _
  exact (EvictedOnly.verdictsOf_eq R B D lag hR hfull post t2 _ _
    (EvictedOnly.of_cleanTickAt R B D lag t1 t2 _ hsound since (fun ip => (hsince ip).2))
    hpost).symm

/-- The refilled count of a bucket right after an admission check, at the
instant of that check. -/
theorem Limiter.refill_after_Allow (l : Limiter) (now : Int) :
    (l.Allow now).2.refill now =
      min (l.burst : ℚ) (if 1 ≤ l.refill now then l.refill now - 1 else l.refill now) := by
  rw [Limiter.Allow_snd]
  simp [Limiter.refill]

/-- The refilled count never exceeds the capacity. -/
theorem Limiter.refill_le_burst (l : Limiter) (now : Int) : l.refill now ≤ (l.burst : ℚ) :=
  min_le_left _ _

/-- As many `Allow` calls for one key at one instant as the bucket of the key
holds tokens are all admitted. -/
theorem verdictsOf_all_admitted (ip : GoString) (now : Int) :
    ∀ (n : Nat) (r : RateLimiter),
      (n : ℚ) ≤ (r.visitor ip now).limiter.refill now →
      r.verdictsOf (List.replicate n (Op.allow ip now now)) = List.replicate n true := by
  intro n
  induction n with
  | zero => intro r _; rfl
  | succ n ih =>
    intro r h
    have hcast : ((n + 1 : Nat) : ℚ) = (n : ℚ) + 1 := by push_cast; rfl
    rw [hcast] at h
    have hn : (0 : ℚ) ≤ (n : ℚ) := Nat.cast_nonneg n
    have h1 : 1 ≤ (r.visitor ip now).limiter.refill now := by linarith
    have hfst : (r.Allow ip now).1 = true := by
      show ((r.visitor ip now).limiter.Allow now).1 = true
      rw [Limiter.Allow_fst]
      simp [h1]
    have hnext : (n : ℚ) ≤ ((r.Allow ip now).2.visitor ip now).limiter.refill now := by
      rw [RateLimiter.visitor_after_Allow, Limiter.refill_after_Allow, if_pos h1]
      have hb := Limiter.refill_le_burst (r.visitor ip now).limiter now
      exact le_min (by linarith) (by linarith)
    rw [List.replicate_succ, List.replicate_succ]
    show (r.Allow ip now).1 :: (r.Allow ip now).2.verdictsOf _ = _
    rw [hfst, ih _ hnext]

/-- More `Allow` calls for one key at one instant than the bucket of the key
holds tokens are not all admitted. -/
theorem verdictsOf_not_all_admitted (ip : GoString) (now : Int) :
    ∀ (n : Nat) (r : RateLimiter),
      (r.visitor ip now).limiter.refill now < (n : ℚ) + 1 →
      r.verdictsOf (List.replicate (n + 1) (Op.allow ip now now)) ≠
        List.replicate (n + 1) true := by
  intro n
  induction n with
  | zero =>
    intro r h hall
    have h1 : ¬ 1 ≤ (r.visitor ip now).limiter.refill now := by
      simp only [Nat.cast_zero, zero_add] at h
      exact not_le.mpr h
    have hfst : (r.Allow ip now).1 = false := by
      show ((r.visitor ip now).limiter.Allow now).1 = false
      rw [Limiter.Allow_fst]
      simp [h1]
    rw [List.replicate_succ, List.replicate_succ] at hall
    have hhead : (r.Allow ip now).1 = true := (List.cons.inj hall).1
    rw [hfst] at hhead
    exact Bool.noConfusion hhead
  | succ n ih =>
    intro r h hall
    rw [List.replicate_succ, List.replicate_succ] at hall
    have hhead : (r.Allow ip now).1 = true := (List.cons.inj hall).1
    have htail : (r.Allow ip now).2.verdictsOf (List.replicate (n + 1) (Op.allow ip now now)) =
        List.replicate (n + 1) true := (List.cons.inj hall).2
    have h1 : 1 ≤ (r.visitor ip now).limiter.refill now := by
      have hfst : (r.Allow ip now).1 = decide (1 ≤ (r.visitor ip now).limiter.refill now) :=
        Limiter.Allow_fst _ _
      rw [hfst] at hhead
      simpa using hhead
    have hnext : ((r.Allow ip now).2.visitor ip now).limiter.refill now < (n : ℚ) + 1 := by
      rw [RateLimiter.visitor_after_Allow, Limiter.refill_after_Allow, if_pos h1]
      have hcast : ((n + 1 : Nat) : ℚ) = (n : ℚ) + 1 := by push_cast; rfl
      rw [hcast] at h
      exact lt_of_le_of_lt (min_le_right _ _) (by linarith)
    exact ih _ hnext htail

/-- After `n + 1` admitted `Allow` calls for one key at one instant, the bucket
of the key holds `n + 1` tokens fewer than its refilled count at that instant
and was last active at that instant. -/
theorem runOps_drains (ip : GoString) (now : Int) :
    ∀ (n : Nat) (r : RateLimiter),
      (n : ℚ) + 1 ≤ (r.visitor ip now).limiter.refill now →
      (r.runOps (List.replicate (n + 1) (Op.allow ip now now))).visitors ip =
        some { limiter :=
                { limit := (r.visitor ip now).limiter.limit,
                  burst := (r.visitor ip now).limiter.burst,
                  tokens := (r.visitor ip now).limiter.refill now - ((n : ℚ) + 1),
                  last := now },
               lastActive := now } := by
  intro n
  induction n with
  | zero =>
    intro r h
    simp only [Nat.cast_zero, zero_add] at h ⊢
    show (r.Allow ip now).2.visitors ip = _
    rw [RateLimiter.Allow_visitors, if_pos rfl, Limiter.Allow_snd, if_pos h]
  | succ n ih =>
    intro r h
    have hcast : ((n + 1 : Nat) : ℚ) = (n : ℚ) + 1 := by push_cast; rfl
    rw [hcast] at h ⊢
    have hn : (0 : ℚ) ≤ (n : ℚ) := Nat.cast_nonneg n
    have h1 : 1 ≤ (r.visitor ip now).limiter.refill now := by linarith
    have hb := Limiter.refill_le_burst (r.visitor ip now).limiter now
    have hrefill : ((r.Allow ip now).2.visitor ip now).limiter.refill now =
        (r.visitor ip now).limiter.refill now - 1 := by
      rw [RateLimiter.visitor_after_Allow, Limiter.refill_after_Allow, if_pos h1]
      exact min_eq_right (by linarith)
    rw [List.replicate_succ]
    show ((r.Allow ip now).2.runOps (List.replicate (n + 1) (Op.allow ip now now))).visitors ip
      = _
    rw [ih (r.Allow ip now).2 (by rw [hrefill]; linarith), hrefill,
      RateLimiter.visitor_after_Allow, Limiter.Allow_snd]
    simp only [Option.some.injEq, visitorState.mk.injEq, Limiter.mk.injEq, and_true, true_and]
    ring

/-- Equal `Allow` calls with coinciding readings, from an instant not after
them, are timed, whatever follows them in time. -/
theorem Timed_replicate (lag : Int) (hlag : 0 ≤ lag) (ip : GoString) (now : Int)
    (rest : List Op) (hrest : Timed lag now rest) :
    ∀ (n : Nat) (t : Int), t ≤ now →
      Timed lag t (List.replicate n (Op.allow ip now now) ++ rest) := by
  intro n
  induction n with
  | zero =>
    intro t ht
    cases rest with
    | nil => trivial
    | cons op ops =>
      cases op with
      | allow ip1 stamp1 now1 =>
        obtain ⟨h1, h2, h3, h4⟩ := hrest
        exact ⟨by omega, h2, h3, h4⟩
      | sweep since d =>
        obtain ⟨t1, hsince, h4⟩ := hrest
        exact ⟨t1, fun k => ⟨by have := (hsince k).1; omega, (hsince k).2⟩, h4⟩
  | succ n ih =>
    intro t ht
    rw [List.replicate_succ, List.cons_append]
    exact ⟨ht, le_refl _, by omega, ih now (le_refl _)⟩

/-- When the rate does not fill the capacity within the idle threshold and one
more nanosecond, a sweep changes a verdict, already with coinciding clock
readings: drain the bucket of a key with `B` calls at instant 0, sweep one
nanosecond after the threshold, and call `B` times again. After the sweep all
`B` calls are admitted, without it not all. -/
theorem sweep_changes_a_verdict (R : ℚ) (B D lag : Int) (hR : 0 ≤ R) (hD : 0 ≤ D)
    (hlag : 0 ≤ lag) (hlow : R * (((D + 1 : Int) : ℚ) / 1000000000) < (B : ℚ))
    (ip : GoString) :
    Timed lag 0
        (List.replicate B.toNat (Op.allow ip 0 0) ++
          Op.sweep (fun _ => D + 1) D ::
            List.replicate B.toNat (Op.allow ip (D + 1) (D + 1))) ∧
      (NewRateLimiter R B).verdictsOf
          (List.replicate B.toNat (Op.allow ip 0 0) ++
            Op.sweep (fun _ => D + 1) D ::
              List.replicate B.toNat (Op.allow ip (D + 1) (D + 1))) ≠
        (NewRateLimiter R B).verdictsOf
          (List.replicate B.toNat (Op.allow ip 0 0) ++
            List.replicate B.toNat (Op.allow ip (D + 1) (D + 1))) := by
  have hD1 : (0 : ℚ) ≤ (((D + 1 : Int) : ℚ) / 1000000000) := by
    have hz : (0 : Int) ≤ D + 1 := by omega
    have hq : (0 : ℚ) ≤ ((D + 1 : Int) : ℚ) := by exact_mod_cast hz
    exact div_nonneg hq (by norm_num)
  have hBq : (0 : ℚ) < (B : ℚ) := lt_of_le_of_lt (mul_nonneg hR hD1) hlow
  have hBpos : 0 < B := by exact_mod_cast hBq
  have hcast : ((B.toNat : ℕ) : ℚ) = (B : ℚ) := by
    have h := Int.toNat_of_nonneg (show 0 ≤ B by omega)
    exact_mod_cast congrArg (fun z : Int => (z : ℚ)) h
  obtain ⟨m, hm⟩ : ∃ m, B.toNat = m + 1 := ⟨B.toNat - 1, by omega⟩
  have hmq : (m : ℚ) + 1 = (B : ℚ) := by
    rw [← hcast, hm]; push_cast; rfl
  constructor
  · apply Timed_replicate lag hlag ip 0 _ _ _ 0 (le_refl _)
    refine ⟨D + 1, fun _ => ⟨show (0 : Int) ≤ D + 1 by omega, le_refl _⟩, ?_⟩
    have h := Timed_replicate lag hlag ip (D + 1) [] trivial B.toNat (D + 1) (le_refl _)
    rw [List.append_nil] at h
    exact h
  · rw [RateLimiter.verdictsOf_append, RateLimiter.verdictsOf_append, hm]
    intro hall
    have hpost := List.append_cancel_left hall
    have hfresh : ((NewRateLimiter R B).visitor ip 0).limiter.refill 0 = (B : ℚ) :=
      NewLimiter_refill R B 0
    have hdrain := runOps_drains ip 0 m (NewRateLimiter R B) (by rw [hfresh, hmq])
    rw [hfresh, hmq, sub_self] at hdrain
    have hlb := RateLimiter.runOps_limit_burst (List.replicate (m + 1) (Op.allow ip 0 0))
      (NewRateLimiter R B)
    have hswept : (((NewRateLimiter R B).runOps
        (List.replicate (m + 1) (Op.allow ip 0 0))).cleanTickAt
          (fun _ => D + 1) D).visitor ip (D + 1) =
        { limiter := NewLimiter R B (D + 1), lastActive := D + 1 } := by
      simp only [RateLimiter.visitor, RateLimiter.cleanTickAt, hdrain, hlb.1, hlb.2]
      simp [NewRateLimiter]
    have hall1 := verdictsOf_all_admitted ip (D + 1) (m + 1)
      (((NewRateLimiter R B).runOps
        (List.replicate (m + 1) (Op.allow ip 0 0))).cleanTickAt (fun _ => D + 1) D)
      (by rw [hswept, NewLimiter_refill]; push_cast; rw [hmq])
    have hkept : (((NewRateLimiter R B).runOps
        (List.replicate (m + 1) (Op.allow ip 0 0))).visitor ip (D + 1)).limiter.refill
          (D + 1) < (m : ℚ) + 1 := by
      rw [RateLimiter.visitor_of_some _ _ _ _ hdrain, hmq]
      refine lt_of_le_of_lt (min_le_right _ _) ?_
      simp only [zero_add, sub_zero]
      exact hlow
    have hnot := verdictsOf_not_all_admitted ip (D + 1) m _ hkept
    apply hnot
    rw [← hpost]
    exact hall1

/-- C28, a call sequence that refutes its first half: with rate 1 token per
second, burst 1 and idle threshold 1 s, `R * D` is 1 token, the burst. A first
call stamps `lastActive` at instant 0 and its limiter reads the clock 1000 ns
later; the sweep runs 1 s and 1 ns after the stamp and evicts the bucket; a
second call stamps at that instant and its limiter reads the clock 50 ns later.
With the sweep the second call is admitted, from a new bucket; without it the
second call is rejected, because the limiter last refilled less than 1 s
before. -/
theorem sweep_visible_at_claimed_bound :
    ((1 : Int) : ℚ) ≤ (1 : ℚ) * (((1000000000 : Int) : ℚ) / 1000000000) ∧
      Timed 1000 0
        [Op.allow "k".toList 0 1000, Op.sweep (fun _ => 1000000001) 1000000000,
          Op.allow "k".toList 1000000001 1000000051] ∧
      (NewRateLimiter 1 1).verdictsOf
        [Op.allow "k".toList 0 1000, Op.sweep (fun _ => 1000000001) 1000000000,
          Op.allow "k".toList 1000000001 1000000051] = [true, true] ∧
      (NewRateLimiter 1 1).verdictsOf
        [Op.allow "k".toList 0 1000, Op.allow "k".toList 1000000001 1000000051] =
          [true, false] := by
  refine ⟨by norm_num, ?_, ?_, ?_⟩
  · exact ⟨by decide, by decide, by decide, 1000000001,
      fun _ => ⟨show (1000 : Int) ≤ 1000000001 by decide,
        show (1000000001 : Int) ≤ 1000000001 by decide⟩,
      by decide, by decide, by decide, trivial⟩
  · simp [RateLimiter.verdictsOf, RateLimiter.AllowAt, RateLimiter.cleanTickAt,
      RateLimiter.visitor, NewRateLimiter, NewLimiter, Limiter.Allow, Limiter.refill]
  · simp [RateLimiter.verdictsOf, RateLimiter.AllowAt, RateLimiter.visitor, NewRateLimiter,
      NewLimiter, Limiter.Allow, Limiter.refill]
    norm_num

/-- C28 (amended): for a limiter with rate `R >= 0` tokens per second, burst
`B >= 0` and idle threshold `D >= 0` nanoseconds, whose `Allow` calls read the
limiter's clock at most `lag` nanoseconds after they stamp `lastActive`,
eviction is invisible when `R * (D + 1 ns - lag) >= B`: a sweep with threshold
`D` placed anywhere in a timed sequence of `Allow` calls and sweeps changes no
verdict, because a bucket idle for more than `D` was last refilled at least
`D + 1 - lag` nanoseconds ago and is full again, like the new bucket created
after removal. In particular `R * D >= B` is enough when the lag is at most
1 ns. When `R * (D + 1 ns) < B` there is a timed sequence, already with
coinciding readings, whose verdicts differ with and without the sweep: `B`
calls for a key at instant 0, the sweep at `D + 1`, and `B` calls at `D + 1`. -/
theorem sweep_invisible_within_lag (R : ℚ) (B D lag : Int) (hR : 0 ≤ R) (hB : 0 ≤ B)
    (hD : 0 ≤ D) (hlag : 0 ≤ lag) :
    ((B : ℚ) ≤ R * (((D + 1 - lag : Int) : ℚ) / 1000000000) →
      (∀ (pre post : List Op) (since : GoString → Int) (t : Int),
        Timed lag t (pre ++ Op.sweep since D :: post) →
        (NewRateLimiter R B).verdictsOf (pre ++ Op.sweep since D :: post) =
          (NewRateLimiter R B).verdictsOf (pre ++ post)) ∧
      ∀ (l : Limiter) (now : Int), l.limit = R → l.burst = B → 0 ≤ l.tokens →
        D + 1 - lag ≤ now - l.last → l.refill now = (NewLimiter R B now).refill now) ∧
    (lag ≤ 1 → (B : ℚ) ≤ R * (((D : Int) : ℚ) / 1000000000) →
      ∀ (pre post : List Op) (since : GoString → Int) (t : Int),
        Timed lag t (pre ++ Op.sweep since D :: post) →
        (NewRateLimiter R B).verdictsOf (pre ++ Op.sweep since D :: post) =
          (NewRateLimiter R B).verdictsOf (pre ++ post)) ∧
    (R * (((D + 1 : Int) : ℚ) / 1000000000) < (B : ℚ) →
      ∀ ip : GoString,
        Timed lag 0
          (List.replicate B.toNat (Op.allow ip 0 0) ++
            Op.sweep (fun _ => D + 1) D ::
              List.replicate B.toNat (Op.allow ip (D + 1) (D + 1))) ∧
        (NewRateLimiter R B).verdictsOf
            (List.replicate B.toNat (Op.allow ip 0 0) ++
              Op.sweep (fun _ => D + 1) D ::
                List.replicate B.toNat (Op.allow ip (D + 1) (D + 1))) ≠
          (NewRateLimiter R B).verdictsOf
            (List.replicate B.toNat (Op.allow ip 0 0) ++
              List.replicate B.toNat (Op.allow ip (D + 1) (D + 1)))) := by
  refine ⟨?_, ?_, ?_⟩
  · intro h
    refine ⟨fun pre post since t hT =>
      sweep_changes_no_verdict R B D lag hR hB h pre post since t hT, ?_⟩
    intro l now hl hb h0 hidle
    rw [NewLimiter_refill, Limiter.refill_full l (D + 1 - lag) now (by rw [hl]; exact hR)
      (by rw [hl, hb]; exact h) h0 hidle, hb]
  · intro hlag1 h pre post since t hT
    have hstep : ((D : Int) : ℚ) / 1000000000 ≤ ((D + 1 - lag : Int) : ℚ) / 1000000000 := by
      have hz : D ≤ D + 1 - lag := by omega
      have hq : ((D : Int) : ℚ) ≤ ((D + 1 - lag : Int) : ℚ) := by exact_mod_cast hz
      exact div_le_div_of_nonneg_right hq (by norm_num)
    exact sweep_changes_no_verdict R B D lag hR hB
      (le_trans h (mul_le_mul_of_nonneg_left hstep hR)) pre post since t hT
  · intro h ip
    exact sweep_changes_a_verdict R B D lag hR hD hlag h ip

/-- C28 (amended) at concrete inputs. With the configuration of `main`, rate 10,
burst 20 and a threshold of one hour, and a lag of at most 1 ms: a call, a
sweep that evicts its bucket an hour later and a second call have the verdicts
of the two calls alone. With rate 1, burst 2 and a threshold of one second, two
calls at instant 0, the sweep one nanosecond after the threshold and two more
calls do not. -/
theorem sweep_invisible_within_lag_witness :
    (NewRateLimiter 10 20).verdictsOf
        ([Op.allow "a".toList 0 500] ++
          Op.sweep (fun _ => 3600000000501) 3600000000000 ::
            [Op.allow "a".toList 3600000000600 3600000000900]) =
      (NewRateLimiter 10 20).verdictsOf
        ([Op.allow "a".toList 0 500] ++ [Op.allow "a".toList 3600000000600 3600000000900]) ∧
    (NewRateLimiter 1 2).verdictsOf
        (List.replicate (2 : Int).toNat (Op.allow "a".toList 0 0) ++
          Op.sweep (fun _ => 1000000000 + 1) 1000000000 ::
            List.replicate (2 : Int).toNat
              (Op.allow "a".toList (1000000000 + 1) (1000000000 + 1))) ≠
      (NewRateLimiter 1 2).verdictsOf
        (List.replicate (2 : Int).toNat (Op.allow "a".toList 0 0) ++
          List.replicate (2 : Int).toNat
            (Op.allow "a".toList (1000000000 + 1) (1000000000 + 1))) :=
  ⟨((sweep_invisible_within_lag 10 20 3600000000000 1000000 (by norm_num) (by decide)
      (by decide) (by decide)).1 (by norm_num)).1 [Op.allow "a".toList 0 500]
      [Op.allow "a".toList 3600000000600 3600000000900] (fun _ => 3600000000501) 0
      ⟨by decide, by decide, by decide, 3600000000501,
        fun _ => ⟨show (500 : Int) ≤ 3600000000501 by decide,
          show (3600000000501 : Int) ≤ 3600000000501 by decide⟩,
        by decide, by decide, by decide, trivial⟩,
    ((sweep_invisible_within_lag 1 2 1000000000 0 (by norm_num) (by decide)
      (by decide) (by decide)).2.2 (by norm_num) "a".toList).2⟩

end Ratelimiter
